import Mathlib

/-!
# Stan Math primitives: a shallow embedding

The development embeds the argument checks, the log-density / mass / CDF
functions and the factorization cache of the repository (`check_bounded`,
`normal_lpdf`, `hypergeometric_lpmf`, `bernoulli_logit_lpmf`, `gamma_cdf`,
`gumbel_lcdf`, `exp_mod_normal_lpdf`, `LDLT_alloc`, the vectorised `tgamma`
and `trigamma`) as Lean functions and proves the properties the specification
states about them.

Conventions of the embedding.

* A C++ `double` is a value of `Dbl F`: NaN, minus infinity, plus infinity or a
  finite number of an ordered field `F` (`ℚ` for evaluation, `ℝ` where the
  properties speak of logarithms and derivatives).  Comparisons and the
  special values follow IEEE-754.  The operators `+ - * /` on `Dbl F` are
  exact on finite values; `Dbl.radd`, `Dbl.rsub`, `Dbl.rmul` and `Dbl.rdiv`
  round the exact result with a rounding function `rnd : F → Dbl F`, which
  may also overflow to an infinity.  `normal_lpdf` and `exp_mod_normal_lpdf`
  compute with the rounded operations, `rnd` being a parameter;
  `round_double` is the IEEE-754 binary64 rounding (to nearest, ties to
  even) and `Dbl.fin` the rounding of exact arithmetic.  The sign of zero is
  not represented.
* An argument that is "a scalar or a vector" is a `Seq`.
* A function that can throw returns `Except Error _`.
-/

namespace Stan

/-! ## Values -/

/-- A double: NaN, the two infinities, or a finite number. -/
inductive Dbl (F : Type) where
  | nan : Dbl F
  | ninf : Dbl F
  | pinf : Dbl F
  | fin (x : F) : Dbl F
  deriving DecidableEq, Repr

namespace Dbl

variable {F : Type} [LinearOrderedField F]

/-- IEEE `a <= b`: false as soon as one side is NaN. -/
def le : Dbl F → Dbl F → Bool
  | fin a, fin b => decide (a ≤ b)
  | ninf, ninf => true
  | ninf, pinf => true
  | ninf, fin _ => true
  | fin _, pinf => true
  | pinf, pinf => true
  | _, _ => false

/-- IEEE `a < b`: false as soon as one side is NaN. -/
def lt : Dbl F → Dbl F → Bool
  | fin a, fin b => decide (a < b)
  | ninf, pinf => true
  | ninf, fin _ => true
  | fin _, pinf => true
  | _, _ => false

instance : LE (Dbl F) := ⟨fun a b => le a b = true⟩
instance : LT (Dbl F) := ⟨fun a b => lt a b = true⟩
instance : DecidableRel (fun a b : Dbl F => a ≤ b) := fun a b => inferInstanceAs (Decidable (le a b = true))
instance : DecidableRel (fun a b : Dbl F => a < b) := fun a b => inferInstanceAs (Decidable (lt a b = true))

/-- The test `std::isnan`. -/
def isNaN : Dbl F → Bool
  | nan => true
  | _ => false

/-- The test `std::isinf`. -/
def isInf : Dbl F → Bool
  | ninf => true
  | pinf => true
  | _ => false

/-- The test `std::isfinite`. -/
def isFinite : Dbl F → Bool
  | fin _ => true
  | _ => false

/-- Negation. -/
def neg : Dbl F → Dbl F
  | nan => nan
  | ninf => pinf
  | pinf => ninf
  | fin a => fin (-a)

/-- Addition: opposite infinities add up to NaN. -/
def add : Dbl F → Dbl F → Dbl F
  | fin a, fin b => fin (a + b)
  | nan, _ => nan
  | _, nan => nan
  | pinf, ninf => nan
  | ninf, pinf => nan
  | pinf, _ => pinf
  | _, pinf => pinf
  | ninf, _ => ninf
  | _, ninf => ninf

/-- An infinity carrying the sign of `s`; NaN for `s = 0` (the product
`0 * inf`). -/
def signedInf (s : F) : Dbl F :=
  if 0 < s then pinf else if s < 0 then ninf else nan

/-- Multiplication. -/
def mul : Dbl F → Dbl F → Dbl F
  | fin a, fin b => fin (a * b)
  | nan, _ => nan
  | _, nan => nan
  | pinf, pinf => pinf
  | pinf, ninf => ninf
  | ninf, pinf => ninf
  | ninf, ninf => pinf
  | pinf, fin b => signedInf b
  | ninf, fin b => signedInf (-b)
  | fin a, pinf => signedInf a
  | fin a, ninf => signedInf (-a)

/-- Division; a finite zero divisor counts as `+0`. -/
def div : Dbl F → Dbl F → Dbl F
  | fin a, fin b => if b = 0 then signedInf a else fin (a / b)
  | nan, _ => nan
  | _, nan => nan
  | fin _, pinf => fin 0
  | fin _, ninf => fin 0
  | pinf, fin b => if b < 0 then ninf else pinf
  | ninf, fin b => if b < 0 then pinf else ninf
  | pinf, pinf => nan
  | pinf, ninf => nan
  | ninf, pinf => nan
  | ninf, ninf => nan

instance : Neg (Dbl F) := ⟨neg⟩
instance : Add (Dbl F) := ⟨add⟩
instance : Zero (Dbl F) := ⟨fin 0⟩
instance : Sub (Dbl F) := ⟨fun a b => add a (neg b)⟩
instance : Mul (Dbl F) := ⟨mul⟩
instance : Div (Dbl F) := ⟨div⟩
instance : One (Dbl F) := ⟨fin 1⟩

/-- Addition of doubles is associative and commutative with unit `0` (exact
arithmetic on the finite values), so finite sums of doubles are written with
the usual big-sum operator. -/
instance instAddCommMonoid : AddCommMonoid (Dbl F) where
  add := add
  zero := fin 0
  add_assoc := by
    intro a b c
    cases a <;> cases b <;> cases c
    all_goals first | rfl | exact congrArg fin (add_assoc _ _ _)
  zero_add := by
    intro a
    cases a
    all_goals first | rfl | exact congrArg fin (zero_add _)
  add_zero := by
    intro a
    cases a
    all_goals first | rfl | exact congrArg fin (add_zero _)
  add_comm := by
    intro a b
    cases a <;> cases b
    all_goals first | rfl | exact congrArg fin (add_comm _ _)
  nsmul := nsmulRec

/-- The finite number a double holds, and 0 for NaN and the infinities. -/
def toField : Dbl F → F
  | fin v => v
  | _ => 0

/-- The conversion of an `int` to `double`. -/
def ofInt (i : Int) : Dbl F := fin (i : F)

/-- The result of an arithmetic operation as a double: a finite exact result
`x` becomes `rnd x` (the double nearest to `x`, or an infinity when `x`
overflows); NaN and the infinities stay as they are. -/
def round (rnd : F → Dbl F) : Dbl F → Dbl F
  | fin x => rnd x
  | d => d

/-- The double sum `a + b` under the rounding `rnd`. -/
def radd (rnd : F → Dbl F) (a b : Dbl F) : Dbl F := round rnd (a + b)

/-- The double difference `a - b` under the rounding `rnd`. -/
def rsub (rnd : F → Dbl F) (a b : Dbl F) : Dbl F := round rnd (a - b)

/-- The double product `a * b` under the rounding `rnd`. -/
def rmul (rnd : F → Dbl F) (a b : Dbl F) : Dbl F := round rnd (a * b)

/-- The double quotient `a / b` under the rounding `rnd`. -/
def rdiv (rnd : F → Dbl F) (a b : Dbl F) : Dbl F := round rnd (a / b)

end Dbl

section RoundDouble

variable {F : Type} [LinearOrderedField F] [FloorRing F]

/-- The integer nearest to `x`, the even one of the two when `x` lies half way
between them. -/
def round_half_even (x : F) : Int :=
  let f := Int.floor x
  if x - f < 1 / 2 then f
  else if 1 / 2 < x - f then f + 1
  else if f % 2 = 0 then f
  else f + 1

/-- The IEEE-754 binary64 rounding of a real number, to nearest with ties to
even.  A number of magnitude at least `2^1024 - 2^970` (the largest double
plus half a unit in its last place) overflows to an infinity.  Otherwise the
number lies in the binade `[2^e, 2^(e+1))`, with `e` no less than `-1022` (the
subnormal numbers share the spacing of the smallest binade); the doubles there
are the multiples of `2^(e - 52)`, and the result is the nearest multiple. -/
def round_double (x : F) : Dbl F :=
  if (2 : F) ^ 1024 - 2 ^ 970 ≤ |x| then
    (if 0 < x then Dbl.pinf else Dbl.ninf)
  else
    let e : Int := max (Int.log 2 |x|) (-1022)
    let ulp : F := (2 : F) ^ (e - 52)
    Dbl.fin ((round_half_even (x / ulp) : F) * ulp)

end RoundDouble

/-- What a function of the library throws.  `out_of_range` stands for an
access past the end of a vector, which the C++ code leaves undefined. -/
inductive Error where
  | domain_error : Error
  | domain_error_vec (index : Nat) : Error
  | invalid_argument : Error
  | out_of_range : Error
  deriving DecidableEq, Repr

instance instDecidableEqExcept {ε α : Type} [DecidableEq ε] [DecidableEq α] : DecidableEq (Except ε α)
  | Except.ok a, Except.ok b =>
    if h : a = b then isTrue (by rw [h]) else isFalse (fun h2 => h (by injection h2))
  | Except.error a, Except.error b =>
    if h : a = b then isTrue (by rw [h]) else isFalse (fun h2 => h (by injection h2))
  | Except.ok _, Except.error _ => isFalse (fun h => by cases h)
  | Except.error _, Except.ok _ => isFalse (fun h => by cases h)

/-- An argument of a vectorised function: one scalar, or a vector. -/
inductive Seq (α : Type) where
  | scalar (x : α) : Seq α
  | vec (xs : List α) : Seq α
  deriving DecidableEq, Repr

namespace Seq

variable {α : Type}

/-- Modelled from the spec: the trait `is_vector_like<T>` (`traits.hpp` is not
among the sources): whether the argument is a vector. -/
def is_vector : Seq α → Bool
  | scalar _ => false
  | vec _ => true

/-- Modelled from the spec: the function `length` (and `size`), not among the
sources: 1 for a scalar, the number of elements of a vector. -/
def length : Seq α → Nat
  | scalar _ => 1
  | vec xs => xs.length

/-- Modelled from the spec: the view `VectorView` / `scalar_seq_view` (not
among the sources), which broadcasts a scalar: `v[n]` is the scalar itself
whatever `n` is, and the `n`-th element of a vector (`none` past its end). -/
def get? : Seq α → Nat → Option α
  | scalar x, _ => some x
  | vec xs, n => xs.get? n

/-- The elements, in order. -/
def toList : Seq α → List α
  | scalar x => [x]
  | vec xs => xs

end Seq

/-- Modelled from the spec: the function `max_size` of two arguments (not
among the sources), the larger of the two lengths. -/
def max_size2 {α β : Type} (a : Seq α) (b : Seq β) : Nat :=
  max a.length b.length

/-- A counted loop `for (n = start; n < start + count; n++) body(n)` whose
body may throw: the first exception leaves the loop. -/
def loopFrom (body : Nat → Except Error Unit) : Nat → Nat → Except Error Unit
  | _, 0 => pure ()
  | start, count + 1 =>
    match body start with
    | Except.error e => Except.error e
    | Except.ok _ => loopFrom body (start + 1) count

/-! ## check_bounded -/

section CheckBounded

variable {α : Type} [LE α] [DecidableRel (fun a b : α => a ≤ b)]

/-- The test `low_vec[n] <= y && y <= high_vec[n]` of `check_bounded`, with
the two views read at `n`. -/
def bounded_at (y : α) (low high : Seq α) (n : Nat) (err : Error) : Except Error Unit :=
  match low.get? n, high.get? n with
  | some l, some h => if ¬ (l ≤ y ∧ y ≤ h) then Except.error err else pure ()
  | _, _ => Except.error Error.out_of_range

/-- The struct `detail::bounded<T_y, T_low, T_high, false>::check`: scalar `y`. -/
def bounded_scalar_check (y : α) (low high : Seq α) : Except Error Bool :=
  match loopFrom (fun n => bounded_at y low high n Error.domain_error) 0 (max_size2 low high) with
  | Except.error e => Except.error e
  | Except.ok _ => pure true

/-- One iteration of the loop of `detail::bounded<T_y, T_low, T_high, true>::check`. -/
def bounded_vec_at (y : List α) (low high : Seq α) (n : Nat) : Except Error Unit :=
  match y.get? n with
  | some yn => bounded_at yn low high n (Error.domain_error_vec n)
  | none => Except.error Error.out_of_range

/-- The struct `detail::bounded<T_y, T_low, T_high, true>::check`: vector `y`. -/
def bounded_vec_check (y : List α) (low high : Seq α) : Except Error Bool :=
  match loopFrom (bounded_vec_at y low high) 0 y.length with
  | Except.error e => Except.error e
  | Except.ok _ => pure true

/-- The function `check_bounded`: dispatch on `is_vector_like<T_y>`. -/
def check_bounded (y : Seq α) (low high : Seq α) : Except Error Bool :=
  match y with
  | Seq.scalar x => bounded_scalar_check x low high
  | Seq.vec xs => bounded_vec_check xs low high

end CheckBounded

section BoundsPredicates

variable {α : Type} [LE α]

/-- The pair of bounds read at position `n` exists and encloses `y`. -/
def InBounds (y : α) (low high : Seq α) (n : Nat) : Prop :=
  ∃ l h, low.get? n = some l ∧ high.get? n = some h ∧ l ≤ y ∧ y ≤ h

/-- Both bound views can be read at every position below `N`: each bound is
a scalar or a vector of at least `N` elements. -/
def Readable (low high : Seq α) (N : Nat) : Prop :=
  ∀ n, n < N → (low.get? n).isSome = true ∧ (high.get? n).isSome = true

instance instDecidableInBounds [DecidableRel (fun a b : α => a ≤ b)] (y : α) (low high : Seq α) (n : Nat) :
    Decidable (InBounds y low high n) :=
  match hl : low.get? n, hh : high.get? n with
  | some l, some h =>
    decidable_of_iff (l ≤ y ∧ y ≤ h)
      ⟨fun hc => ⟨l, h, hl, hh, hc.1, hc.2⟩, fun ⟨l2, h2, hl2, hh2, h1, h3⟩ => by
        rw [hl] at hl2; rw [hh] at hh2
        cases hl2; cases hh2
        exact ⟨h1, h3⟩⟩
  | none, _ => isFalse (fun ⟨l2, _, hl2, _, _, _⟩ => by rw [hl] at hl2; cases hl2)
  | _, none => isFalse (fun ⟨_, h2, _, hh2, _, _⟩ => by rw [hh] at hh2; cases hh2)

instance instDecidableReadable (low high : Seq α) (N : Nat) : Decidable (Readable low high N) :=
  inferInstanceAs (Decidable (∀ n, n < N → (low.get? n).isSome = true ∧ (high.get? n).isSome = true))

end BoundsPredicates

/-! ## Argument checks and operand views used by the densities

The headers of these helpers (`prim/scal/err/*.hpp`, `prim/meta.hpp`) are not
among the sources; each is modelled from its call sites, from the doc comments
of the functions that call it and from section 4.4 of the specification. -/

namespace Seq

variable {α : Type}

/-- The view `scalar_seq_view`, read at a position that exists: the scalar
itself, or the `n`-th element of the vector (`d` stands for a read past the
end, which `check_consistent_sizes` rules out before any loop runs). -/
def getD (s : Seq α) (n : Nat) (d : α) : α :=
  (s.get? n).getD d

end Seq

/-- Modelled from the spec: the elementwise argument checks (`check_not_nan`,
`check_finite`, `check_positive`, ...), whose headers are not among the
sources.  Each raises `std::domain_error` at the first element that fails the
test `p`, naming the index when the argument is a vector. -/
def check_elements {α : Type} (p : α → Bool) (x : Seq α) : Except Error Unit :=
  match x with
  | Seq.scalar v => if p v then pure () else Except.error Error.domain_error
  | Seq.vec vs =>
    loopFrom (fun n =>
      match vs.get? n with
      | some v => if p v then pure () else Except.error (Error.domain_error_vec n)
      | none => Except.error Error.out_of_range) 0 vs.length

/-- Whether an error is a `std::domain_error`. -/
def Error.is_domain_error : Error → Bool
  | Error.domain_error => true
  | Error.domain_error_vec _ => true
  | _ => false

section Checks

variable {F : Type} [LinearOrderedField F]

/-- Modelled from the spec: `check_not_nan` raises `std::domain_error` when an
element is NaN. -/
def check_not_nan (x : Seq (Dbl F)) : Except Error Unit :=
  check_elements (fun v => !v.isNaN) x

/-- Modelled from the spec: `check_finite` raises `std::domain_error` when an
element is NaN or infinite. -/
def check_finite (x : Seq (Dbl F)) : Except Error Unit :=
  check_elements (fun v => v.isFinite) x

/-- Modelled from the spec: `check_positive` raises `std::domain_error` when
an element is not greater than 0 ("if the scale is not positive"). -/
def check_positive (x : Seq (Dbl F)) : Except Error Unit :=
  check_elements (fun v => decide ((0 : Dbl F) < v)) x

/-- Modelled from the spec: `check_positive_finite` raises `std::domain_error`
when an element is not greater than 0 or is not finite. -/
def check_positive_finite (x : Seq (Dbl F)) : Except Error Unit :=
  check_elements (fun v => decide ((0 : Dbl F) < v) && v.isFinite) x

/-- Modelled from the spec: `check_nonnegative` raises `std::domain_error`
when an element is not greater than or equal to 0. -/
def check_nonnegative (x : Seq (Dbl F)) : Except Error Unit :=
  check_elements (fun v => decide ((0 : Dbl F) ≤ v)) x

end Checks

/-- The shape of an argument: `none` for a scalar, the length for a vector. -/
def Seq.shape {α : Type} : Seq α → Option Nat
  | Seq.scalar _ => none
  | Seq.vec xs => some xs.length

/-- Modelled from the spec: `check_consistent_sizes` raises
`std::invalid_argument` unless all the vector arguments have the same length
("Any vector inputs must be the same length"); scalars fit any length. -/
def check_consistent_sizes (shapes : List (Option Nat)) : Except Error Unit :=
  let max_size := (shapes.map (fun s => s.getD 0)).foldl max 0
  if shapes.all (fun s => match s with
      | none => true
      | some n => n == max_size) then pure ()
  else Except.error Error.invalid_argument

/-- Modelled from the spec: the function `max_size` of any number of
arguments (not among the sources), given their lengths: the largest one. -/
def max_size (lengths : List Nat) : Nat :=
  lengths.foldl max 0

/-- Modelled from the spec: the function `size_zero` of any number of
arguments (not among the sources), given their lengths: some argument is an
empty container. -/
def size_zero (lengths : List Nat) : Bool :=
  lengths.any (fun n => n == 0)

/-- Modelled from the spec: the trait `include_summand<propto, T...>::value`
(not among the sources): a term is kept unless `propto` is set and all of the
listed operand types are constants. -/
def include_summand (propto : Bool) (is_constant : List Bool) : Bool :=
  !propto || !(is_constant.all id)

/-! ## Operands and partials (section 4.4) -/

/-- An operand of a differentiable primitive: its value(s), and whether its
type is a constant (`is_constant_all<T>::value`) or a differentiable one. -/
structure Operand (F : Type) where
  val : Seq (Dbl F)
  is_constant : Bool

namespace Operand

variable {F : Type}

/-- A constant operand (`double` or a container of them). -/
def const (v : Seq (Dbl F)) : Operand F := ⟨v, true⟩

/-- A differentiable operand (`var` or a container of them). -/
def var (v : Seq (Dbl F)) : Operand F := ⟨v, false⟩

end Operand

/-- Add `v` to the element `i` of a buffer (nothing past its end). -/
def add_at {F : Type} [LinearOrderedField F] : List (Dbl F) → Nat → Dbl F → List (Dbl F)
  | [], _, _ => []
  | p :: ps, 0, v => (p + v) :: ps
  | p :: ps, i + 1, v => p :: add_at ps i v

/-- Modelled from the spec: one edge of `operands_and_partials` (its header is
not among the sources).  Section 4.4: "For each differentiable operand, an
internal partials buffer sized to that operand's element count is allocated
... and zero-initialized"; a constant operand has no buffer. -/
def Edge.init {F : Type} [LinearOrderedField F] (op : Operand F) : List (Dbl F) :=
  if op.is_constant then [] else List.replicate op.val.length 0

/-- Modelled from the spec: the update `edge.partials_[n] += v`.  For a vector
operand it adds to element `n`; for a scalar operand the buffer has one
element and every position adds to it (section 4.4: "partials must be summed
across all broadcast positions into that single element"). -/
def Edge.add {F : Type} [LinearOrderedField F] (op : Operand F) (partials : List (Dbl F))
    (n : Nat) (v : Dbl F) : List (Dbl F) :=
  add_at partials (if op.val.is_vector then n else 0) v

/-- Add `v` to the element `i` of a buffer with the double addition under the
rounding `rnd` (nothing past its end). -/
def radd_at {F : Type} [LinearOrderedField F] (rnd : F → Dbl F) :
    List (Dbl F) → Nat → Dbl F → List (Dbl F)
  | [], _, _ => []
  | p :: ps, 0, v => Dbl.radd rnd p v :: ps
  | p :: ps, i + 1, v => p :: radd_at rnd ps i v

/-- Modelled from the spec: the update `edge.partials_[n] += v` of section 4.4
(see `Edge.add`) with the double addition under the rounding `rnd`. -/
def Edge.radd {F : Type} [LinearOrderedField F] (rnd : F → Dbl F) (op : Operand F)
    (partials : List (Dbl F)) (n : Nat) (v : Dbl F) : List (Dbl F) :=
  radd_at rnd partials (if op.val.is_vector then n else 0) v

/-- The result of `ops_partials.build(value)`: the value, and for each operand
the partials the new node keeps (an empty buffer for a constant operand: when
all three are constants the result is the plain number). -/
structure Ret (F : Type) where
  value : Dbl F
  partials1 : List (Dbl F)
  partials2 : List (Dbl F)
  partials3 : List (Dbl F)
  deriving DecidableEq, Repr

/-! ## normal_lpdf -/

section NormalLpdf

variable {F : Type} [LinearOrderedField F]

/-- The constant `NEGATIVE_HALF = -0.5`. -/
def NEGATIVE_HALF : Dbl F := Dbl.fin (-(1 / 2))

/-- The body of the loop of `normal_lpdf` at position `n`, acting on `logp`
and the three partials buffers.  Every arithmetic operation is the double
operation under the rounding `rnd`; `log` is `std::log`, and
`NEG_LOG_SQRT_TWO_PI` the constant of `constants.hpp` (not among the
sources).  The update `partials_[n] -= scaled_diff` adds the negation, which
is the same double. -/
def normal_lpdf_step (rnd : F → Dbl F) (log : Dbl F → Dbl F) (NEG_LOG_SQRT_TWO_PI : Dbl F)
    (propto : Bool) (y mu sigma : Operand F) (s : Ret F) (n : Nat) : Ret F :=
  let sigma_n := sigma.val.getD n Dbl.nan
  let inv_sigma := Dbl.rdiv rnd 1 sigma_n
  let y_dbl := y.val.getD n Dbl.nan
  let mu_dbl := mu.val.getD n Dbl.nan
  let y_minus_mu_over_sigma := Dbl.rmul rnd (Dbl.rsub rnd y_dbl mu_dbl) inv_sigma
  let y_minus_mu_over_sigma_squared :=
    Dbl.rmul rnd y_minus_mu_over_sigma y_minus_mu_over_sigma
  let logp1 :=
    if include_summand propto [] then Dbl.radd rnd s.value NEG_LOG_SQRT_TWO_PI else s.value
  let logp2 :=
    if include_summand propto [sigma.is_constant] then Dbl.rsub rnd logp1 (log sigma_n)
    else logp1
  let logp3 :=
    if include_summand propto [y.is_constant, mu.is_constant, sigma.is_constant] then
      Dbl.radd rnd logp2 (Dbl.rmul rnd NEGATIVE_HALF y_minus_mu_over_sigma_squared)
    else logp2
  let scaled_diff := Dbl.rmul rnd inv_sigma y_minus_mu_over_sigma
  let p1 :=
    if !y.is_constant then Edge.radd rnd y s.partials1 n (-scaled_diff) else s.partials1
  let p2 :=
    if !mu.is_constant then Edge.radd rnd mu s.partials2 n scaled_diff else s.partials2
  let p3 :=
    if !sigma.is_constant then
      Edge.radd rnd sigma s.partials3 n
        (Dbl.radd rnd (-inv_sigma) (Dbl.rmul rnd inv_sigma y_minus_mu_over_sigma_squared))
    else s.partials3
  ⟨logp3, p1, p2, p3⟩

/-- The function `normal_lpdf<propto>(y, mu, sigma)`, computing in double
arithmetic under the rounding `rnd`. -/
def normal_lpdf (rnd : F → Dbl F) (log : Dbl F → Dbl F) (NEG_LOG_SQRT_TWO_PI : Dbl F)
    (propto : Bool) (y mu sigma : Operand F) : Except Error (Ret F) := do
  check_not_nan y.val
  check_finite mu.val
  check_positive sigma.val
  check_consistent_sizes [y.val.shape, mu.val.shape, sigma.val.shape]
  let N := max_size [y.val.length, mu.val.length, sigma.val.length]
  let ops_partials : Ret F := ⟨0, Edge.init y, Edge.init mu, Edge.init sigma⟩
  if !include_summand propto [y.is_constant, mu.is_constant, sigma.is_constant] then
    return ops_partials
  else if size_zero [y.val.length, mu.val.length, sigma.val.length] then
    return ops_partials
  else
    return (List.range N).foldl (normal_lpdf_step rnd log NEG_LOG_SQRT_TWO_PI propto y mu sigma)
      ops_partials

end NormalLpdf

/-- All the vector arguments have the same length (scalars have the shape
`none` and fit any length). -/
def SameLength (shapes : List (Option Nat)) : Prop :=
  ∀ a ∈ shapes, ∀ b ∈ shapes, a.isSome = true → b.isSome = true → a = b

instance instDecidableSameLength (shapes : List (Option Nat)) : Decidable (SameLength shapes) :=
  inferInstanceAs (Decidable (∀ a ∈ shapes, ∀ b ∈ shapes, a.isSome = true → b.isSome = true → a = b))

/-- The log density of one observation / mean / deviation triple, as the
specification writes it:
`-log(sqrt(2*pi)) - log(sigma) - 0.5 * ((y - mu) / sigma)^2`, the first term
being the constant `NEG_LOG_SQRT_TWO_PI`. -/
def normal_log_density_spec {F : Type} [LinearOrderedField F] (log : Dbl F → Dbl F)
    (NEG_LOG_SQRT_TWO_PI : Dbl F) (y mu sigma : Dbl F) : Dbl F :=
  NEG_LOG_SQRT_TWO_PI - log sigma - Dbl.fin (1 / 2) * (((y - mu) / sigma) * ((y - mu) / sigma))

/-- The number a call returns, for stating derivatives: the finite value of
the result, and 0 when the call throws or its value is not finite. -/
def returned_value {F : Type} [LinearOrderedField F] (r : Except Error (Ret F)) : F :=
  match r with
  | Except.ok ret => ret.value.toField
  | Except.error _ => 0

/-! ## hypergeometric_lpmf -/

/-- Modelled from the spec: `check_greater(function, name, y, low)`, whose
header is not among the sources.  It raises `std::domain_error` unless
`y > low[n]` at every position: over the elements of `low` for a scalar `y`,
over the elements of `y` for a vector `y`. -/
def check_greater {α : Type} [LT α] [DecidableRel (fun a b : α => a < b)]
    (y low : Seq α) : Except Error Unit :=
  match y with
  | Seq.scalar x =>
    loopFrom (fun n =>
      match low.get? n with
      | some l => if ¬ (l < x) then Except.error Error.domain_error else pure ()
      | none => Except.error Error.out_of_range) 0 low.length
  | Seq.vec xs =>
    loopFrom (fun n =>
      match xs.get? n, low.get? n with
      | some x, some l => if ¬ (l < x) then Except.error (Error.domain_error_vec n) else pure ()
      | _, _ => Except.error Error.out_of_range) 0 xs.length

section Hypergeometric

variable {F : Type} [LinearOrderedField F]

/-- The first loop of `hypergeometric_lpmf` at position `i`: the two bound
checks on `N[i] - n[i]` and on `N[i]`.  The `int` arithmetic is exact (the
C++ leaves signed overflow undefined). -/
def hypergeometric_check_at (n N a b : Seq Int) (i : Nat) : Except Error Unit := do
  let n_i := n.getD i 0
  let N_i := N.getD i 0
  let a_i := a.getD i 0
  let b_i := b.getD i 0
  let _ ← check_bounded (Seq.scalar (N_i - n_i)) (Seq.scalar 0) (Seq.scalar b_i)
  let _ ← check_bounded (Seq.scalar N_i) (Seq.scalar 0) (Seq.scalar (a_i + b_i))
  pure ()

/-- The term the second loop of `hypergeometric_lpmf` adds at position `i`. -/
def hypergeometric_term (binomial_coefficient_log : Int → Int → Dbl F) (n N a b : Seq Int)
    (i : Nat) : Dbl F :=
  let n_i := n.getD i 0
  let N_i := N.getD i 0
  let a_i := a.getD i 0
  let b_i := b.getD i 0
  binomial_coefficient_log a_i n_i + binomial_coefficient_log b_i (N_i - n_i)
    - binomial_coefficient_log (a_i + b_i) N_i

/-- The function `hypergeometric_lpmf<propto>(n, N, a, b)`;
`binomial_coefficient_log` is the function of that name (its header is not
among the sources). -/
def hypergeometric_lpmf (binomial_coefficient_log : Int → Int → Dbl F) (propto : Bool)
    (n N a b : Seq Int) : Except Error (Dbl F) := do
  let _ ← check_bounded n (Seq.scalar 0) a
  check_greater N n
  check_consistent_sizes [n.shape, N.shape, a.shape, b.shape]
  let size := max_size [n.length, N.length, a.length, b.length]
  if !include_summand propto [] || size_zero [n.length, N.length, a.length, b.length] then
    return 0
  else
    loopFrom (hypergeometric_check_at n N a b) 0 size
    return (List.range size).foldl
      (fun logp i => logp + hypergeometric_term binomial_coefficient_log n N a b i) 0

end Hypergeometric

/-! ## bernoulli_logit_lpmf -/

section BernoulliLogit

variable {F : Type} [LinearOrderedField F]

/-- The body of the loop of `bernoulli_logit_lpmf` at position `i`, acting on
`logp` and on the partials of `theta`; `exp` is `std::exp` and `log1p` the
function of that name. -/
def bernoulli_logit_lpmf_step (exp log1p : Dbl F → Dbl F) (n : Seq Int) (theta : Operand F)
    (s : Ret F) (i : Nat) : Ret F :=
  let theta_dbl := theta.val.getD i Dbl.nan
  let sign : Int := 2 * n.getD i 0 - 1
  let ntheta := Dbl.ofInt sign * theta_dbl
  let exp_m_ntheta := exp (-ntheta)
  let cutoff : Dbl F := Dbl.fin 20
  let logp :=
    if cutoff < ntheta then s.value - exp_m_ntheta
    else if ntheta < -cutoff then s.value + ntheta
    else s.value - log1p exp_m_ntheta
  let p1 :=
    if !theta.is_constant then
      if cutoff < ntheta then Edge.add theta s.partials1 i (-exp_m_ntheta)
      else if ntheta < -cutoff then Edge.add theta s.partials1 i (Dbl.ofInt sign)
      else Edge.add theta s.partials1 i (Dbl.ofInt sign * exp_m_ntheta / (exp_m_ntheta + 1))
    else s.partials1
  ⟨logp, p1, s.partials2, s.partials3⟩

/-- The function `bernoulli_logit_lpmf<propto>(n, theta)`. -/
def bernoulli_logit_lpmf (exp log1p : Dbl F → Dbl F) (propto : Bool) (n : Seq Int)
    (theta : Operand F) : Except Error (Ret F) := do
  let _ ← check_bounded n (Seq.scalar 0) (Seq.scalar 1)
  check_not_nan theta.val
  check_consistent_sizes [n.shape, theta.val.shape]
  let N := max_size [n.length, theta.val.length]
  let ops_partials : Ret F := ⟨0, Edge.init theta, [], []⟩
  if !include_summand propto [theta.is_constant] then
    return ops_partials
  else if size_zero [n.length, theta.val.length] then
    return ops_partials
  else
    return (List.range N).foldl (bernoulli_logit_lpmf_step exp log1p n theta) ops_partials

end BernoulliLogit

/-- The binomial coefficient `C(m, k)` of two `int` values. -/
def choose_int (m k : Int) : Nat := Nat.choose m.toNat k.toNat

/-! ## gamma_cdf -/

section GammaCdf

variable {F : Type} [LinearOrderedField F]

/-- IEEE `a == b`: false as soon as one side is NaN. -/
def Dbl.eq : Dbl F → Dbl F → Bool
  | Dbl.nan, _ => false
  | _, Dbl.nan => false
  | a, b => decide (a = b)

/-- The special functions `gamma_cdf` calls (`std::exp`, `std::pow`, `tgamma`,
`digamma`, `gamma_p`, `grad_reg_inc_gamma`); their headers are not among the
sources, so the model takes them as parameters. -/
structure GammaFunctions (F : Type) where
  exp : Dbl F → Dbl F
  pow : Dbl F → Dbl F → Dbl F
  tgamma : Dbl F → Dbl F
  digamma : Dbl F → Dbl F
  gamma_p : Dbl F → Dbl F → Dbl F
  grad_reg_inc_gamma : Dbl F → Dbl F → Dbl F → Dbl F → Dbl F

/-- The body of the main loop of `gamma_cdf` at position `n`, acting on `P`
and the three partials buffers.  `gamma_vec[n]` and `digamma_vec[n]` hold
`tgamma(alpha_n)` and `digamma(alpha_n)`. -/
def gamma_cdf_step (fns : GammaFunctions F) (y alpha beta : Operand F) (s : Ret F) (n : Nat) :
    Ret F :=
  let y_dbl := y.val.getD n Dbl.nan
  if Dbl.eq y_dbl Dbl.pinf then s
  else
    let alpha_dbl := alpha.val.getD n Dbl.nan
    let beta_dbl := beta.val.getD n Dbl.nan
    let Pn := fns.gamma_p alpha_dbl (beta_dbl * y_dbl)
    let P := s.value * Pn
    let p1 :=
      if !y.is_constant then
        Edge.add y s.partials1 n
          (beta_dbl * fns.exp (-beta_dbl * y_dbl) * fns.pow (beta_dbl * y_dbl) (alpha_dbl - 1)
            / fns.tgamma alpha_dbl / Pn)
      else s.partials1
    let p2 :=
      if !alpha.is_constant then
        Edge.add alpha s.partials2 n
          (-(fns.grad_reg_inc_gamma alpha_dbl (beta_dbl * y_dbl) (fns.tgamma alpha_dbl)
            (fns.digamma alpha_dbl) / Pn))
      else s.partials2
    let p3 :=
      if !beta.is_constant then
        Edge.add beta s.partials3 n
          (y_dbl * fns.exp (-beta_dbl * y_dbl) * fns.pow (beta_dbl * y_dbl) (alpha_dbl - 1)
            / fns.tgamma alpha_dbl / Pn)
      else s.partials3
    ⟨P, p1, p2, p3⟩

/-- The function `gamma_cdf(y, alpha, beta)`.  The three closing loops
`partials_[n] *= P` run over the whole buffer of their operand. -/
def gamma_cdf (fns : GammaFunctions F) (y alpha beta : Operand F) : Except Error (Ret F) :=
  if size_zero [y.val.length, alpha.val.length, beta.val.length] then
    pure ⟨1, [], [], []⟩
  else do
    check_positive_finite alpha.val
    check_positive_finite beta.val
    check_not_nan y.val
    check_nonnegative y.val
    check_consistent_sizes [y.val.shape, alpha.val.shape, beta.val.shape]
    let N := max_size [y.val.length, alpha.val.length, beta.val.length]
    let ops_partials : Ret F := ⟨1, Edge.init y, Edge.init alpha, Edge.init beta⟩
    if (List.range y.val.length).any (fun i => Dbl.eq (y.val.getD i Dbl.nan) 0) then
      return { ops_partials with value := 0 }
    else
      let s := (List.range N).foldl (gamma_cdf_step fns y alpha beta) ops_partials
      let P := s.value
      return ⟨P, s.partials1.map (fun p => p * P), s.partials2.map (fun p => p * P),
        s.partials3.map (fun p => p * P)⟩

end GammaCdf

/-! ## gumbel_lcdf -/

section GumbelLcdf

variable {F : Type} [LinearOrderedField F]

/-- The body of the loop of `gumbel_lcdf` at position `n`, acting on `cdf_log`
and the three partials buffers; `exp` is `std::exp`. -/
def gumbel_lcdf_step (exp : Dbl F → Dbl F) (y mu beta : Operand F) (s : Ret F) (n : Nat) :
    Ret F :=
  let y_dbl := y.val.getD n Dbl.nan
  let mu_dbl := mu.val.getD n Dbl.nan
  let beta_dbl := beta.val.getD n Dbl.nan
  let scaled_diff := (y_dbl - mu_dbl) / beta_dbl
  let rep_deriv := exp (-scaled_diff) / beta_dbl
  let cdf_log := s.value - exp (-scaled_diff)
  let p1 := if !y.is_constant then Edge.add y s.partials1 n rep_deriv else s.partials1
  let p2 := if !mu.is_constant then Edge.add mu s.partials2 n (-rep_deriv) else s.partials2
  let p3 :=
    if !beta.is_constant then Edge.add beta s.partials3 n (-(rep_deriv * scaled_diff))
    else s.partials3
  ⟨cdf_log, p1, p2, p3⟩

/-- The function `gumbel_lcdf(y, mu, beta)`. -/
def gumbel_lcdf (exp : Dbl F → Dbl F) (y mu beta : Operand F) : Except Error (Ret F) :=
  if size_zero [y.val.length, mu.val.length, beta.val.length] then
    pure ⟨0, [], [], []⟩
  else do
    check_not_nan y.val
    check_finite mu.val
    check_not_nan beta.val
    check_positive beta.val
    check_consistent_sizes [y.val.shape, mu.val.shape, beta.val.shape]
    let ops_partials : Ret F := ⟨0, Edge.init y, Edge.init mu, Edge.init beta⟩
    let N := max_size [y.val.length, mu.val.length, beta.val.length]
    return (List.range N).foldl (gumbel_lcdf_step exp y mu beta) ops_partials

end GumbelLcdf

/-! ## LDLT_alloc -/

/-- A node of the reverse-mode tape (`vari`): where it lives on the arena, its
value and its adjoint. -/
structure vari (F : Type) where
  address : Nat
  val_ : Dbl F
  adj_ : Dbl F
  deriving DecidableEq, Repr

/-- A differentiable value (`var`): a reference to its node. -/
structure var (F : Type) where
  vi_ : vari F
  deriving DecidableEq, Repr

/-- Modelled from the spec: the matrix method `A.vi()` (the Eigen plug-in is
not among the sources), "the matrix of input node references": the node of
each entry. -/
def var.matrix_vi {F : Type} (A : List (List (var F))) : List (List (vari F)) :=
  A.map (fun row => row.map (fun a => a.vi_))

/-- Modelled from the spec: the matrix method `A.val()` (the Eigen plug-in is
not among the sources), "the current values of the input nodes": the value of
each entry. -/
def var.matrix_val {F : Type} (A : List (List (var F))) : List (List (Dbl F)) :=
  A.map (fun row => row.map (fun a => a.vi_.val_))

/-- The class `Eigen::LDLT<Eigen::Matrix<double, R, C>>` of the Eigen library,
as far as `LDLT_alloc` uses it: the default-constructed object, the method
`compute` and the accessor `vectorD` (the diagonal `D`). -/
structure EigenLDLT (F : Type) (L : Type) where
  default : L
  compute : L → List (List (Dbl F)) → L
  vectorD : L → List (Dbl F)

/-- The class `LDLT_alloc<R, C>`: its three members.  A matrix is the list of
its rows. -/
structure LDLT_alloc (F : Type) (L : Type) where
  N_ : Nat
  ldlt_ : L
  variA_ : List (List (vari F))

namespace LDLT_alloc

variable {F : Type} {L : Type}

/-- The constructor `LDLT_alloc() : N_(0) {}`; the other two members are
default-constructed. -/
def mk_default (eigen : EigenLDLT F L) : LDLT_alloc F L :=
  ⟨0, eigen.default, []⟩

/-- The method `compute(A)`: `N_ = A.rows(); variA_ = A.vi();
ldlt_.compute(A.val());`. -/
def compute (eigen : EigenLDLT F L) (self : LDLT_alloc F L) (A : List (List (var F))) :
    LDLT_alloc F L :=
  { N_ := A.length
    variA_ := var.matrix_vi A
    ldlt_ := eigen.compute self.ldlt_ (var.matrix_val A) }

/-- The constructor `LDLT_alloc(A) : N_(0) { compute(A); }`. -/
def mk_of_matrix (eigen : EigenLDLT F L) (A : List (List (var F))) : LDLT_alloc F L :=
  compute eigen (mk_default eigen) A

/-- The method `log_abs_det()`: `sum(log(ldlt_.vectorD().array()))`, with
`log` the elementwise `std::log`. -/
def log_abs_det [LinearOrderedField F] (eigen : EigenLDLT F L) (log : Dbl F → Dbl F)
    (self : LDLT_alloc F L) : Dbl F :=
  ((eigen.vectorD self.ldlt_).map log).sum

end LDLT_alloc

/-- The entry `(i, j)` of a matrix given by its rows. -/
def matrix_entry {α : Type} (A : List (List α)) (i j : Nat) : Option α :=
  (A.get? i).bind (fun row => row.get? j)

/-- Modelled from the spec: the autodiff memory (`ChainableStack`, whose header
is not among the sources).  `var_stack_` is the tape, "an ordered sequence of
node references, append-only during forward evaluation" (section 3), and
`var_alloc_stack_` the cleanup list of "auxiliary objects registered for bulk
cleanup" (section 4.1), each object known by its address. -/
structure ChainableStack (F : Type) where
  var_stack_ : List (vari F)
  var_alloc_stack_ : List Nat
  deriving DecidableEq, Repr

/-- Modelled from the spec: the constructor of the base class
`chainable_alloc` (not among the sources).  Section 4.5: "This object is
registered with the arena's cleanup list"; it is "never placed on the tape"
(section 3). -/
def chainable_alloc.register {F : Type} (stack : ChainableStack F) (object : Nat) :
    ChainableStack F :=
  { stack with var_alloc_stack_ := stack.var_alloc_stack_ ++ [object] }

/-- The method `compute(A)` run on the autodiff memory.  Its three statements
call `A.rows()`, `A.vi()`, `A.val()` and `ldlt_.compute`; none of them makes a
`vari` or registers an object, so the memory is handed on as it is. -/
def LDLT_alloc.compute_in {F : Type} {L : Type} (eigen : EigenLDLT F L)
    (stack : ChainableStack F) (self : LDLT_alloc F L) (A : List (List (var F))) :
    ChainableStack F × LDLT_alloc F L :=
  (stack, LDLT_alloc.compute eigen self A)

/-- The constructor `LDLT_alloc(A) : N_(0) { compute(A); }` run on the autodiff
memory, for an object placed at `address`: the base class constructor
registers the object, then `compute(A)` runs. -/
def LDLT_alloc.construct_in {F : Type} {L : Type} (eigen : EigenLDLT F L)
    (stack : ChainableStack F) (address : Nat) (A : List (List (var F))) :
    ChainableStack F × LDLT_alloc F L :=
  LDLT_alloc.compute_in eigen (chainable_alloc.register stack address)
    (LDLT_alloc.mk_default eigen) A

/-! ## Vectorised unary functions -/

/-- Modelled from the spec: `apply_scalar_unary<F, T>::apply` for a scalar `T`
(`apply_scalar_unary.hpp` is not among the sources): the scalar function
itself, which may throw. -/
def apply_scalar_unary_scalar {α β : Type} (f : α → Except Error β) (x : α) : Except Error β :=
  f x

/-- Modelled from the spec: `apply_scalar_unary<F, T>::apply` for a container
`T` (`apply_scalar_unary.hpp` is not among the sources), "the elementwise
application" of the function to the container: the result holds, in order, the
function applied to each element, and the first element that throws ends the
call.  `apply_element` is `apply_scalar_unary<F, T::value_type>::apply`, so a
vector of vectors is handled by using this definition twice. -/
def apply_scalar_unary_vector {α β : Type} (apply_element : α → Except Error β) :
    List α → Except Error (List β)
  | [] => pure []
  | x :: xs =>
    match apply_element x with
    | Except.error e => Except.error e
    | Except.ok v =>
      match apply_scalar_unary_vector apply_element xs with
      | Except.error e => Except.error e
      | Except.ok vs => pure (v :: vs)

/-- The struct `tgamma_fun`: `fun(x)` is the scalar `tgamma(x)` (its header
is not among the sources, so it is a parameter). -/
def tgamma_fun.fun {α : Type} (tgamma : α → Except Error α) (x : α) : Except Error α :=
  tgamma x

/-- The vectorised `tgamma(x)` for a container of scalars:
`apply_scalar_unary<tgamma_fun, T>::apply(x)`. -/
def tgamma_vector {α : Type} (tgamma : α → Except Error α) (x : List α) : Except Error (List α) :=
  apply_scalar_unary_vector (apply_scalar_unary_scalar (tgamma_fun.fun tgamma)) x

/-- The vectorised `tgamma(x)` for a vector of containers. -/
def tgamma_vector_vector {α : Type} (tgamma : α → Except Error α) (x : List (List α)) :
    Except Error (List (List α)) :=
  apply_scalar_unary_vector (tgamma_vector tgamma) x

/-- The struct `trigamma_fun`: `fun(x)` is the scalar `trigamma(x)` (its
header is not among the sources, so it is a parameter). -/
def trigamma_fun.fun {α : Type} (trigamma : α → Except Error α) (x : α) : Except Error α :=
  trigamma x

/-- The vectorised `trigamma(x)` for a container of scalars:
`apply_scalar_unary<trigamma_fun, T>::apply(x)`. -/
def trigamma_vector {α : Type} (trigamma : α → Except Error α) (x : List α) :
    Except Error (List α) :=
  apply_scalar_unary_vector (apply_scalar_unary_scalar (trigamma_fun.fun trigamma)) x

/-- The vectorised `trigamma(x)` for a vector of containers. -/
def trigamma_vector_vector {α : Type} (trigamma : α → Except Error α) (x : List (List α)) :
    Except Error (List (List α)) :=
  apply_scalar_unary_vector (trigamma_vector trigamma) x

/-- The result `y` has the size of `x`, and its element `i` is the function
applied to `x[i]`. -/
def Elementwise {α β : Type} (f : α → Except Error β) (x : List α) (y : List β) : Prop :=
  y.length = x.length ∧ ∀ i a, x.get? i = some a → ∃ v, y.get? i = some v ∧ f a = Except.ok v

/-- The result `y` has the outer size of `x`, each inner container has the
size of the one it comes from, and every element is the function applied to
the matching element. -/
def ElementwiseNested {α β : Type} (f : α → Except Error β) (x : List (List α))
    (y : List (List β)) : Prop :=
  y.length = x.length ∧
    ∀ i row, x.get? i = some row → ∃ yrow, y.get? i = some yrow ∧ Elementwise f row yrow

/-- The library function `std::log` on doubles, given the logarithm `ln` of
the positive finite numbers: `log(+0) = -inf`, `log(+inf) = +inf`, and NaN for
a negative number, for `-inf` and for NaN. -/
def Dbl.std_log {F : Type} [LinearOrderedField F] (ln : F → F) : Dbl F → Dbl F
  | Dbl.fin x => if 0 < x then Dbl.fin (ln x) else if x = 0 then Dbl.ninf else Dbl.nan
  | Dbl.pinf => Dbl.pinf
  | _ => Dbl.nan

/-- The library function `std::exp` on doubles, given the exponential `ex` of
the finite numbers: `exp(-inf) = 0`, `exp(+inf) = +inf`, and NaN for NaN. -/
def Dbl.std_exp {F : Type} [LinearOrderedField F] (ex : F → F) : Dbl F → Dbl F
  | Dbl.fin x => Dbl.fin (ex x)
  | Dbl.ninf => Dbl.fin 0
  | Dbl.pinf => Dbl.pinf
  | Dbl.nan => Dbl.nan

/-- The library function `std::sqrt` on doubles, given the square root `sq` of
the non-negative finite numbers: `sqrt(+inf) = +inf`, and NaN for a negative
number, for `-inf` and for NaN. -/
def Dbl.std_sqrt {F : Type} [LinearOrderedField F] (sq : F → F) : Dbl F → Dbl F
  | Dbl.fin x => if 0 ≤ x then Dbl.fin (sq x) else Dbl.nan
  | Dbl.pinf => Dbl.pinf
  | _ => Dbl.nan

/-- The library function `erfc` on doubles, given the complementary error
function `erfc_real` of the finite numbers: `erfc(+inf) = 0`,
`erfc(-inf) = 2`, and NaN for NaN. -/
def Dbl.std_erfc {F : Type} [LinearOrderedField F] (erfc_real : F → F) : Dbl F → Dbl F
  | Dbl.fin x => Dbl.fin (erfc_real x)
  | Dbl.pinf => Dbl.fin 0
  | Dbl.ninf => Dbl.fin 2
  | Dbl.nan => Dbl.nan

/-! ## gamma_cdf: the quantities the specification names -/

section GammaCdfSpec

variable {F : Type} [LinearOrderedField F]

/-- The element of an operand that position `n` reads: element `n` of a
vector, the only element of a scalar. -/
def Operand.index (op : Operand F) (n : Nat) : Nat :=
  if op.val.is_vector then n else 0

/-- The factor `P_n = gamma_p(alpha_n, beta_n * y_n)`. -/
def gamma_cdf_Pn (fns : GammaFunctions F) (y alpha beta : Operand F) (n : Nat) : Dbl F :=
  fns.gamma_p (alpha.val.getD n Dbl.nan) (beta.val.getD n Dbl.nan * y.val.getD n Dbl.nan)

/-- The product `P` of the factors `P_n` over `n < N`, multiplied in the
order of the positions. -/
def gamma_cdf_P (fns : GammaFunctions F) (y alpha beta : Operand F) (N : Nat) : Dbl F :=
  (List.range N).foldl (fun P n => P * gamma_cdf_Pn fns y alpha beta n) 1

/-- The specification's
`dP_n/dy = beta * exp(-beta*y) * (beta*y)^(alpha-1) / Gamma(alpha)`. -/
def gamma_cdf_dPn_dy (fns : GammaFunctions F) (y alpha beta : Operand F) (n : Nat) : Dbl F :=
  beta.val.getD n Dbl.nan * fns.exp (-(beta.val.getD n Dbl.nan * y.val.getD n Dbl.nan))
    * fns.pow (beta.val.getD n Dbl.nan * y.val.getD n Dbl.nan) (alpha.val.getD n Dbl.nan - 1)
    / fns.tgamma (alpha.val.getD n Dbl.nan)

/-- The specification's
`dP_n/dbeta = y * exp(-beta*y) * (beta*y)^(alpha-1) / Gamma(alpha)`. -/
def gamma_cdf_dPn_dbeta (fns : GammaFunctions F) (y alpha beta : Operand F) (n : Nat) : Dbl F :=
  y.val.getD n Dbl.nan * fns.exp (-(beta.val.getD n Dbl.nan * y.val.getD n Dbl.nan))
    * fns.pow (beta.val.getD n Dbl.nan * y.val.getD n Dbl.nan) (alpha.val.getD n Dbl.nan - 1)
    / fns.tgamma (alpha.val.getD n Dbl.nan)

/-- The specification's
`dP_n/dalpha = -grad_reg_inc_gamma(alpha, beta*y, Gamma(alpha), digamma(alpha))`. -/
def gamma_cdf_dPn_dalpha (fns : GammaFunctions F) (y alpha beta : Operand F) (n : Nat) : Dbl F :=
  -fns.grad_reg_inc_gamma (alpha.val.getD n Dbl.nan)
    (beta.val.getD n Dbl.nan * y.val.getD n Dbl.nan) (fns.tgamma (alpha.val.getD n Dbl.nan))
    (fns.digamma (alpha.val.getD n Dbl.nan))

/-- The specification's product-rule derivative for element `k` of an
operand: `P` times the sum, over the positions `n < N` that read that element,
of `(dP_n/d operand) / P_n`. -/
def product_rule_derivative (P : Dbl F) (N : Nat) (op : Operand F) (dPn Pn : Nat → Dbl F)
    (k : Nat) : Dbl F :=
  P * ∑ n in (Finset.range N).filter (fun n => op.index n = k), dPn n / Pn n

end GammaCdfSpec

/-! ## exp_mod_normal_lpdf -/

/-- The result of `ops_partials.build(value)` for four operands. -/
structure Ret4 (F : Type) where
  value : Dbl F
  partials1 : List (Dbl F)
  partials2 : List (Dbl F)
  partials3 : List (Dbl F)
  partials4 : List (Dbl F)
  deriving DecidableEq, Repr

/-- The library functions `exp_mod_normal_lpdf` calls (`std::log`,
`std::exp`, `std::sqrt`, `erfc`) and the constant
`boost::math::constants::pi<double>()`; they are parameters of the model. -/
structure ExpModNormalFunctions (F : Type) where
  log : Dbl F → Dbl F
  exp : Dbl F → Dbl F
  sqrt : Dbl F → Dbl F
  erfc : Dbl F → Dbl F
  pi : Dbl F

section ExpModNormal

variable {F : Type} [LinearOrderedField F]

/-- The body of the loop of `exp_mod_normal_lpdf` at position `n`, acting on
`logp` and the four partials buffers.  Every arithmetic operation is the
double operation under the rounding `rnd`.  `diff` is the expression
`mu_dbl + lambda_dbl * sigma_dbl * sigma_dbl - y_dbl` and `sqrt_two` the call
`sqrt(2.0)`, which the source writes out at each use. -/
def exp_mod_normal_lpdf_step (rnd : F → Dbl F) (fns : ExpModNormalFunctions F) (propto : Bool)
    (y mu sigma lambda : Operand F) (s : Ret4 F) (n : Nat) : Ret4 F :=
  let y_dbl := y.val.getD n Dbl.nan
  let mu_dbl := mu.val.getD n Dbl.nan
  let sigma_dbl := sigma.val.getD n Dbl.nan
  let lambda_dbl := lambda.val.getD n Dbl.nan
  let pi_dbl := fns.pi
  let two : Dbl F := Dbl.fin 2
  let sqrt_two := fns.sqrt two
  let diff :=
    Dbl.rsub rnd
      (Dbl.radd rnd mu_dbl (Dbl.rmul rnd (Dbl.rmul rnd lambda_dbl sigma_dbl) sigma_dbl)) y_dbl
  let logp1 := if include_summand propto [] then Dbl.rsub rnd s.value (fns.log two) else s.value
  let logp2 :=
    if include_summand propto [lambda.is_constant] then
      Dbl.radd rnd logp1 (fns.log lambda_dbl)
    else logp1
  let logp3 :=
    if include_summand propto
        [y.is_constant, mu.is_constant, sigma.is_constant, lambda.is_constant] then
      Dbl.radd rnd logp2
        (Dbl.radd rnd
          (Dbl.rmul rnd lambda_dbl
            (Dbl.rsub rnd
              (Dbl.radd rnd mu_dbl
                (Dbl.rmul rnd
                  (Dbl.rmul rnd (Dbl.rmul rnd (Dbl.fin (1 / 2)) lambda_dbl) sigma_dbl)
                  sigma_dbl))
              y_dbl))
          (fns.log (fns.erfc (Dbl.rdiv rnd diff (Dbl.rmul rnd sqrt_two sigma_dbl)))))
    else logp2
  let deriv_logerfc :=
    Dbl.rdiv rnd
      (Dbl.rmul rnd (Dbl.rdiv rnd (Dbl.fin (-2)) (fns.sqrt pi_dbl))
        (fns.exp
          (Dbl.rdiv rnd
            (Dbl.rmul rnd (Dbl.rdiv rnd (-diff) (Dbl.rmul rnd sqrt_two sigma_dbl)) diff)
            (Dbl.rmul rnd sigma_dbl sqrt_two))))
      (fns.erfc (Dbl.rdiv rnd diff (Dbl.rmul rnd sigma_dbl sqrt_two)))
  let p1 :=
    if !y.is_constant then
      Edge.radd rnd y s.partials1 n
        (Dbl.radd rnd (-lambda_dbl)
          (Dbl.rdiv rnd (Dbl.rmul rnd deriv_logerfc (Dbl.fin (-1)))
            (Dbl.rmul rnd sigma_dbl sqrt_two)))
    else s.partials1
  let p2 :=
    if !mu.is_constant then
      Edge.radd rnd mu s.partials2 n
        (Dbl.radd rnd lambda_dbl (Dbl.rdiv rnd deriv_logerfc (Dbl.rmul rnd sigma_dbl sqrt_two)))
    else s.partials2
  let p3 :=
    if !sigma.is_constant then
      Edge.radd rnd sigma s.partials3 n
        (Dbl.radd rnd (Dbl.rmul rnd (Dbl.rmul rnd sigma_dbl lambda_dbl) lambda_dbl)
          (Dbl.rmul rnd deriv_logerfc
            (Dbl.radd rnd
              (Dbl.radd rnd
                (Dbl.rdiv rnd (-mu_dbl)
                  (Dbl.rmul rnd (Dbl.rmul rnd sigma_dbl sigma_dbl) sqrt_two))
                (Dbl.rdiv rnd lambda_dbl sqrt_two))
              (Dbl.rdiv rnd y_dbl (Dbl.rmul rnd (Dbl.rmul rnd sigma_dbl sigma_dbl) sqrt_two)))))
    else s.partials3
  let p4 :=
    if !lambda.is_constant then
      Edge.radd rnd lambda s.partials4 n
        (Dbl.radd rnd
          (Dbl.rsub rnd
            (Dbl.radd rnd
              (Dbl.radd rnd (Dbl.rdiv rnd 1 lambda_dbl)
                (Dbl.rmul rnd (Dbl.rmul rnd lambda_dbl sigma_dbl) sigma_dbl))
              mu_dbl)
            y_dbl)
          (Dbl.rdiv rnd (Dbl.rmul rnd deriv_logerfc sigma_dbl) sqrt_two))
    else s.partials4
  ⟨logp3, p1, p2, p3, p4⟩

/-- The function `exp_mod_normal_lpdf<propto>(y, mu, sigma, lambda)`, computing
in double arithmetic under the rounding `rnd`. -/
def exp_mod_normal_lpdf (rnd : F → Dbl F) (fns : ExpModNormalFunctions F) (propto : Bool)
    (y mu sigma lambda : Operand F) : Except Error (Ret4 F) := do
  check_not_nan y.val
  check_finite mu.val
  check_positive_finite lambda.val
  check_positive_finite sigma.val
  check_consistent_sizes [y.val.shape, mu.val.shape, sigma.val.shape, lambda.val.shape]
  let N := max_size [y.val.length, mu.val.length, sigma.val.length, lambda.val.length]
  let ops_partials : Ret4 F :=
    ⟨0, Edge.init y, Edge.init mu, Edge.init sigma, Edge.init lambda⟩
  if !include_summand propto
      [y.is_constant, mu.is_constant, sigma.is_constant, lambda.is_constant] then
    return ops_partials
  else if size_zero [y.val.length, mu.val.length, sigma.val.length, lambda.val.length] then
    return ops_partials
  else
    return (List.range N).foldl (exp_mod_normal_lpdf_step rnd fns propto y mu sigma lambda)
      ops_partials

/-- The number a four-operand call returns, for stating derivatives: the
finite value of the result, and 0 when the call throws or its value is not
finite. -/
def returned_value4 (r : Except Error (Ret4 F)) : F :=
  match r with
  | Except.ok ret => ret.value.toField
  | Except.error _ => 0

end ExpModNormal

/-! ## Lemmas on loops -/

theorem loopFrom_ok_iff (body : Nat → Except Error Unit) (count start : Nat) :
    loopFrom body start count = Except.ok () ↔
      ∀ i, start ≤ i → i < start + count → body i = Except.ok () := by
  induction count generalizing start with
  | zero =>
    simp only [loopFrom, pure, Except.pure, true_iff]
    intro i h1 h2
    omega
  | succ k ih =>
    unfold loopFrom
    cases hb : body start with
    | error e =>
      constructor
      · intro h; cases h
      · intro h
        have := h start (le_refl _) (by omega)
        rw [hb] at this
        cases this
    | ok u =>
      simp only [ih]
      constructor
      · intro h i h1 h2
        rcases Nat.eq_or_lt_of_le h1 with h3 | h3
        · subst h3; exact hb
        · exact h i h3 (by omega)
      · intro h i h1 h2
        exact h i (by omega) (by omega)

theorem loopFrom_error_of_first (body : Nat → Except Error Unit) (count start : Nat)
    (i : Nat) (e : Error) (h1 : start ≤ i) (h2 : i < start + count)
    (hprev : ∀ j, start ≤ j → j < i → body j = Except.ok ())
    (hi : body i = Except.error e) :
    loopFrom body start count = Except.error e := by
  induction count generalizing start with
  | zero => omega
  | succ k ih =>
    unfold loopFrom
    rcases Nat.eq_or_lt_of_le h1 with h3 | h3
    · subst h3; rw [hi]
    · rw [hprev start (le_refl _) h3]
      exact ih (start + 1) h3 (by omega) (fun j hj1 hj2 => hprev j (by omega) hj2)

theorem loopFrom_error_elim (body : Nat → Except Error Unit) (count start : Nat) (e : Error)
    (h : loopFrom body start count = Except.error e) :
    ∃ i, start ≤ i ∧ i < start + count ∧ body i = Except.error e ∧
      ∀ j, start ≤ j → j < i → body j = Except.ok () := by
  induction count generalizing start with
  | zero => simp [loopFrom, pure, Except.pure] at h
  | succ k ih =>
    unfold loopFrom at h
    cases hb : body start with
    | error e2 =>
      rw [hb] at h
      injection h with h
      subst h
      exact ⟨start, le_refl _, by omega, hb, fun j hj1 hj2 => by omega⟩
    | ok u =>
      rw [hb] at h
      obtain ⟨i, hi1, hi2, hi3, hi4⟩ := ih (start + 1) h
      refine ⟨i, by omega, by omega, hi3, ?_⟩
      intro j hj1 hj2
      rcases Nat.eq_or_lt_of_le hj1 with h3 | h3
      · subst h3; exact hb
      · exact hi4 j h3 hj2

section CheckBoundedLemmas

variable {α : Type} [LE α] [DecidableRel (fun a b : α => a ≤ b)]

theorem bounded_at_ok_iff (y : α) (low high : Seq α) (n : Nat) (err : Error) :
    bounded_at y low high n err = Except.ok () ↔ InBounds y low high n := by
  unfold bounded_at InBounds
  cases hl : low.get? n with
  | none => simp
  | some l =>
    cases hh : high.get? n with
    | none => simp
    | some h =>
      by_cases hc : l ≤ y ∧ y ≤ h
      · simp [hc, pure, Except.pure]
      · simp only [hc, not_false_eq_true, if_true, Option.some.injEq, exists_and_left, exists_eq_left',
          false_iff]
        simp [hc]

theorem bounded_at_error (y : α) (low high : Seq α) (n : Nat) (err : Error)
    (hl : (low.get? n).isSome = true) (hh : (high.get? n).isSome = true)
    (hnot : ¬ InBounds y low high n) :
    bounded_at y low high n err = Except.error err := by
  unfold bounded_at
  obtain ⟨l, hl⟩ := Option.isSome_iff_exists.mp hl
  obtain ⟨h, hh⟩ := Option.isSome_iff_exists.mp hh
  have hc : ¬ (l ≤ y ∧ y ≤ h) := fun hc => hnot ⟨l, h, hl, hh, hc.1, hc.2⟩
  simp [hl, hh, hc]

theorem bounded_scalar_check_ne_false (y : α) (low high : Seq α) :
    bounded_scalar_check y low high ≠ Except.ok false := by
  unfold bounded_scalar_check
  cases loopFrom (fun n => bounded_at y low high n Error.domain_error) 0 (max_size2 low high) with
  | error e => simp
  | ok u => simp [pure, Except.pure]

/-- C4: for a scalar `y` and bounds that can be read at every position below
`max_size(low, high)`, `check_bounded` returns true when
`low[n] <= y <= high[n]` holds at every such position, raises
`std::domain_error` otherwise, and never returns false. -/
theorem check_bounded_scalar_spec (y : α) (low high : Seq α)
    (hread : Readable low high (max_size2 low high)) :
    ((∀ n, n < max_size2 low high → InBounds y low high n) →
        check_bounded (Seq.scalar y) low high = Except.ok true) ∧
    (¬ (∀ n, n < max_size2 low high → InBounds y low high n) →
        check_bounded (Seq.scalar y) low high = Except.error Error.domain_error) ∧
    check_bounded (Seq.scalar y) low high ≠ Except.ok false := by
  refine ⟨?_, ?_, bounded_scalar_check_ne_false y low high⟩
  · intro hall
    have hloop : loopFrom (fun n => bounded_at y low high n Error.domain_error) 0
        (max_size2 low high) = Except.ok () := by
      rw [loopFrom_ok_iff]
      intro i _ hi
      exact (bounded_at_ok_iff y low high i _).mpr (hall i (by omega))
    simp [check_bounded, bounded_scalar_check, hloop, pure, Except.pure]
  · intro hnot
    have hex : ∃ n, n < max_size2 low high ∧ ¬ InBounds y low high n := by
      by_contra hcon
      exact hnot (fun n hn => by_contra (fun h => hcon ⟨n, hn, h⟩))
    classical
    let n := Nat.find hex
    have hn : n < max_size2 low high ∧ ¬ InBounds y low high n := Nat.find_spec hex
    have hloop : loopFrom (fun n => bounded_at y low high n Error.domain_error) 0
        (max_size2 low high) = Except.error Error.domain_error := by
      apply loopFrom_error_of_first _ _ _ n _ (Nat.zero_le _) (by omega)
      · intro j _ hj
        have hmin := Nat.find_min hex hj
        have hjb : j < max_size2 low high := by omega
        have : InBounds y low high j := by_contra (fun h => hmin ⟨hjb, h⟩)
        exact (bounded_at_ok_iff y low high j _).mpr this
      · exact bounded_at_error y low high n _ (hread n hn.1).1 (hread n hn.1).2 hn.2
    simp [check_bounded, bounded_scalar_check, hloop]

theorem bounded_vec_at_ok_iff (ys : List α) (low high : Seq α) (n : Nat) (hn : n < ys.length) :
    bounded_vec_at ys low high n = Except.ok () ↔
      InBounds (ys.get ⟨n, hn⟩) low high n := by
  unfold bounded_vec_at
  rw [List.get?_eq_get hn]
  exact bounded_at_ok_iff _ low high n _

theorem bounded_vec_at_error (ys : List α) (low high : Seq α) (n : Nat) (hn : n < ys.length)
    (hl : (low.get? n).isSome = true) (hh : (high.get? n).isSome = true)
    (hnot : ¬ InBounds (ys.get ⟨n, hn⟩) low high n) :
    bounded_vec_at ys low high n = Except.error (Error.domain_error_vec n) := by
  unfold bounded_vec_at
  rw [List.get?_eq_get hn]
  exact bounded_at_error _ low high n _ hl hh hnot

/-- C5: for a vector `y` and bounds that can be read at every position below
`length(y)`, `check_bounded` returns true exactly when
`low[n] <= y[n] <= high[n]` holds for every `n < length(y)` (so it does for an
empty `y`), and otherwise raises `std::domain_error` for the smallest index at
which the bound fails. -/
theorem check_bounded_vec_spec (ys : List α) (low high : Seq α)
    (hread : Readable low high ys.length) :
    (check_bounded (Seq.vec ys) low high = Except.ok true ↔
        ∀ n (hn : n < ys.length), InBounds (ys.get ⟨n, hn⟩) low high n) ∧
    (ys = [] → check_bounded (Seq.vec ys) low high = Except.ok true) ∧
    (∀ n (hn : n < ys.length), ¬ InBounds (ys.get ⟨n, hn⟩) low high n →
        (∀ m (hm : m < ys.length), m < n → InBounds (ys.get ⟨m, hm⟩) low high m) →
        check_bounded (Seq.vec ys) low high = Except.error (Error.domain_error_vec n)) := by
  have hiff : check_bounded (Seq.vec ys) low high = Except.ok true ↔
      ∀ n (hn : n < ys.length), InBounds (ys.get ⟨n, hn⟩) low high n := by
    have hl := loopFrom_ok_iff (bounded_vec_at ys low high) ys.length 0
    constructor
    · intro h n hn
      have hloop : loopFrom (bounded_vec_at ys low high) 0 ys.length = Except.ok () := by
        simp only [check_bounded, bounded_vec_check] at h
        cases hc : loopFrom (bounded_vec_at ys low high) 0 ys.length with
        | error e => rw [hc] at h; cases h
        | ok u => rfl
      exact (bounded_vec_at_ok_iff ys low high n hn).mp (hl.mp hloop n (Nat.zero_le _) (by omega))
    · intro h
      have hloop : loopFrom (bounded_vec_at ys low high) 0 ys.length = Except.ok () :=
        hl.mpr (fun i _ hi => (bounded_vec_at_ok_iff ys low high i (by omega)).mpr (h i (by omega)))
      simp [check_bounded, bounded_vec_check, hloop, pure, Except.pure]
  refine ⟨hiff, ?_, ?_⟩
  · intro hnil
    subst hnil
    exact hiff.mpr (fun n hn => absurd hn (by simp))
  · intro n hn hnot hprev
    have hloop : loopFrom (bounded_vec_at ys low high) 0 ys.length =
        Except.error (Error.domain_error_vec n) := by
      apply loopFrom_error_of_first _ _ _ n _ (Nat.zero_le _) (by omega)
      · intro j _ hj
        exact (bounded_vec_at_ok_iff ys low high j (by omega)).mpr (hprev j (by omega) hj)
      · exact bounded_vec_at_error ys low high n hn (hread n hn).1 (hread n hn).2 hnot
    simp [check_bounded, bounded_vec_check, hloop]

end CheckBoundedLemmas

theorem check_bounded_scalar_spec_witness :
    Readable (Seq.scalar (0 : Int)) (Seq.vec [2, 3]) (max_size2 (Seq.scalar (0 : Int)) (Seq.vec [2, 3])) ∧
    check_bounded (Seq.scalar (1 : Int)) (Seq.scalar 0) (Seq.vec [2, 3]) = Except.ok true ∧
    check_bounded (Seq.scalar (5 : Int)) (Seq.scalar 0) (Seq.vec [2, 3]) = Except.error Error.domain_error :=
  ⟨by decide,
   (check_bounded_scalar_spec (1 : Int) (Seq.scalar 0) (Seq.vec [2, 3]) (by decide)).1 (by decide),
   (check_bounded_scalar_spec (5 : Int) (Seq.scalar 0) (Seq.vec [2, 3]) (by decide)).2.1 (by decide)⟩

theorem check_bounded_vec_spec_witness :
    Readable (Seq.scalar (0 : Int)) (Seq.vec [2, 3, 5]) [1, 4, 9].length ∧
    check_bounded (Seq.vec [(1 : Int), 4, 9]) (Seq.scalar 0) (Seq.vec [2, 3, 5]) =
      Except.error (Error.domain_error_vec 1) :=
  ⟨by decide,
   (check_bounded_vec_spec [(1 : Int), 4, 9] (Seq.scalar 0) (Seq.vec [2, 3, 5]) (by decide)).2.2 1
     (by decide) (by decide) (by decide)⟩

/-! ## Lemmas on the arithmetic of doubles -/

namespace Dbl
variable {F : Type} [LinearOrderedField F]

theorem sub_def (a b : Dbl F) : a - b = a + -b := rfl

theorem pos_iff (s : Dbl F) : (0 : Dbl F) < s ↔ s = pinf ∨ ∃ x, 0 < x ∧ s = fin x := by
  cases s with
  | nan => simp [LT.lt, lt, OfNat.ofNat, Zero.zero]
  | ninf => simp [LT.lt, lt, OfNat.ofNat, Zero.zero]
  | pinf => simp [LT.lt, lt, OfNat.ofNat, Zero.zero]
  | fin x =>
    simp only [false_or, fin.injEq, exists_eq_right']
    change decide ((0 : F) < x) = true ↔ _
    simp

theorem mul_inv_eq_div (x s : Dbl F) (hs : (0 : Dbl F) < s) : x * (1 / s) = x / s := by
  rcases (pos_iff s).mp hs with rfl | ⟨t, ht, rfl⟩
  · cases x with
    | nan => rfl
    | ninf => change signedInf (-(0 : F)) = nan; simp [signedInf]
    | pinf => change signedInf (0 : F) = nan; simp [signedInf]
    | fin a => change fin (a * 0) = fin 0; simp
  · have hne : t ≠ 0 := ne_of_gt ht
    have h1 : (1 : Dbl F) / fin t = fin (1 / t) := by
      change (if t = 0 then signedInf (1 : F) else fin (1 / t)) = _
      simp [hne]
    rw [h1]
    have hpos : (0 : F) < 1 / t := by positivity
    cases x with
    | nan => rfl
    | ninf =>
      change signedInf (-(1 / t)) = (if t < 0 then pinf else ninf)
      have : ¬ t < 0 := not_lt.mpr ht.le
      simp [signedInf, this, ht]
    | pinf =>
      change signedInf (1 / t) = (if t < 0 then ninf else pinf)
      have : ¬ t < 0 := not_lt.mpr ht.le
      simp [signedInf, this, ht]
    | fin a =>
      change fin (a * (1 / t)) = (if t = 0 then signedInf a else fin (a / t))
      simp [hne, div_eq_mul_inv]

end Dbl

/-! ## Lemmas on the argument checks -/

theorem check_elements_ok_iff {α : Type} (p : α → Bool) (x : Seq α) :
    check_elements p x = Except.ok () ↔ ∀ v ∈ x.toList, p v = true := by
  cases x with
  | scalar v =>
    by_cases hp : p v = true <;> simp [check_elements, Seq.toList, hp, pure, Except.pure]
  | vec vs =>
    simp only [check_elements, Seq.toList, loopFrom_ok_iff]
    constructor
    · intro h v hv
      obtain ⟨i, hi, hget⟩ := List.getElem_of_mem hv
      have := h i (Nat.zero_le _) (by omega)
      rw [List.get?_eq_getElem?, List.getElem?_eq_getElem hi, hget] at this
      by_cases hp : p v = true
      · exact hp
      · simp [hp] at this
    · intro h i _ hi
      have hi2 : i < vs.length := by omega
      rw [List.get?_eq_getElem?, List.getElem?_eq_getElem hi2]
      simp [h _ (List.getElem_mem hi2), pure, Except.pure]

theorem check_elements_error {α : Type} (p : α → Bool) (x : Seq α)
    (h : ¬ ∀ v ∈ x.toList, p v = true) :
    ∃ e, check_elements p x = Except.error e ∧ e.is_domain_error = true := by
  cases hc : check_elements p x with
  | ok u => exact absurd ((check_elements_ok_iff p x).mp hc) h
  | error e =>
    refine ⟨e, rfl, ?_⟩
    cases x with
    | scalar v =>
      by_cases hp : p v = true
      · simp [check_elements, hp, pure, Except.pure] at hc
      · simp only [check_elements, hp, Bool.false_eq_true, if_false] at hc
        cases hc
        rfl
    | vec vs =>
      simp only [check_elements] at hc
      obtain ⟨i, _, hi, hbody, _⟩ := loopFrom_error_elim _ _ _ _ hc
      have hi2 : i < vs.length := by omega
      rw [List.get?_eq_getElem?, List.getElem?_eq_getElem hi2] at hbody
      by_cases hp : p vs[i] = true
      · simp [hp, pure, Except.pure] at hbody
      · simp only [hp, Bool.false_eq_true, if_false] at hbody
        cases hbody
        rfl

/-! ## Lemmas on sizes -/

theorem foldl_max_of_le (l : List Nat) (k : Nat) (hle : ∀ x ∈ l, x ≤ k) :
    l.foldl max k = k := by
  induction l with
  | nil => rfl
  | cons x t ih =>
    have hx : x ≤ k := hle x (List.mem_cons_self _ _)
    rw [List.foldl_cons, Nat.max_eq_left hx]
    exact ih (fun y hy => hle y (List.mem_cons_of_mem _ hy))

theorem foldl_max_eq (l : List Nat) (k init : Nat) (hinit : init ≤ k) (hk : k ∈ l)
    (hle : ∀ x ∈ l, x ≤ k) : l.foldl max init = k := by
  induction l generalizing init with
  | nil => cases hk
  | cons x t ih =>
    have hx : x ≤ k := hle x (List.mem_cons_self _ _)
    have ht : ∀ y ∈ t, y ≤ k := fun y hy => hle y (List.mem_cons_of_mem _ hy)
    rw [List.foldl_cons]
    rcases List.mem_cons.mp hk with h | h
    · subst h
      rw [Nat.max_eq_right hinit]
      exact foldl_max_of_le t k ht
    · exact ih (max init x) (Nat.max_le.mpr ⟨hinit, hx⟩) h ht

theorem Seq.length_eq_shape {α : Type} (s : Seq α) : s.length = s.shape.getD 1 := by
  cases s <;> rfl

/-- Under consistent sizes and without an empty container, every vector
argument has exactly `max_size` elements. -/
theorem shape_eq_max_size (shapes : List (Option Nat)) (hs : SameLength shapes)
    (hz : size_zero (shapes.map (fun s => s.getD 1)) = false) (k : Nat)
    (hk : some k ∈ shapes) : max_size (shapes.map (fun s => s.getD 1)) = k := by
  have hz2 : ∀ s ∈ shapes, s.getD 1 ≠ 0 := by
    intro s hsm h0
    have : size_zero (shapes.map (fun s => s.getD 1)) = true := by
      simp only [size_zero, List.any_eq_true, List.mem_map]
      exact ⟨s.getD 1, ⟨s, hsm, rfl⟩, by simp [h0]⟩
    rw [this] at hz
    cases hz
  have hk0 : k ≠ 0 := hz2 (some k) hk
  unfold max_size
  apply foldl_max_eq _ _ _ (Nat.zero_le _)
  · exact List.mem_map.mpr ⟨some k, hk, rfl⟩
  · intro x hx
    obtain ⟨s, hsm, rfl⟩ := List.mem_map.mp hx
    cases s with
    | none => simp only [Option.getD_none]; omega
    | some m =>
      have := hs (some m) hsm (some k) hk rfl rfl
      simp only [Option.getD_some]
      exact le_of_eq (Option.some.inj this)

theorem check_consistent_sizes_ok (shapes : List (Option Nat))
    (h : check_consistent_sizes shapes = Except.ok ()) : SameLength shapes := by
  unfold check_consistent_sizes at h
  simp only at h
  split at h
  · rename_i hall
    rw [List.all_eq_true] at hall
    intro a ha b hb hsa hsb
    obtain ⟨n, rfl⟩ := Option.isSome_iff_exists.mp hsa
    obtain ⟨m, rfl⟩ := Option.isSome_iff_exists.mp hsb
    have h1 := hall (some n) ha
    have h2 := hall (some m) hb
    simp only [beq_iff_eq] at h1 h2
    rw [h1, h2]
  · cases h

theorem check_consistent_sizes_ok_iff (shapes : List (Option Nat)) :
    check_consistent_sizes shapes = Except.ok () ↔ SameLength shapes := by
  refine ⟨check_consistent_sizes_ok shapes, ?_⟩
  intro hs
  unfold check_consistent_sizes
  have hall : (shapes.all fun s => match s with
      | none => true
      | some n => n == (shapes.map (fun s => s.getD 0)).foldl max 0) = true := by
    rw [List.all_eq_true]
    intro s hsm
    cases s with
    | none => rfl
    | some n =>
      have hmax : (shapes.map (fun s => s.getD 0)).foldl max 0 = n := by
        apply foldl_max_eq _ _ _ (Nat.zero_le _)
        · exact List.mem_map.mpr ⟨some n, hsm, rfl⟩
        · intro x hx
          obtain ⟨s2, hs2, rfl⟩ := List.mem_map.mp hx
          cases s2 with
          | none => exact Nat.zero_le _
          | some m => exact le_of_eq (Option.some.inj (hs (some m) hs2 (some n) hsm rfl rfl))
      simp [hmax]
  simp only [hall, if_true, pure, Except.pure]

/-- Under consistent sizes and without an empty container, every argument can
be read at every position below `max_size`. -/
theorem seq_get_of_lt_max_size {α : Type} (s : Seq α) (shapes : List (Option Nat))
    (hmem : s.shape ∈ shapes) (hs : SameLength shapes)
    (hz : size_zero (shapes.map (fun s => s.getD 1)) = false) (n : Nat)
    (hn : n < max_size (shapes.map (fun s => s.getD 1))) :
    ∃ v ∈ s.toList, s.get? n = some v := by
  cases s with
  | scalar x => exact ⟨x, by simp [Seq.toList], rfl⟩
  | vec xs =>
    have hmax := shape_eq_max_size shapes hs hz xs.length hmem
    have hlt : n < xs.length := by omega
    exact ⟨xs[n], List.getElem_mem hlt, by simp [Seq.get?, List.getElem?_eq_getElem hlt]⟩

/-! ## Lemmas on rounded arithmetic -/

namespace Dbl

theorem round_exact {F : Type} (d : Dbl F) : Dbl.round Dbl.fin d = d := by
  cases d <;> rfl

section RoundingLemmas
variable {F : Type} [LinearOrderedField F]

theorem radd_exact (a b : Dbl F) : Dbl.radd Dbl.fin a b = a + b := round_exact _
theorem rsub_exact (a b : Dbl F) : Dbl.rsub Dbl.fin a b = a - b := round_exact _
theorem rmul_exact (a b : Dbl F) : Dbl.rmul Dbl.fin a b = a * b := round_exact _
theorem rdiv_exact (a b : Dbl F) : Dbl.rdiv Dbl.fin a b = a / b := round_exact _

theorem add_nan (a : Dbl F) : a + nan = nan := by
  cases a <;> rfl

theorem nan_add (a : Dbl F) : nan + a = nan := by
  cases a <;> rfl

theorem mul_nan (a : Dbl F) : a * nan = nan := by
  cases a <;> rfl

theorem nan_mul (a : Dbl F) : nan * a = nan := by
  cases a <;> rfl

theorem neg_nan : -(nan : Dbl F) = nan := rfl

theorem radd_nan (rnd : F → Dbl F) (a : Dbl F) : Dbl.radd rnd a nan = nan := by
  unfold Dbl.radd
  rw [add_nan]
  rfl

theorem nan_radd (rnd : F → Dbl F) (a : Dbl F) : Dbl.radd rnd nan a = nan := by
  unfold Dbl.radd
  rw [nan_add]
  rfl

theorem rmul_nan (rnd : F → Dbl F) (a : Dbl F) : Dbl.rmul rnd a nan = nan := by
  unfold Dbl.rmul
  rw [mul_nan]
  rfl

theorem nan_rmul (rnd : F → Dbl F) (a : Dbl F) : Dbl.rmul rnd nan a = nan := by
  unfold Dbl.rmul
  rw [nan_mul]
  rfl

/-- The product `0 * inf` is NaN under every rounding. -/
theorem rmul_zero_pinf (rnd : F → Dbl F) : Dbl.rmul rnd (fin 0) pinf = nan := by
  unfold Dbl.rmul
  change Dbl.round rnd (signedInf (0 : F)) = nan
  simp [signedInf, Dbl.round]

end RoundingLemmas
end Dbl

section RoundDoubleLemmas
variable {F : Type} [LinearOrderedField F] [FloorRing F]

theorem round_half_even_zero : round_half_even (0 : F) = 0 := by
  simp [round_half_even]

/-- Zero is a double. -/
theorem round_double_zero : round_double (0 : F) = Dbl.fin 0 := by
  have h : ¬ ((2 : F) ^ 1024 - 2 ^ 970 ≤ |(0 : F)|) := by
    rw [abs_zero, not_le, sub_pos]
    exact pow_lt_pow_right₀ (by norm_num) (by norm_num)
  unfold round_double
  rw [if_neg h]
  simp [round_half_even_zero]

/-- A result of at least `2^1024 - 2^970` overflows to `+inf`. -/
theorem round_double_overflow (x : F) (h : (2 : F) ^ 1024 - 2 ^ 970 ≤ x) :
    round_double x = Dbl.pinf := by
  have hpos : (0 : F) < (2 : F) ^ 1024 - 2 ^ 970 := by
    rw [sub_pos]
    exact pow_lt_pow_right₀ (by norm_num) (by norm_num)
  have hx : 0 < x := lt_of_lt_of_le hpos h
  unfold round_double
  rw [abs_of_pos hx, if_pos h, if_pos hx]

end RoundDoubleLemmas

/-! ## normal_lpdf: the returned value -/

section NormalValue
variable {F : Type} [LinearOrderedField F]

theorem Dbl.neg_half_mul (q : Dbl F) :
    (NEGATIVE_HALF : Dbl F) * q = -(Dbl.fin (1 / 2) * q) := by
  have h1 : (0 : F) < 1 / 2 := by norm_num
  have h2 : ¬ (0 : F) < -(1 / 2) := by norm_num
  have h3 : (-(1 / 2) : F) < 0 := by norm_num
  have h4 : ¬ ((1 / 2 : F) < 0) := by norm_num
  cases q with
  | nan => rfl
  | ninf =>
    change Dbl.signedInf (-(-(1 / 2) : F)) = Dbl.neg (Dbl.signedInf (-(1 / 2) : F))
    rw [neg_neg]
    simp only [Dbl.signedInf, if_pos h1, if_neg h2, if_pos h3, Dbl.neg]
  | pinf =>
    change Dbl.signedInf ((-(1 / 2) : F)) = Dbl.neg (Dbl.signedInf ((1 / 2) : F))
    simp only [Dbl.signedInf, if_pos h1, if_neg h2, if_pos h3, Dbl.neg]
  | fin a =>
    change Dbl.fin (-(1 / 2) * a) = Dbl.fin (-(1 / 2 * a))
    rw [neg_mul]

/-- The value after one position, in the operations of the loop body. -/
theorem normal_lpdf_step_value_rounded (rnd : F → Dbl F) (log : Dbl F → Dbl F) (c : Dbl F)
    (y mu sigma : Operand F) (s : Ret F) (n : Nat) :
    (normal_lpdf_step rnd log c false y mu sigma s n).value =
      Dbl.radd rnd (Dbl.rsub rnd (Dbl.radd rnd s.value c) (log (sigma.val.getD n Dbl.nan)))
        (Dbl.rmul rnd NEGATIVE_HALF
          (Dbl.rmul rnd
            (Dbl.rmul rnd (Dbl.rsub rnd (y.val.getD n Dbl.nan) (mu.val.getD n Dbl.nan))
              (Dbl.rdiv rnd 1 (sigma.val.getD n Dbl.nan)))
            (Dbl.rmul rnd (Dbl.rsub rnd (y.val.getD n Dbl.nan) (mu.val.getD n Dbl.nan))
              (Dbl.rdiv rnd 1 (sigma.val.getD n Dbl.nan))))) := by
  simp only [normal_lpdf_step, include_summand, Bool.not_false, Bool.true_or, if_true]

theorem normal_lpdf_fold_value_rounded (rnd : F → Dbl F) (log : Dbl F → Dbl F) (c : Dbl F)
    (y mu sigma : Operand F) (init : Ret F) (N : Nat) :
    ((List.range N).foldl (normal_lpdf_step rnd log c false y mu sigma) init).value =
      (List.range N).foldl (fun logp n =>
        Dbl.radd rnd (Dbl.rsub rnd (Dbl.radd rnd logp c) (log (sigma.val.getD n Dbl.nan)))
          (Dbl.rmul rnd NEGATIVE_HALF
            (Dbl.rmul rnd
              (Dbl.rmul rnd (Dbl.rsub rnd (y.val.getD n Dbl.nan) (mu.val.getD n Dbl.nan))
                (Dbl.rdiv rnd 1 (sigma.val.getD n Dbl.nan)))
              (Dbl.rmul rnd (Dbl.rsub rnd (y.val.getD n Dbl.nan) (mu.val.getD n Dbl.nan))
                (Dbl.rdiv rnd 1 (sigma.val.getD n Dbl.nan)))))) init.value := by
  induction N with
  | zero => simp
  | succ k ih =>
    rw [List.range_succ, List.foldl_append, List.foldl_append, List.foldl_cons, List.foldl_nil,
      List.foldl_cons, List.foldl_nil, normal_lpdf_step_value_rounded, ih]

theorem normal_lpdf_step_value (log : Dbl F → Dbl F) (c : Dbl F) (y mu sigma : Operand F)
    (s : Ret F) (n : Nat) (hs : (0 : Dbl F) < sigma.val.getD n Dbl.nan) :
    (normal_lpdf_step Dbl.fin log c false y mu sigma s n).value =
      s.value + normal_log_density_spec log c (y.val.getD n Dbl.nan) (mu.val.getD n Dbl.nan)
        (sigma.val.getD n Dbl.nan) := by
  simp only [normal_lpdf_step, include_summand, Bool.not_false, Bool.true_or, if_true,
    normal_log_density_spec, Dbl.radd_exact, Dbl.rsub_exact, Dbl.rmul_exact, Dbl.rdiv_exact]
  rw [Dbl.mul_inv_eq_div _ _ hs, Dbl.neg_half_mul]
  simp only [Dbl.sub_def, add_assoc]

theorem normal_lpdf_fold_value (log : Dbl F → Dbl F) (c : Dbl F) (y mu sigma : Operand F)
    (init : Ret F) (N : Nat) (hs : ∀ n, n < N → (0 : Dbl F) < sigma.val.getD n Dbl.nan) :
    ((List.range N).foldl (normal_lpdf_step Dbl.fin log c false y mu sigma) init).value =
      init.value + ∑ n in Finset.range N,
        normal_log_density_spec log c (y.val.getD n Dbl.nan) (mu.val.getD n Dbl.nan)
          (sigma.val.getD n Dbl.nan) := by
  induction N with
  | zero => simp
  | succ k ih =>
    rw [List.range_succ, List.foldl_append, List.foldl_cons, List.foldl_nil,
      normal_lpdf_step_value log c y mu sigma _ k (hs k (Nat.lt_succ_self k)),
      ih (fun n hn => hs n (Nat.lt_succ_of_lt hn)), Finset.sum_range_succ, add_assoc]

end NormalValue

section NormalMain
variable {F : Type} [LinearOrderedField F]

theorem normal_lpdf_checks_ok (y mu sigma : Operand F)
    (hy : ∀ v ∈ y.val.toList, v.isNaN = false)
    (hmu : ∀ v ∈ mu.val.toList, v.isFinite = true)
    (hsigma : ∀ v ∈ sigma.val.toList, (0 : Dbl F) < v)
    (hsizes : SameLength [y.val.shape, mu.val.shape, sigma.val.shape]) :
    check_not_nan y.val = Except.ok () ∧ check_finite mu.val = Except.ok () ∧
      check_positive sigma.val = Except.ok () ∧
      check_consistent_sizes [y.val.shape, mu.val.shape, sigma.val.shape] = Except.ok () := by
  refine ⟨?_, ?_, ?_, (check_consistent_sizes_ok_iff _).mpr hsizes⟩
  · exact (check_elements_ok_iff _ _).mpr (fun v hv => by simp [hy v hv])
  · exact (check_elements_ok_iff _ _).mpr hmu
  · exact (check_elements_ok_iff _ _).mpr (fun v hv => by simpa using hsigma v hv)

theorem normal_lpdf_eq_fold (rnd : F → Dbl F) (log : Dbl F → Dbl F) (c : Dbl F)
    (y mu sigma : Operand F)
    (hy : ∀ v ∈ y.val.toList, v.isNaN = false)
    (hmu : ∀ v ∈ mu.val.toList, v.isFinite = true)
    (hsigma : ∀ v ∈ sigma.val.toList, (0 : Dbl F) < v)
    (hsizes : SameLength [y.val.shape, mu.val.shape, sigma.val.shape])
    (hne : size_zero [y.val.length, mu.val.length, sigma.val.length] = false) :
    normal_lpdf rnd log c false y mu sigma = Except.ok
      ((List.range (max_size [y.val.length, mu.val.length, sigma.val.length])).foldl
        (normal_lpdf_step rnd log c false y mu sigma)
        ⟨0, Edge.init y, Edge.init mu, Edge.init sigma⟩) := by
  obtain ⟨h1, h2, h3, h4⟩ := normal_lpdf_checks_ok y mu sigma hy hmu hsigma hsizes
  simp [normal_lpdf, h1, h2, h3, h4, hne, include_summand, bind, Except.bind, pure, Except.pure]

theorem sigma_pos_of_lt (y mu sigma : Operand F)
    (hsigma : ∀ v ∈ sigma.val.toList, (0 : Dbl F) < v)
    (hsizes : SameLength [y.val.shape, mu.val.shape, sigma.val.shape])
    (hne : size_zero [y.val.length, mu.val.length, sigma.val.length] = false)
    (n : Nat) (hn : n < max_size [y.val.length, mu.val.length, sigma.val.length]) :
    (0 : Dbl F) < sigma.val.getD n Dbl.nan := by
  obtain ⟨v, hv, hget⟩ := seq_get_of_lt_max_size sigma.val
    [y.val.shape, mu.val.shape, sigma.val.shape] (by simp) hsizes
    (by simpa [Seq.length_eq_shape] using hne) n (by simpa [Seq.length_eq_shape] using hn)
  simp only [Seq.getD, hget, Option.getD_some]
  exact hsigma v hv

end NormalMain

/-! ## normal_lpdf: a scale below the range of `1.0 / sigma` -/

section NormalTinySigma
variable {F : Type} [LinearOrderedField F] [FloorRing F]

/-- In binary64 arithmetic `1.0 / 2^-1074` overflows to `+inf`. -/
theorem rdiv_one_tiny_sigma :
    Dbl.rdiv round_double 1 (Dbl.fin (1 / 2 ^ 1074 : F)) = Dbl.pinf := by
  have hne : (1 / 2 ^ 1074 : F) ≠ 0 := by positivity
  have hle : (2 : F) ^ 1024 - 2 ^ 970 ≤ 1 / (1 / 2 ^ 1074) := by
    rw [one_div_one_div]
    have h1 : (2 : F) ^ 1024 ≤ 2 ^ 1074 := pow_le_pow_right₀ (by norm_num) (by norm_num)
    have h2 : (0 : F) < 2 ^ 970 := by positivity
    linarith
  unfold Dbl.rdiv
  change Dbl.round round_double (Dbl.div (Dbl.fin 1) (Dbl.fin (1 / 2 ^ 1074))) = Dbl.pinf
  simp only [Dbl.div, if_neg hne, Dbl.round]
  exact round_double_overflow _ hle

/-- With `y = mu = 0` and `sigma = 2^-1074` (the smallest positive double),
`normal_lpdf` in binary64 arithmetic returns NaN and records NaN for every
partial: `1.0 / sigma` is `+inf` and `(y - mu) * inv_sigma` is `0 * inf`. -/
theorem normal_lpdf_tiny_sigma (log : Dbl F → Dbl F) (c : Dbl F) :
    normal_lpdf round_double log c false (Operand.var (Seq.scalar (Dbl.fin 0)))
        (Operand.var (Seq.scalar (Dbl.fin 0)))
        (Operand.var (Seq.scalar (Dbl.fin (1 / 2 ^ 1074)))) =
      Except.ok ⟨Dbl.nan, [Dbl.nan], [Dbl.nan], [Dbl.nan]⟩ := by
  have hpos : (0 : Dbl F) < Dbl.fin (1 / 2 ^ 1074) := by
    change decide ((0 : F) < 1 / 2 ^ 1074) = true
    simp
  rw [normal_lpdf_eq_fold round_double log c _ _ _
    (by simp [Operand.var, Seq.toList, Dbl.isNaN])
    (by simp [Operand.var, Seq.toList, Dbl.isFinite])
    (by simpa [Operand.var, Seq.toList] using hpos)
    (by simp [SameLength, Operand.var, Seq.shape])
    (by simp [size_zero, Operand.var, Seq.length])]
  have hrange : List.range (max_size [1, 1, 1]) = [0] := by decide
  have hsub : Dbl.rsub round_double (Dbl.fin (0 : F)) (Dbl.fin 0) = Dbl.fin 0 := by
    unfold Dbl.rsub
    rw [Dbl.sub_def]
    change Dbl.round round_double (Dbl.fin (0 + -0)) = Dbl.fin 0
    simp only [neg_zero, add_zero, Dbl.round]
    exact round_double_zero
  simp only [Operand.var, hrange, List.foldl_cons, List.foldl_nil,
    normal_lpdf_step, include_summand, Edge.init, Edge.radd, Seq.is_vector, Seq.getD, Seq.get?,
    Option.getD_some, Seq.length, List.replicate_one, radd_at, rdiv_one_tiny_sigma, hsub,
    Dbl.rmul_zero_pinf, Dbl.rmul_nan, Dbl.nan_rmul, Dbl.radd_nan, Dbl.nan_radd, Dbl.neg_nan,
    Bool.not_false, Bool.true_or, if_true, Bool.false_eq_true, if_false, List.all_nil,
    Bool.not_true, Bool.or_false]

end NormalTinySigma

/-! ## normal_lpdf: the recorded partials -/

section NormalPartials
variable {F : Type} [LinearOrderedField F]

theorem Dbl.fin_add (a b : F) : Dbl.fin a + Dbl.fin b = Dbl.fin (a + b) := rfl
theorem Dbl.fin_sub (a b : F) : Dbl.fin a - Dbl.fin b = Dbl.fin (a - b) :=
  congrArg Dbl.fin (sub_eq_add_neg a b).symm
theorem Dbl.fin_neg (a : F) : -Dbl.fin a = Dbl.fin (-a) := rfl
theorem Dbl.fin_mul (a b : F) : Dbl.fin a * Dbl.fin b = Dbl.fin (a * b) := rfl
theorem Dbl.fin_div (a b : F) (hb : b ≠ 0) : Dbl.fin a / Dbl.fin b = Dbl.fin (a / b) := by
  change (if b = 0 then Dbl.signedInf a else Dbl.fin (a / b)) = _
  rw [if_neg hb]
theorem Dbl.one_eq : (1 : Dbl F) = Dbl.fin 1 := rfl
theorem Dbl.zero_eq : (0 : Dbl F) = Dbl.fin 0 := rfl

/-- The code's `inv_sigma * ((y - mu) * inv_sigma)` is `(y - mu) / sigma^2`. -/
theorem Dbl.scaled_diff_eq (x s : Dbl F) (hs : (0 : Dbl F) < s) :
    (1 / s) * (x * (1 / s)) = x / (s * s) := by
  rcases (Dbl.pos_iff s).mp hs with rfl | ⟨t, ht, rfl⟩
  · cases x with
    | nan => rfl
    | ninf => change Dbl.mul (Dbl.fin 0) (Dbl.signedInf (-(0 : F))) = Dbl.nan; simp [Dbl.signedInf, Dbl.mul]
    | pinf => change Dbl.mul (Dbl.fin 0) (Dbl.signedInf (0 : F)) = Dbl.nan; simp [Dbl.signedInf, Dbl.mul]
    | fin a => change Dbl.fin (0 * (a * 0)) = Dbl.fin 0; simp
  · have hne : t ≠ 0 := ne_of_gt ht
    have htt : ¬ t * t < 0 := not_lt.mpr (mul_self_nonneg t)
    have hinv : (0 : F) < 1 / t := by positivity
    rw [Dbl.one_eq, Dbl.fin_div _ _ hne, Dbl.fin_mul]
    cases x with
    | nan => rfl
    | ninf =>
      change Dbl.mul (Dbl.fin (1 / t)) (Dbl.signedInf (-(1 / t))) = (if t * t < 0 then Dbl.pinf else Dbl.ninf)
      have h2 : ¬ (0 : F) < -(1 / t) := by linarith
      have h3 : -(1 / t) < (0 : F) := by linarith
      rw [if_neg htt]
      simp only [Dbl.signedInf, if_neg h2, if_pos h3, Dbl.mul]
    | pinf =>
      change Dbl.mul (Dbl.fin (1 / t)) (Dbl.signedInf (1 / t)) = (if t * t < 0 then Dbl.ninf else Dbl.pinf)
      rw [if_neg htt]
      simp only [Dbl.signedInf, if_pos hinv, Dbl.mul]
    | fin a =>
      rw [Dbl.fin_mul, Dbl.fin_mul, Dbl.fin_div _ _ (mul_ne_zero hne hne)]
      congr 1
      field_simp

theorem add_at_append (A B : List (Dbl F)) (x v : Dbl F) :
    add_at (A ++ x :: B) A.length v = A ++ (x + v) :: B := by
  induction A with
  | nil => rfl
  | cons a A ih => simp [add_at, ih]

theorem add_at_append_of_length (A B : List (Dbl F)) (x v : Dbl F) (n : Nat)
    (hn : A.length = n) : add_at (A ++ x :: B) n v = A ++ (x + v) :: B := by
  subst hn
  exact add_at_append A B x v

theorem radd_at_exact (l : List (Dbl F)) (i : Nat) (v : Dbl F) :
    radd_at Dbl.fin l i v = add_at l i v := by
  induction l generalizing i with
  | nil => rfl
  | cons p ps ih =>
    cases i with
    | zero => simp [radd_at, add_at, Dbl.radd_exact]
    | succ i => simp [radd_at, add_at, ih]

theorem Edge.radd_eq_add (op : Operand F) (l : List (Dbl F)) (n : Nat) (v : Dbl F) :
    Edge.radd Dbl.fin op l n v = Edge.add op l n v := by
  simp [Edge.radd, Edge.add, radd_at_exact]

theorem radd_at_append (rnd : F → Dbl F) (A B : List (Dbl F)) (x v : Dbl F) :
    radd_at rnd (A ++ x :: B) A.length v = A ++ Dbl.radd rnd x v :: B := by
  induction A with
  | nil => rfl
  | cons a A ih => simp [radd_at, ih]

theorem radd_at_append_of_length (rnd : F → Dbl F) (A B : List (Dbl F)) (x v : Dbl F) (n : Nat)
    (hn : A.length = n) : radd_at rnd (A ++ x :: B) n v = A ++ Dbl.radd rnd x v :: B := by
  subst hn
  exact radd_at_append rnd A B x v

end NormalPartials

section NormalBroadcast
variable {F : Type} [LinearOrderedField F]

theorem normal_lpdf_fold_broadcast_rounded (rnd : F → Dbl F) (log : Dbl F → Dbl F) (c : Dbl F)
    (ys : List (Dbl F)) (m s : Dbl F) (k : Nat) (hk : k ≤ ys.length) :
    ((List.range k).foldl
        (normal_lpdf_step rnd log c false (Operand.var (Seq.vec ys)) (Operand.var (Seq.scalar m))
          (Operand.const (Seq.scalar s)))
        ⟨0, List.replicate ys.length 0, [0], []⟩).partials1 =
      (ys.take k).map (fun y_n => Dbl.radd rnd 0
        (-(Dbl.rmul rnd (Dbl.rdiv rnd 1 s) (Dbl.rmul rnd (Dbl.rsub rnd y_n m) (Dbl.rdiv rnd 1 s)))))
        ++ List.replicate (ys.length - k) 0 ∧
    ((List.range k).foldl
        (normal_lpdf_step rnd log c false (Operand.var (Seq.vec ys)) (Operand.var (Seq.scalar m))
          (Operand.const (Seq.scalar s)))
        ⟨0, List.replicate ys.length 0, [0], []⟩).partials2 =
      [(ys.take k).foldl (fun acc y_n => Dbl.radd rnd acc
        (Dbl.rmul rnd (Dbl.rdiv rnd 1 s) (Dbl.rmul rnd (Dbl.rsub rnd y_n m) (Dbl.rdiv rnd 1 s))))
        0] ∧
    ((List.range k).foldl
        (normal_lpdf_step rnd log c false (Operand.var (Seq.vec ys)) (Operand.var (Seq.scalar m))
          (Operand.const (Seq.scalar s)))
        ⟨0, List.replicate ys.length 0, [0], []⟩).partials3 = [] := by
  induction k with
  | zero => simp
  | succ k ih =>
    obtain ⟨h1, h2, h3⟩ := ih (by omega)
    have hlt : k < ys.length := by omega
    rw [List.range_succ, List.foldl_append]
    simp only [List.foldl_cons, List.foldl_nil, normal_lpdf_step, Operand.var, Operand.const,
      Edge.radd, Seq.is_vector, Bool.not_false, Bool.not_true, if_true, Bool.false_eq_true,
      if_false, Seq.getD, Seq.get?, Option.getD_some]
    simp only [Operand.var, Operand.const] at h1 h2 h3
    have hget : ys.get? k = some ys[k] := by
      rw [List.get?_eq_getElem?, List.getElem?_eq_getElem hlt]
    have htake : ys.take (k + 1) = ys.take k ++ [ys[k]] := by
      rw [List.take_succ, List.getElem?_eq_getElem hlt]; rfl
    have hrep : List.replicate (ys.length - k) (0 : Dbl F) =
        0 :: List.replicate (ys.length - (k + 1)) 0 := by
      have : ys.length - k = (ys.length - (k + 1)) + 1 := by omega
      rw [this, List.replicate_succ]
    have hlen : ((ys.take k).map (fun y_n => Dbl.radd rnd 0
        (-(Dbl.rmul rnd (Dbl.rdiv rnd 1 s)
          (Dbl.rmul rnd (Dbl.rsub rnd y_n m) (Dbl.rdiv rnd 1 s)))))).length = k := by
      simp [List.length_take, Nat.min_eq_left (Nat.le_of_lt hlt)]
    rw [h1, h2, h3, hget, Option.getD_some, htake, hrep]
    refine ⟨?_, ?_, rfl⟩
    · rw [radd_at_append_of_length _ _ _ _ _ _ hlen]
      simp only [List.map_append, List.map_cons, List.map_nil, List.append_assoc,
        List.singleton_append]
    · simp only [List.foldl_append, List.foldl_cons, List.foldl_nil, radd_at]

theorem normal_lpdf_fold_broadcast (log : Dbl F → Dbl F) (c : Dbl F) (ys : List (Dbl F))
    (m s : Dbl F) (hs : (0 : Dbl F) < s) (k : Nat) (hk : k ≤ ys.length) :
    ((List.range k).foldl
        (normal_lpdf_step Dbl.fin log c false (Operand.var (Seq.vec ys))
          (Operand.var (Seq.scalar m)) (Operand.const (Seq.scalar s)))
        ⟨0, List.replicate ys.length 0, [0], []⟩).partials1 =
      (ys.take k).map (fun y_n => -((y_n - m) / (s * s))) ++ List.replicate (ys.length - k) 0 ∧
    ((List.range k).foldl
        (normal_lpdf_step Dbl.fin log c false (Operand.var (Seq.vec ys))
          (Operand.var (Seq.scalar m)) (Operand.const (Seq.scalar s)))
        ⟨0, List.replicate ys.length 0, [0], []⟩).partials2 =
      [((ys.take k).map (fun y_n => (y_n - m) / (s * s))).sum] ∧
    ((List.range k).foldl
        (normal_lpdf_step Dbl.fin log c false (Operand.var (Seq.vec ys))
          (Operand.var (Seq.scalar m)) (Operand.const (Seq.scalar s)))
        ⟨0, List.replicate ys.length 0, [0], []⟩).partials3 = [] := by
  induction k with
  | zero => simp
  | succ k ih =>
    obtain ⟨h1, h2, h3⟩ := ih (by omega)
    have hlt : k < ys.length := by omega
    rw [List.range_succ, List.foldl_append]
    simp only [List.foldl_cons, List.foldl_nil, normal_lpdf_step, Operand.var, Operand.const,
      Edge.radd_eq_add, Dbl.radd_exact, Dbl.rsub_exact, Dbl.rmul_exact, Dbl.rdiv_exact,
      Edge.add, Seq.is_vector, Bool.not_false, Bool.not_true, if_true, Bool.false_eq_true,
      if_false, Seq.getD, Seq.get?, Option.getD_some]
    simp only [Operand.var, Operand.const] at h1 h2 h3
    have hget : ys.get? k = some ys[k] := by
      rw [List.get?_eq_getElem?, List.getElem?_eq_getElem hlt]
    have htake : ys.take (k + 1) = ys.take k ++ [ys[k]] := by
      rw [List.take_succ, List.getElem?_eq_getElem hlt]; rfl
    have hrep : List.replicate (ys.length - k) (0 : Dbl F) =
        0 :: List.replicate (ys.length - (k + 1)) 0 := by
      have : ys.length - k = (ys.length - (k + 1)) + 1 := by omega
      rw [this, List.replicate_succ]
    have hlen : ((ys.take k).map (fun y_n => -((y_n - m) / (s * s)))).length = k := by
      simp [List.length_take, Nat.min_eq_left (Nat.le_of_lt hlt)]
    rw [h1, h2, h3, hget, Option.getD_some, Dbl.scaled_diff_eq _ _ hs, htake, hrep]
    refine ⟨?_, ?_, rfl⟩
    · rw [add_at_append_of_length _ _ _ _ _ hlen, zero_add]
      simp only [List.map_append, List.map_cons, List.map_nil, List.append_assoc,
        List.singleton_append]
    · simp only [List.map_append, List.map_cons, List.map_nil, List.sum_append, List.sum_cons,
        List.sum_nil, add_zero, add_at]

end NormalBroadcast

section NormalBroadcastTinySigma
variable {F : Type} [LinearOrderedField F] [FloorRing F]

/-- With `y = (0, 0, 0)`, `mu = 0` and the constant `sigma = 2^-1074`, every
position adds `inv_sigma * (0 * inv_sigma)` with `inv_sigma = +inf`, which is
NaN. -/
theorem normal_lpdf_broadcast_tiny_sigma (log : Dbl F → Dbl F) (c : Dbl F) :
    ∃ r, normal_lpdf round_double log c false
        (Operand.var (Seq.vec [Dbl.fin 0, Dbl.fin 0, Dbl.fin 0]))
        (Operand.var (Seq.scalar (Dbl.fin 0)))
        (Operand.const (Seq.scalar (Dbl.fin (1 / 2 ^ 1074)))) = Except.ok r ∧
      r.partials2 = [Dbl.nan] ∧ r.partials1 = [Dbl.nan, Dbl.nan, Dbl.nan] := by
  have hpos : (0 : Dbl F) < Dbl.fin (1 / 2 ^ 1074) := by
    change decide ((0 : F) < 1 / 2 ^ 1074) = true
    simp
  have hfold := normal_lpdf_eq_fold round_double log c
    (Operand.var (Seq.vec [Dbl.fin 0, Dbl.fin 0, Dbl.fin 0]))
    (Operand.var (Seq.scalar (Dbl.fin 0)))
    (Operand.const (Seq.scalar (Dbl.fin (1 / 2 ^ 1074))))
    (by simp [Operand.var, Seq.toList, Dbl.isNaN])
    (by simp [Operand.var, Seq.toList, Dbl.isFinite])
    (by simpa [Operand.const, Seq.toList] using hpos)
    (by simp [SameLength, Operand.var, Operand.const, Seq.shape])
    (by simp [size_zero, Operand.var, Operand.const, Seq.length])
  have hsub : Dbl.rsub round_double (Dbl.fin (0 : F)) (Dbl.fin 0) = Dbl.fin 0 := by
    unfold Dbl.rsub
    rw [Dbl.sub_def]
    change Dbl.round round_double (Dbl.fin (0 + -0)) = Dbl.fin 0
    simp only [neg_zero, add_zero, Dbl.round]
    exact round_double_zero
  obtain ⟨h1, h2, _⟩ := normal_lpdf_fold_broadcast_rounded round_double log c
    [Dbl.fin 0, Dbl.fin 0, Dbl.fin 0] (Dbl.fin 0) (Dbl.fin (1 / 2 ^ 1074)) 3 (le_refl _)
  refine ⟨_, hfold, h2.trans ?_, h1.trans ?_⟩
  · simp only [List.take, List.foldl_cons, List.foldl_nil, rdiv_one_tiny_sigma, hsub,
      Dbl.rmul_zero_pinf, Dbl.rmul_nan, Dbl.radd_nan, Dbl.nan_radd]
  · simp only [List.take, List.map_cons, List.map_nil, rdiv_one_tiny_sigma, hsub,
      Dbl.rmul_zero_pinf, Dbl.rmul_nan, Dbl.radd_nan, Dbl.neg_nan, List.length_cons,
      List.length_nil, Nat.sub_self, List.replicate_zero, List.append_nil]

end NormalBroadcastTinySigma

section NormalScalar
variable {F : Type} [LinearOrderedField F]

theorem normal_lpdf_scalar_closed_form (log : Dbl F → Dbl F) (c a b s L : F) (hs : 0 < s)
    (hl : log (Dbl.fin s) = Dbl.fin L) :
    normal_lpdf Dbl.fin log (Dbl.fin c) false (Operand.var (Seq.scalar (Dbl.fin a)))
        (Operand.var (Seq.scalar (Dbl.fin b))) (Operand.var (Seq.scalar (Dbl.fin s))) =
      Except.ok ⟨Dbl.fin (c - L - 1 / 2 * ((a - b) / s) ^ 2),
        [Dbl.fin (-(a - b) / s ^ 2)], [Dbl.fin ((a - b) / s ^ 2)],
        [Dbl.fin (-1 / s + (a - b) ^ 2 / s ^ 3)]⟩ := by
  have hne : s ≠ 0 := ne_of_gt hs
  have hpos : (0 : Dbl F) < Dbl.fin s := by
    change decide ((0 : F) < s) = true
    simpa using hs
  rw [normal_lpdf_eq_fold Dbl.fin log (Dbl.fin c) _ _ _
    (by simp [Operand.var, Seq.toList, Dbl.isNaN])
    (by simp [Operand.var, Seq.toList, Dbl.isFinite])
    (by simpa [Operand.var, Seq.toList] using hpos)
    (by simp [SameLength, Operand.var, Seq.shape])
    (by simp [size_zero, Operand.var, Seq.length])]
  have hrange : List.range (max_size [1, 1, 1]) = [0] := by decide
  simp only [Operand.var, hrange, List.foldl_cons, List.foldl_nil,
    normal_lpdf_step, include_summand, Edge.init, Edge.radd_eq_add, Dbl.radd_exact,
    Dbl.rsub_exact, Dbl.rmul_exact, Dbl.rdiv_exact, Edge.add, Seq.is_vector, Seq.getD, Seq.get?,
    Option.getD_some, Seq.length, List.replicate_one, add_at, hl, Dbl.one_eq, Dbl.zero_eq,
    Dbl.fin_div _ _ hne, Dbl.fin_sub, Dbl.fin_mul, Dbl.fin_add, Dbl.fin_neg, NEGATIVE_HALF,
    Bool.not_false, Bool.true_or, if_true, Bool.false_eq_true, if_false, List.all_nil,
    Bool.not_true, Bool.or_false]
  have e1 : 0 + c - L + -(1 / 2) * ((a - b) * (1 / s) * ((a - b) * (1 / s))) =
      c - L - 1 / 2 * ((a - b) / s) ^ 2 := by
    ring
  have e2 : 0 + -(1 / s * ((a - b) * (1 / s))) = -(a - b) / s ^ 2 := by
    ring
  have e3 : 0 + 1 / s * ((a - b) * (1 / s)) = (a - b) / s ^ 2 := by
    ring
  have e4 : 0 + (-(1 / s) + 1 / s * ((a - b) * (1 / s) * ((a - b) * (1 / s)))) =
      -1 / s + (a - b) ^ 2 / s ^ 3 := by
    ring
  rw [e1, e2, e3, e4]

end NormalScalar

section NormalDerivatives

theorem normal_lpdf_real_eq (log : Dbl ℝ → Dbl ℝ) (c : ℝ)
    (hlog : ∀ x : ℝ, 0 < x → log (Dbl.fin x) = Dbl.fin (Real.log x)) (a b s : ℝ) (hs : 0 < s) :
    returned_value (normal_lpdf Dbl.fin log (Dbl.fin c) false (Operand.var (Seq.scalar (Dbl.fin a)))
        (Operand.var (Seq.scalar (Dbl.fin b))) (Operand.var (Seq.scalar (Dbl.fin s)))) =
      c - Real.log s - 1 / 2 * ((a - b) / s) ^ 2 := by
  rw [normal_lpdf_scalar_closed_form log c a b s (Real.log s) hs (hlog s hs)]
  rfl

/-- In exact arithmetic, the partials recorded for three differentiable
scalars are the derivatives of the returned log density. -/
theorem normal_lpdf_exact_partials (log : Dbl ℝ → Dbl ℝ) (NEG_LOG_SQRT_TWO_PI : ℝ)
    (hlog : ∀ x : ℝ, 0 < x → log (Dbl.fin x) = Dbl.fin (Real.log x))
    (y mu sigma : ℝ) (hsigma : 0 < sigma) :
    ∃ r, normal_lpdf Dbl.fin log (Dbl.fin NEG_LOG_SQRT_TWO_PI) false (Operand.var (Seq.scalar (Dbl.fin y)))
        (Operand.var (Seq.scalar (Dbl.fin mu))) (Operand.var (Seq.scalar (Dbl.fin sigma))) =
          Except.ok r ∧
      r.partials1 = [Dbl.fin (-(y - mu) / sigma ^ 2)] ∧
      r.partials2 = [Dbl.fin ((y - mu) / sigma ^ 2)] ∧
      r.partials3 = [Dbl.fin (-1 / sigma + (y - mu) ^ 2 / sigma ^ 3)] ∧
      HasDerivAt (fun t => returned_value (normal_lpdf Dbl.fin log (Dbl.fin NEG_LOG_SQRT_TWO_PI) false
          (Operand.var (Seq.scalar (Dbl.fin t))) (Operand.var (Seq.scalar (Dbl.fin mu)))
          (Operand.var (Seq.scalar (Dbl.fin sigma))))) (-(y - mu) / sigma ^ 2) y ∧
      HasDerivAt (fun t => returned_value (normal_lpdf Dbl.fin log (Dbl.fin NEG_LOG_SQRT_TWO_PI) false
          (Operand.var (Seq.scalar (Dbl.fin y))) (Operand.var (Seq.scalar (Dbl.fin t)))
          (Operand.var (Seq.scalar (Dbl.fin sigma))))) ((y - mu) / sigma ^ 2) mu ∧
      HasDerivAt (fun t => returned_value (normal_lpdf Dbl.fin log (Dbl.fin NEG_LOG_SQRT_TWO_PI) false
          (Operand.var (Seq.scalar (Dbl.fin y))) (Operand.var (Seq.scalar (Dbl.fin mu)))
          (Operand.var (Seq.scalar (Dbl.fin t))))) (-1 / sigma + (y - mu) ^ 2 / sigma ^ 3) sigma := by
  have hne : sigma ≠ 0 := ne_of_gt hsigma
  refine ⟨_, normal_lpdf_scalar_closed_form log NEG_LOG_SQRT_TWO_PI y mu sigma (Real.log sigma)
    hsigma (hlog sigma hsigma), rfl, rfl, rfl, ?_, ?_, ?_⟩
  · have hf : (fun t => returned_value (normal_lpdf Dbl.fin log (Dbl.fin NEG_LOG_SQRT_TWO_PI) false
          (Operand.var (Seq.scalar (Dbl.fin t))) (Operand.var (Seq.scalar (Dbl.fin mu)))
          (Operand.var (Seq.scalar (Dbl.fin sigma))))) =
        fun t => NEG_LOG_SQRT_TWO_PI - Real.log sigma - 1 / 2 * ((t - mu) / sigma) ^ 2 :=
      funext (fun t => normal_lpdf_real_eq log _ hlog t mu sigma hsigma)
    rw [hf]
    have h1 : HasDerivAt (fun t : ℝ => (t - mu) / sigma) (1 / sigma) y :=
      ((hasDerivAt_id y).sub_const mu).div_const sigma
    have h2 := ((h1.pow 2).const_mul (1 / 2 : ℝ)).const_sub (NEG_LOG_SQRT_TWO_PI - Real.log sigma)
    convert h2 using 1
    ring
  · have hf : (fun t => returned_value (normal_lpdf Dbl.fin log (Dbl.fin NEG_LOG_SQRT_TWO_PI) false
          (Operand.var (Seq.scalar (Dbl.fin y))) (Operand.var (Seq.scalar (Dbl.fin t)))
          (Operand.var (Seq.scalar (Dbl.fin sigma))))) =
        fun t => NEG_LOG_SQRT_TWO_PI - Real.log sigma - 1 / 2 * ((y - t) / sigma) ^ 2 :=
      funext (fun t => normal_lpdf_real_eq log _ hlog y t sigma hsigma)
    rw [hf]
    have h1 : HasDerivAt (fun t : ℝ => (y - t) / sigma) (-1 / sigma) mu :=
      ((hasDerivAt_id mu).const_sub y).div_const sigma
    have h2 := ((h1.pow 2).const_mul (1 / 2 : ℝ)).const_sub (NEG_LOG_SQRT_TWO_PI - Real.log sigma)
    convert h2 using 1
    ring
  · have hev : (fun t => returned_value (normal_lpdf Dbl.fin log (Dbl.fin NEG_LOG_SQRT_TWO_PI) false
          (Operand.var (Seq.scalar (Dbl.fin y))) (Operand.var (Seq.scalar (Dbl.fin mu)))
          (Operand.var (Seq.scalar (Dbl.fin t))))) =ᶠ[nhds sigma]
        fun t => NEG_LOG_SQRT_TWO_PI - Real.log t - 1 / 2 * ((y - mu) / t) ^ 2 := by
      filter_upwards [lt_mem_nhds hsigma] with t ht
      exact normal_lpdf_real_eq log _ hlog y mu t ht
    refine HasDerivAt.congr_of_eventuallyEq ?_ hev
    have h1 : HasDerivAt (fun t : ℝ => (y - mu) / t) (-(y - mu) / sigma ^ 2) sigma := by
      have := (hasDerivAt_const sigma (y - mu)).div (hasDerivAt_id sigma) hne
      convert this using 1
      simp
    have h2 := (((hasDerivAt_const sigma NEG_LOG_SQRT_TWO_PI).sub
      (Real.hasDerivAt_log hne)).sub ((h1.pow 2).const_mul (1 / 2 : ℝ)))
    convert h2 using 1
    ring

end NormalDerivatives

section NormalScalarRounded
variable {F : Type} [LinearOrderedField F]

/-- What `normal_lpdf` returns for three differentiable scalars, in the
operations of the loop body. -/
theorem normal_lpdf_scalar_rounded (rnd : F → Dbl F) (log : Dbl F → Dbl F) (c : Dbl F)
    (a b s : F) (hs : 0 < s) :
    normal_lpdf rnd log c false (Operand.var (Seq.scalar (Dbl.fin a)))
        (Operand.var (Seq.scalar (Dbl.fin b))) (Operand.var (Seq.scalar (Dbl.fin s))) =
      Except.ok
        ⟨Dbl.radd rnd (Dbl.rsub rnd (Dbl.radd rnd 0 c) (log (Dbl.fin s)))
            (Dbl.rmul rnd NEGATIVE_HALF
              (Dbl.rmul rnd
                (Dbl.rmul rnd (Dbl.rsub rnd (Dbl.fin a) (Dbl.fin b)) (Dbl.rdiv rnd 1 (Dbl.fin s)))
                (Dbl.rmul rnd (Dbl.rsub rnd (Dbl.fin a) (Dbl.fin b))
                  (Dbl.rdiv rnd 1 (Dbl.fin s))))),
          [Dbl.radd rnd 0 (-(Dbl.rmul rnd (Dbl.rdiv rnd 1 (Dbl.fin s))
            (Dbl.rmul rnd (Dbl.rsub rnd (Dbl.fin a) (Dbl.fin b)) (Dbl.rdiv rnd 1 (Dbl.fin s)))))],
          [Dbl.radd rnd 0 (Dbl.rmul rnd (Dbl.rdiv rnd 1 (Dbl.fin s))
            (Dbl.rmul rnd (Dbl.rsub rnd (Dbl.fin a) (Dbl.fin b)) (Dbl.rdiv rnd 1 (Dbl.fin s))))],
          [Dbl.radd rnd 0 (Dbl.radd rnd (-(Dbl.rdiv rnd 1 (Dbl.fin s)))
            (Dbl.rmul rnd (Dbl.rdiv rnd 1 (Dbl.fin s))
              (Dbl.rmul rnd
                (Dbl.rmul rnd (Dbl.rsub rnd (Dbl.fin a) (Dbl.fin b)) (Dbl.rdiv rnd 1 (Dbl.fin s)))
                (Dbl.rmul rnd (Dbl.rsub rnd (Dbl.fin a) (Dbl.fin b))
                  (Dbl.rdiv rnd 1 (Dbl.fin s))))))]⟩ := by
  have hpos : (0 : Dbl F) < Dbl.fin s := by
    change decide ((0 : F) < s) = true
    simpa using hs
  rw [normal_lpdf_eq_fold rnd log c _ _ _
    (by simp [Operand.var, Seq.toList, Dbl.isNaN])
    (by simp [Operand.var, Seq.toList, Dbl.isFinite])
    (by simpa [Operand.var, Seq.toList] using hpos)
    (by simp [SameLength, Operand.var, Seq.shape])
    (by simp [size_zero, Operand.var, Seq.length])]
  have hrange : List.range (max_size [1, 1, 1]) = [0] := by decide
  simp only [Operand.var, hrange, List.foldl_cons, List.foldl_nil,
    normal_lpdf_step, include_summand, Edge.init, Edge.radd, Seq.is_vector, Seq.getD, Seq.get?,
    Option.getD_some, Seq.length, List.replicate_one, radd_at,
    Bool.not_false, Bool.true_or, if_true, Bool.false_eq_true, if_false, List.all_nil,
    Bool.not_true, Bool.or_false]

end NormalScalarRounded

section NormalDerivativesMain

end NormalDerivativesMain

/-! ## normal_lpdf in binary64 arithmetic -/

section Dyadic
variable {F : Type} [LinearOrderedField F] [FloorRing F]

/-- Every finite result of `round_double` is an integer multiple of
`2^-1074`. -/
theorem round_double_dyadic (x y : F) (h : round_double x = Dbl.fin y) :
    ∃ n : Int, y * 2 ^ 1074 = (n : F) := by
  unfold round_double at h
  split at h
  · split at h <;> cases h
  · simp only [Dbl.fin.injEq] at h
    have he : (0 : Int) ≤ max (Int.log 2 |x|) (-1022) - 52 + 1074 := by
      have := le_max_right (Int.log 2 |x|) (-1022)
      omega
    obtain ⟨k, hk⟩ := Int.eq_ofNat_of_zero_le he
    refine ⟨round_half_even (x / (2 : F) ^ (max (Int.log 2 |x|) (-1022) - 52)) * 2 ^ k, ?_⟩
    have h2 : (2 : F) ≠ 0 := by norm_num
    have hpow : (2 : F) ^ (max (Int.log 2 |x|) (-1022) - 52) * 2 ^ 1074 = 2 ^ k := by
      have h1074 : (2 : F) ^ 1074 = (2 : F) ^ ((1074 : Nat) : Int) := (zpow_natCast _ _).symm
      rw [h1074, ← zpow_add₀ h2]
      have : max (Int.log 2 |x|) (-1022) - 52 + ((1074 : Nat) : Int) = (k : Int) := by
        rw [← hk]; rfl
      rw [this, zpow_natCast]
    rw [← h, mul_assoc, hpow]
    push_cast
    rfl

/-- A double operation under `round_double` never gives a finite number that
is not an integer multiple of `2^-1074`. -/
theorem round_round_double_ne (v : Dbl F) (q : F) (hq : ∀ n : Int, q * 2 ^ 1074 ≠ (n : F)) :
    Dbl.round round_double v ≠ Dbl.fin q := by
  cases v with
  | nan => simp [Dbl.round]
  | ninf => simp [Dbl.round]
  | pinf => simp [Dbl.round]
  | fin t =>
    intro h
    obtain ⟨n, hn⟩ := round_double_dyadic t q h
    exact hq n hn

end Dyadic

/-- A fraction `a / b` whose denominator has an odd prime factor `p` that
does not divide `a` is not an integer multiple of a power of `1 / 2`. -/
theorem not_dyadic_of_odd_factor (a b : Int) (p : Nat) (hp : Nat.Prime p) (hp2 : p ≠ 2)
    (hb : b ≠ 0) (hpb : (p : Int) ∣ b) (ha : ¬ (p : Int) ∣ a) (k : Nat) (n : Int) :
    (a : ℝ) / (b : ℝ) * 2 ^ k ≠ (n : ℝ) := by
  intro h
  have hb0 : (b : ℝ) ≠ 0 := by exact_mod_cast hb
  have h1 : (a : ℝ) * 2 ^ k = (n : ℝ) * (b : ℝ) := by
    field_simp at h
    linarith
  have h2 : a * 2 ^ k = n * b := by exact_mod_cast h1
  have hdvd : (p : Int) ∣ a * 2 ^ k := by
    rw [h2]
    exact Dvd.dvd.mul_left hpb n
  have hprime : Prime (p : Int) := Nat.prime_iff_prime_int.mp hp
  rcases hprime.dvd_or_dvd hdvd with h3 | h3
  · exact ha h3
  · have h4 := hprime.dvd_of_dvd_pow h3
    have h5 : p ∣ 2 := by exact_mod_cast h4
    exact hp2 ((Nat.prime_dvd_prime_iff_eq hp Nat.prime_two).mp h5)

section RoundDoubleFinite
variable {F : Type} [LinearOrderedField F] [FloorRing F]

/-- A result of magnitude below `2^1024 - 2^970` rounds to a finite double. -/
theorem round_double_finite (x : F) (h : |x| < (2 : F) ^ 1024 - 2 ^ 970) :
    ∃ y, round_double x = Dbl.fin y := by
  unfold round_double
  rw [if_neg (not_le.mpr h)]
  exact ⟨_, rfl⟩

end RoundDoubleFinite

theorem small_lt_overflow_threshold (x : ℝ) (h : |x| ≤ 8) : |x| < (2 : ℝ) ^ 1024 - 2 ^ 970 := by
  have h1 : (2 : ℝ) ^ 970 * 2 ≤ 2 ^ 1024 := by
    rw [← pow_succ]
    exact pow_le_pow_right₀ (by norm_num) (by norm_num)
  have h2 : (8 : ℝ) < 2 ^ 970 := by
    have h8 : (2 : ℝ) ^ 3 = 8 := by norm_num
    have h4 : (2 : ℝ) ^ 3 < 2 ^ 970 := pow_lt_pow_right₀ (by norm_num) (by norm_num)
    linarith
  linarith

/-- The double `std::log(3.0)` of the rounded real logarithm is finite and an
integer multiple of `2^-1074`. -/
theorem rounded_log_three :
    ∃ L : ℝ, Dbl.round round_double (Dbl.std_log Real.log (Dbl.fin 3)) = Dbl.fin L ∧
      ∃ n : Int, L * 2 ^ 1074 = (n : ℝ) := by
  have h3 : (0 : ℝ) < 3 := by norm_num
  have hlog0 : 0 ≤ Real.log 3 := Real.log_nonneg (by norm_num)
  have hlog1 : Real.log 3 ≤ 3 - 1 := Real.log_le_sub_one_of_pos h3
  have habs : |Real.log 3| ≤ 8 := by
    rw [abs_of_nonneg hlog0]
    linarith
  obtain ⟨L, hL⟩ := round_double_finite (Real.log 3) (small_lt_overflow_threshold _ habs)
  refine ⟨L, ?_, round_double_dyadic _ _ hL⟩
  simp only [Dbl.std_log, h3, if_true, Dbl.round]
  exact hL

/-- The double nearest to `-log(sqrt(2*pi))` is finite and an integer multiple
of `2^-1074`. -/
theorem rounded_neg_log_sqrt_two_pi :
    ∃ c : ℝ, Dbl.round round_double (Dbl.fin (-Real.log (Real.sqrt (2 * Real.pi)))) = Dbl.fin c ∧
      ∃ n : Int, c * 2 ^ 1074 = (n : ℝ) := by
  have hpi3 : (3 : ℝ) < Real.pi := Real.pi_gt_three
  have hpi4 : Real.pi ≤ 4 := Real.pi_le_four
  have h1 : (1 : ℝ) ≤ Real.sqrt (2 * Real.pi) := by
    rw [Real.one_le_sqrt]
    linarith
  have h2 : Real.sqrt (2 * Real.pi) ≤ 3 := by
    rw [Real.sqrt_le_left (by norm_num : (0 : ℝ) ≤ 3)]
    nlinarith
  have hlog0 : 0 ≤ Real.log (Real.sqrt (2 * Real.pi)) := Real.log_nonneg h1
  have hlog1 : Real.log (Real.sqrt (2 * Real.pi)) ≤ Real.sqrt (2 * Real.pi) - 1 :=
    Real.log_le_sub_one_of_pos (by linarith)
  have habs : |(-Real.log (Real.sqrt (2 * Real.pi)))| ≤ 8 := by
    rw [abs_neg, abs_of_nonneg hlog0]
    linarith
  obtain ⟨c, hc⟩ := round_double_finite _ (small_lt_overflow_threshold _ habs)
  exact ⟨c, hc, round_double_dyadic _ _ hc⟩

section NormalBroadcastOrdinary
variable {F : Type} [LinearOrderedField F]

/-- The buffers after the three positions of `y = (1, 2, 4)` with the scalar
`mu = 1` and the constant `sigma = 3`: the last operation on the buffer of
`mu`, and the one operation on the second entry of the buffer of `y`, are
double additions. -/
theorem normal_lpdf_broadcast_ordinary (rnd : F → Dbl F) (log : Dbl F → Dbl F) (c : Dbl F) :
    ∃ r v w p0 p2, normal_lpdf rnd log c false
        (Operand.var (Seq.vec [Dbl.fin 1, Dbl.fin 2, Dbl.fin 4]))
        (Operand.var (Seq.scalar (Dbl.fin 1)))
        (Operand.const (Seq.scalar (Dbl.fin 3))) = Except.ok r ∧
      r.partials2 = [Dbl.round rnd v] ∧ r.partials1 = [p0, Dbl.round rnd w, p2] := by
  have hpos : (0 : Dbl F) < Dbl.fin 3 := by
    change decide ((0 : F) < 3) = true
    simp
  have hfold := normal_lpdf_eq_fold rnd log c
    (Operand.var (Seq.vec [Dbl.fin 1, Dbl.fin 2, Dbl.fin 4]))
    (Operand.var (Seq.scalar (Dbl.fin 1)))
    (Operand.const (Seq.scalar (Dbl.fin 3)))
    (by simp [Operand.var, Seq.toList, Dbl.isNaN])
    (by simp [Operand.var, Seq.toList, Dbl.isFinite])
    (by simpa [Operand.const, Seq.toList] using hpos)
    (by simp [SameLength, Operand.var, Operand.const, Seq.shape])
    (by simp [size_zero, Operand.var, Operand.const, Seq.length])
  obtain ⟨h1, h2, _⟩ := normal_lpdf_fold_broadcast_rounded rnd log c
    [Dbl.fin 1, Dbl.fin 2, Dbl.fin 4] (Dbl.fin 1) (Dbl.fin 3) 3 (le_refl _)
  exact ⟨_, _, _, _, _, hfold,
    h2.trans (by simp only [List.take, List.foldl_cons, List.foldl_nil]; rfl),
    h1.trans (by
      simp only [List.take, List.map_cons, List.map_nil, List.length_cons,
        List.length_nil, Nat.sub_self, List.replicate_zero, List.append_nil]
      rfl)⟩

end NormalBroadcastOrdinary

/-- C6 (the code on NaN with nothing to compare): a scalar NaN checked against
two empty vectors of bounds, an empty vector checked against a NaN bound, and
a NaN bound lying past the end of `y`, all make `check_bounded` return true. -/
theorem check_bounded_nan_returns_true :
    check_bounded (Seq.scalar (Dbl.nan : Dbl ℚ)) (Seq.vec []) (Seq.vec []) = Except.ok true ∧
    check_bounded (Seq.vec []) (Seq.scalar (Dbl.nan : Dbl ℚ)) (Seq.scalar (Dbl.fin 1)) =
      Except.ok true ∧
    check_bounded (Seq.vec [Dbl.fin (1 : ℚ)]) (Seq.vec [Dbl.fin 0, Dbl.nan])
      (Seq.vec [Dbl.fin 2, Dbl.fin 2]) = Except.ok true := by
  decide

/-! ## hypergeometric_lpmf -/

section HypergeometricThms
variable {F : Type} [LinearOrderedField F]

theorem foldl_add_eq_sum (f : Nat → Dbl F) (init : Dbl F) (k : Nat) :
    (List.range k).foldl (fun acc i => acc + f i) init = init + ∑ i in Finset.range k, f i := by
  induction k with
  | zero => simp
  | succ k ih =>
    rw [List.range_succ, List.foldl_append, List.foldl_cons, List.foldl_nil, ih,
      Finset.sum_range_succ, add_assoc]

theorem hypergeometric_lpmf_ok_elim (bcl : Int → Int → Dbl F) (n N a b : Seq Int) (v : Dbl F)
    (hne : size_zero [n.length, N.length, a.length, b.length] = false)
    (hacc : hypergeometric_lpmf bcl false n N a b = Except.ok v) :
    (∃ t, check_bounded n (Seq.scalar 0) a = Except.ok t) ∧
    check_greater N n = Except.ok () ∧
    check_consistent_sizes [n.shape, N.shape, a.shape, b.shape] = Except.ok () ∧
    loopFrom (hypergeometric_check_at n N a b) 0
      (max_size [n.length, N.length, a.length, b.length]) = Except.ok () ∧
    v = (List.range (max_size [n.length, N.length, a.length, b.length])).foldl
      (fun logp i => logp + hypergeometric_term bcl n N a b i) 0 := by
  unfold hypergeometric_lpmf at hacc
  simp only [bind, Except.bind, include_summand, hne, pure, Except.pure] at hacc
  cases h1 : check_bounded n (Seq.scalar 0) a with
  | error e => rw [h1] at hacc; cases hacc
  | ok t =>
    rw [h1] at hacc
    cases h2 : check_greater N n with
    | error e => rw [h2] at hacc; cases hacc
    | ok u =>
      rw [h2] at hacc
      cases h3 : check_consistent_sizes [n.shape, N.shape, a.shape, b.shape] with
      | error e => rw [h3] at hacc; cases hacc
      | ok u2 =>
        rw [h3] at hacc
        simp only [List.all_nil, Bool.not_true, Bool.not_false, Bool.or_false, Bool.false_or,
          Bool.false_eq_true, if_false] at hacc
        cases h4 : loopFrom (hypergeometric_check_at n N a b) 0
            (max_size [n.length, N.length, a.length, b.length]) with
        | error e => rw [h4] at hacc; cases hacc
        | ok u3 =>
          rw [h4] at hacc
          injection hacc with hacc
          exact ⟨⟨t, rfl⟩, rfl, rfl, rfl, hacc.symm⟩

end HypergeometricThms

theorem check_bounded_scalars_ok {α : Type} [LE α] [DecidableRel (fun a b : α => a ≤ b)]
    (x l h : α) (t : Bool)
    (hc : check_bounded (Seq.scalar x) (Seq.scalar l) (Seq.scalar h) = Except.ok t) :
    l ≤ x ∧ x ≤ h := by
  by_cases hb : l ≤ x ∧ x ≤ h
  · exact hb
  · simp [check_bounded, bounded_scalar_check, max_size2, Seq.length, loopFrom, bounded_at,
      Seq.get?, hb] at hc

theorem check_bounded_ok_getD {α : Type} [LE α] [DecidableRel (fun a b : α => a ≤ b)]
    (y : Seq α) (l d : α) (high : Seq α) (t : Bool)
    (hc : check_bounded y (Seq.scalar l) high = Except.ok t) (i : Nat)
    (hy : ∀ k, y.shape = some k → i < k) (hh : ∀ k, high.shape = some k → i < k) :
    l ≤ y.getD i d ∧ y.getD i d ≤ high.getD i d := by
  cases y with
  | scalar x =>
    simp only [check_bounded, bounded_scalar_check] at hc
    cases hl : loopFrom (fun n => bounded_at x (Seq.scalar l) high n Error.domain_error) 0
        (max_size2 (Seq.scalar l) high) with
    | error e => rw [hl] at hc; cases hc
    | ok u =>
      have hall := (loopFrom_ok_iff _ _ _).mp hl
      cases high with
      | scalar h =>
        obtain ⟨l2, h2, e1, e2, b1, b2⟩ := (bounded_at_ok_iff x _ _ 0 _).mp
          (hall 0 (le_refl _) (by simp [max_size2, Seq.length]))
        simp only [Seq.get?, Option.some.injEq] at e1 e2
        subst e1 e2
        exact ⟨b1, b2⟩
      | vec hs =>
        have hi : i < hs.length := hh _ rfl
        obtain ⟨l2, h2, e1, e2, b1, b2⟩ := (bounded_at_ok_iff x _ _ i _).mp
          (hall i (Nat.zero_le _) (by simp only [max_size2, Seq.length]; omega))
        simp only [Seq.get?, Option.some.injEq] at e1 e2
        subst e1
        simp only [Seq.getD, Seq.get?, Option.getD_some, e2]
        exact ⟨b1, b2⟩
  | vec xs =>
    have hi : i < xs.length := hy _ rfl
    simp only [check_bounded, bounded_vec_check] at hc
    cases hl : loopFrom (bounded_vec_at xs (Seq.scalar l) high) 0 xs.length with
    | error e => rw [hl] at hc; cases hc
    | ok u =>
      have hall := (loopFrom_ok_iff _ _ _).mp hl
      obtain ⟨l2, h2, e1, e2, b1, b2⟩ := (bounded_vec_at_ok_iff xs _ _ i hi).mp
        (hall i (Nat.zero_le _) (by omega))
      simp only [Seq.get?, Option.some.injEq] at e1
      subst e1
      have hget : xs.get? i = some (xs.get ⟨i, hi⟩) := List.get?_eq_get hi
      simp only [Seq.getD, Seq.get?, hget, Option.getD_some]
      cases high with
      | scalar h =>
        simp only [Seq.get?, Option.some.injEq] at e2
        subst e2
        exact ⟨b1, b2⟩
      | vec hs =>
        simp only [Seq.get?] at e2
        simp only [Seq.get?, e2, Option.getD_some]
        exact ⟨b1, b2⟩

section HypergeometricMain

theorem sum_fin {F : Type} [LinearOrderedField F] (f : Nat → F) (k : Nat) :
    ∑ i in Finset.range k, Dbl.fin (f i) = Dbl.fin (∑ i in Finset.range k, f i) := by
  induction k with
  | zero => rfl
  | succ k ih => rw [Finset.sum_range_succ, Finset.sum_range_succ, ih, Dbl.fin_add]

theorem hypergeometric_support_of_ok {F : Type} [LinearOrderedField F]
    (bcl : Int → Int → Dbl F) (n N a b : Seq Int) (v : Dbl F)
    (hne : size_zero [n.length, N.length, a.length, b.length] = false)
    (hacc : hypergeometric_lpmf bcl false n N a b = Except.ok v) (i : Nat)
    (hi : i < max_size [n.length, N.length, a.length, b.length]) :
    (0 ≤ n.getD i 0 ∧ n.getD i 0 ≤ a.getD i 0) ∧
    (0 ≤ N.getD i 0 - n.getD i 0 ∧ N.getD i 0 - n.getD i 0 ≤ b.getD i 0) ∧
    (0 ≤ N.getD i 0 ∧ N.getD i 0 ≤ a.getD i 0 + b.getD i 0) := by
  obtain ⟨⟨t, h1⟩, _, h3, h4, _⟩ := hypergeometric_lpmf_ok_elim bcl n N a b v hne hacc
  have hs := check_consistent_sizes_ok _ h3
  have hmax : ∀ k, some k ∈ [n.shape, N.shape, a.shape, b.shape] →
      max_size [n.length, N.length, a.length, b.length] = k := by
    intro k hk
    have := shape_eq_max_size [n.shape, N.shape, a.shape, b.shape] hs
      (by simpa [Seq.length_eq_shape] using hne) k hk
    simpa [Seq.length_eq_shape] using this
  have hn : ∀ k, n.shape = some k → i < k := fun k hk => by
    have := hmax k (by simp [hk]); omega
  have ha : ∀ k, a.shape = some k → i < k := fun k hk => by
    have := hmax k (by simp [hk]); omega
  refine ⟨check_bounded_ok_getD n 0 0 a t h1 i hn ha, ?_⟩
  have hloop := (loopFrom_ok_iff _ _ _).mp h4 i (Nat.zero_le _) (by omega)
  unfold hypergeometric_check_at at hloop
  simp only [bind, Except.bind, pure, Except.pure] at hloop
  cases hc1 : check_bounded (Seq.scalar (N.getD i 0 - n.getD i 0)) (Seq.scalar 0)
      (Seq.scalar (b.getD i 0)) with
  | error e => rw [hc1] at hloop; cases hloop
  | ok t1 =>
    rw [hc1] at hloop
    cases hc2 : check_bounded (Seq.scalar (N.getD i 0)) (Seq.scalar 0)
        (Seq.scalar (a.getD i 0 + b.getD i 0)) with
    | error e => rw [hc2] at hloop; cases hloop
    | ok t2 =>
      exact ⟨check_bounded_scalars_ok _ _ _ _ hc1, check_bounded_scalars_ok _ _ _ _ hc2⟩

theorem choose_int_pos (m k : Int) (hk : k ≤ m) : 0 < (choose_int m k : ℝ) := by
  have : k.toNat ≤ m.toNat := Int.toNat_le_toNat hk
  exact_mod_cast Nat.choose_pos this

/-- C8: for every accepted non-empty input with `propto = false`,
`hypergeometric_lpmf` returns the sum over `i` of
`binomial_coefficient_log(a_i, n_i) + binomial_coefficient_log(b_i, N_i - n_i)
- binomial_coefficient_log(a_i + b_i, N_i)`; when `binomial_coefficient_log`
is the log of the binomial coefficient this is the sum of the logs of the
hypergeometric probabilities `C(a,n) * C(b,N-n) / C(a+b,N)`. -/
theorem hypergeometric_lpmf_value (binomial_coefficient_log : Int → Int → Dbl ℝ)
    (n N a b : Seq Int) (v : Dbl ℝ)
    (hne : size_zero [n.length, N.length, a.length, b.length] = false)
    (hacc : hypergeometric_lpmf binomial_coefficient_log false n N a b = Except.ok v) :
    v = ∑ i in Finset.range (max_size [n.length, N.length, a.length, b.length]),
        (binomial_coefficient_log (a.getD i 0) (n.getD i 0)
          + binomial_coefficient_log (b.getD i 0) (N.getD i 0 - n.getD i 0)
          - binomial_coefficient_log (a.getD i 0 + b.getD i 0) (N.getD i 0)) ∧
    ((∀ m k : Int, 0 ≤ k → k ≤ m →
        binomial_coefficient_log m k = Dbl.fin (Real.log (choose_int m k))) →
      v = Dbl.fin (∑ i in Finset.range (max_size [n.length, N.length, a.length, b.length]),
        Real.log ((choose_int (a.getD i 0) (n.getD i 0) : ℝ)
          * choose_int (b.getD i 0) (N.getD i 0 - n.getD i 0)
          / choose_int (a.getD i 0 + b.getD i 0) (N.getD i 0)))) := by
  obtain ⟨_, _, _, _, hv⟩ := hypergeometric_lpmf_ok_elim binomial_coefficient_log n N a b v hne hacc
  have hsum : v = ∑ i in Finset.range (max_size [n.length, N.length, a.length, b.length]),
      (binomial_coefficient_log (a.getD i 0) (n.getD i 0)
        + binomial_coefficient_log (b.getD i 0) (N.getD i 0 - n.getD i 0)
        - binomial_coefficient_log (a.getD i 0 + b.getD i 0) (N.getD i 0)) := by
    rw [hv, foldl_add_eq_sum, zero_add]
    rfl
  refine ⟨hsum, ?_⟩
  intro hbcl
  rw [hsum, ← sum_fin]
  apply Finset.sum_congr rfl
  intro i hi
  obtain ⟨⟨s1, s2⟩, ⟨s3, s4⟩, ⟨s5, s6⟩⟩ := hypergeometric_support_of_ok
    binomial_coefficient_log n N a b v hne hacc i (Finset.mem_range.mp hi)
  have p1 := choose_int_pos _ _ s2
  have p2 := choose_int_pos _ _ s4
  have p3 := choose_int_pos _ _ s6
  rw [hbcl _ _ s1 s2, hbcl _ _ s3 s4, hbcl _ _ s5 s6, Dbl.fin_add, Dbl.fin_sub,
    Real.log_div (mul_pos p1 p2).ne' p3.ne', Real.log_mul p1.ne' p2.ne']

theorem hypergeometric_lpmf_value_witness :
    hypergeometric_lpmf (fun m k : Int => Dbl.fin (Real.log (choose_int m k))) false
        (Seq.vec [1, 0]) (Seq.scalar 2) (Seq.scalar 2) (Seq.scalar 3) =
      Except.ok (Dbl.fin (Real.log (choose_int 2 1) + Real.log (choose_int 3 1)
        - Real.log (choose_int 5 2) + (Real.log (choose_int 2 0) + Real.log (choose_int 3 2)
        - Real.log (choose_int 5 2)))) ∧
    Dbl.fin (Real.log (choose_int 2 1) + Real.log (choose_int 3 1)
        - Real.log (choose_int 5 2) + (Real.log (choose_int 2 0) + Real.log (choose_int 3 2)
        - Real.log (choose_int 5 2))) =
      Dbl.fin (∑ i in Finset.range (max_size [(Seq.vec [(1 : Int), 0]).length,
          (Seq.scalar (2 : Int)).length, (Seq.scalar (2 : Int)).length,
          (Seq.scalar (3 : Int)).length]),
        Real.log ((choose_int ((Seq.scalar (2 : Int)).getD i 0) ((Seq.vec [(1 : Int), 0]).getD i 0) : ℝ)
          * choose_int ((Seq.scalar (3 : Int)).getD i 0)
              ((Seq.scalar (2 : Int)).getD i 0 - (Seq.vec [(1 : Int), 0]).getD i 0)
          / choose_int ((Seq.scalar (2 : Int)).getD i 0 + (Seq.scalar (3 : Int)).getD i 0)
              ((Seq.scalar (2 : Int)).getD i 0))) :=
  have hacc : hypergeometric_lpmf (fun m k : Int => Dbl.fin (Real.log (choose_int m k))) false
      (Seq.vec [1, 0]) (Seq.scalar 2) (Seq.scalar 2) (Seq.scalar 3) =
      Except.ok (Dbl.fin (Real.log (choose_int 2 1) + Real.log (choose_int 3 1)
        - Real.log (choose_int 5 2) + (Real.log (choose_int 2 0) + Real.log (choose_int 3 2)
        - Real.log (choose_int 5 2)))) := by
    simp only [hypergeometric_lpmf, check_bounded, bounded_vec_check, bounded_vec_at, bounded_at,
      loopFrom, check_greater, check_consistent_sizes, max_size, size_zero, include_summand,
      hypergeometric_check_at, hypergeometric_term, bounded_scalar_check, max_size2,
      Seq.get?, Seq.getD, Seq.length, Seq.shape, bind, Except.bind, pure, Except.pure,
      List.range_succ, Dbl.fin_add, Dbl.fin_sub, Dbl.zero_eq]
    have hr : List.range 2 = [0, 1] := by decide
    simp [hr, Dbl.fin_add]
  ⟨hacc, (hypergeometric_lpmf_value (fun m k : Int => Dbl.fin (Real.log (choose_int m k)))
    (Seq.vec [1, 0]) (Seq.scalar 2) (Seq.scalar 2) (Seq.scalar 3) _ (by decide) hacc).2
      (fun _ _ _ _ => rfl)⟩

/-- Whatever the numbers of balls, scalar arguments with `N = n` and
`0 <= n <= a` make `hypergeometric_lpmf` raise `std::domain_error`. -/
theorem hypergeometric_lpmf_rejects_N_eq_n {F : Type} [LinearOrderedField F]
    (bcl : Int → Int → Dbl F) (propto : Bool) (n a b : Int) (h0 : 0 ≤ n) (h1 : n ≤ a) :
    hypergeometric_lpmf bcl propto (Seq.scalar n) (Seq.scalar n) (Seq.scalar a) (Seq.scalar b) =
      Except.error Error.domain_error := by
  have hc : check_bounded (Seq.scalar n) (Seq.scalar 0) (Seq.scalar a) = Except.ok true := by
    simp [check_bounded, bounded_scalar_check, max_size2, Seq.length, loopFrom, bounded_at,
      Seq.get?, h0, h1, pure, Except.pure]
  have hg : check_greater (Seq.scalar n) (Seq.scalar n) = Except.error Error.domain_error := by
    simp [check_greater, Seq.length, loopFrom, Seq.get?]
  simp only [hypergeometric_lpmf, hc, hg, bind, Except.bind]

/-- C7 (the code at the boundary `N = n`): with one white and one black ball,
one draw and one white ball drawn, every condition of the documented support
holds (`0 <= 1 <= 1`, `0 <= 1 - 1 <= 1`, `0 <= 1 <= 2`) and
`hypergeometric_lpmf` raises `std::domain_error`, from
`check_greater(N, n)`. -/
theorem hypergeometric_lpmf_rejects_all_white :
    ∀ bcl : Int → Int → Dbl ℚ,
      hypergeometric_lpmf bcl false (Seq.scalar 1) (Seq.scalar 1) (Seq.scalar 1) (Seq.scalar 1) =
        Except.error Error.domain_error := by
  intro bcl
  rfl

end HypergeometricMain

/-! ## bernoulli_logit_lpmf -/

theorem bernoulli_logit_lpmf_scalar_eq_step {F : Type} [LinearOrderedField F]
    (exp log1p : Dbl F → Dbl F) (n : Int) (theta : Dbl F) (h0 : 0 ≤ n) (h1 : n ≤ 1)
    (hnan : theta.isNaN = false) :
    bernoulli_logit_lpmf exp log1p false (Seq.scalar n) (Operand.var (Seq.scalar theta)) =
      Except.ok (bernoulli_logit_lpmf_step exp log1p (Seq.scalar n) (Operand.var (Seq.scalar theta))
        ⟨0, [0], [], []⟩ 0) := by
  have hc : check_bounded (Seq.scalar n) (Seq.scalar 0) (Seq.scalar 1) = Except.ok true := by
    simp [check_bounded, bounded_scalar_check, max_size2, Seq.length, loopFrom, bounded_at,
      Seq.get?, h0, h1, pure, Except.pure]
  have hn : check_not_nan (Seq.scalar theta) = Except.ok () :=
    (check_elements_ok_iff _ _).mpr (fun v hv => by
      simp only [Seq.toList, List.mem_singleton] at hv
      simp [hv, hnan])
  have hcs : check_consistent_sizes [none, none] = Except.ok () := by decide
  have hN : max_size [1, 1] = 1 := by decide
  have hz : size_zero [1, 1] = false := by decide
  have hinc : include_summand false [false] = true := by decide
  have hr : List.range 1 = [0] := by decide
  simp only [bernoulli_logit_lpmf, Operand.var, Seq.shape, Seq.length, hc, hn, hcs, hN, hz,
    hinc, hr, bind, Except.bind, pure, Except.pure, Bool.not_true, Bool.false_eq_true,
    if_false, List.foldl_cons, List.foldl_nil, Edge.init, List.replicate_one]

/-- C9 (the code on an infinite `theta`): for `n = 1` and for `n = 0`, with
`theta = +infinity` and with `theta = -infinity`, `bernoulli_logit_lpmf` raises
nothing and returns a value, whatever `exp` and `log1p` compute. -/
theorem bernoulli_logit_lpmf_accepts_infinite_theta :
    ∀ exp log1p : Dbl ℚ → Dbl ℚ,
      bernoulli_logit_lpmf exp log1p false (Seq.scalar 1) (Operand.var (Seq.scalar Dbl.pinf)) =
        Except.ok ⟨0 - exp Dbl.ninf, [0 + -exp Dbl.ninf], [], []⟩ ∧
      bernoulli_logit_lpmf exp log1p false (Seq.scalar 1) (Operand.var (Seq.scalar Dbl.ninf)) =
        Except.ok ⟨Dbl.ninf, [Dbl.fin 1], [], []⟩ ∧
      bernoulli_logit_lpmf exp log1p false (Seq.scalar 0) (Operand.var (Seq.scalar Dbl.pinf)) =
        Except.ok ⟨Dbl.ninf, [Dbl.fin (-1)], [], []⟩ ∧
      bernoulli_logit_lpmf exp log1p false (Seq.scalar 0) (Operand.var (Seq.scalar Dbl.ninf)) =
        Except.ok ⟨0 - exp Dbl.ninf, [0 + -exp Dbl.ninf], [], []⟩ := by
  intro exp log1p
  have m1 : Dbl.ofInt (2 * 1 - 1) * (Dbl.pinf : Dbl ℚ) = Dbl.pinf := by
    change Dbl.signedInf (((2 * 1 - 1 : Int) : ℚ)) = Dbl.pinf
    norm_num [Dbl.signedInf]
  have m2 : Dbl.ofInt (2 * 1 - 1) * (Dbl.ninf : Dbl ℚ) = Dbl.ninf := by
    change Dbl.signedInf (-(((2 * 1 - 1 : Int) : ℚ))) = Dbl.ninf
    norm_num [Dbl.signedInf]
  have m3 : Dbl.ofInt (2 * 0 - 1) * (Dbl.pinf : Dbl ℚ) = Dbl.ninf := by
    change Dbl.signedInf (((2 * 0 - 1 : Int) : ℚ)) = Dbl.ninf
    norm_num [Dbl.signedInf]
  have m4 : Dbl.ofInt (2 * 0 - 1) * (Dbl.ninf : Dbl ℚ) = Dbl.pinf := by
    change Dbl.signedInf (-(((2 * 0 - 1 : Int) : ℚ))) = Dbl.pinf
    norm_num [Dbl.signedInf]
  have c1 : ((Dbl.fin 20 : Dbl ℚ) < Dbl.pinf) = True := by simp [LT.lt, Dbl.lt]
  have c2 : ((Dbl.fin 20 : Dbl ℚ) < Dbl.ninf) = False := by simp [LT.lt, Dbl.lt]
  have c3 : ((Dbl.ninf : Dbl ℚ) < -Dbl.fin 20) = True := by
    simp [LT.lt, Dbl.lt, Neg.neg, Dbl.neg]
  have a1 : (0 : Dbl ℚ) + Dbl.ofInt (2 * 1 - 1) = Dbl.fin 1 := by
    change Dbl.fin ((0 : ℚ) + ((2 * 1 - 1 : Int) : ℚ)) = Dbl.fin 1
    norm_num
  have a0 : (0 : Dbl ℚ) + Dbl.ofInt (2 * 0 - 1) = Dbl.fin (-1) := by
    change Dbl.fin ((0 : ℚ) + ((2 * 0 - 1 : Int) : ℚ)) = Dbl.fin (-1)
    norm_num
  have a2 : (0 : Dbl ℚ) + Dbl.ninf = Dbl.ninf := rfl
  have n1 : -(Dbl.pinf : Dbl ℚ) = Dbl.ninf := rfl
  refine ⟨?_, ?_, ?_, ?_⟩
  · rw [bernoulli_logit_lpmf_scalar_eq_step exp log1p 1 Dbl.pinf (by decide) (by decide) rfl]
    simp only [bernoulli_logit_lpmf_step, Operand.var, Edge.add, Seq.is_vector, Seq.getD,
      Seq.get?, Option.getD_some, add_at, m1, c1, n1, if_true, Bool.not_false,
      Bool.false_eq_true, if_false]
  · rw [bernoulli_logit_lpmf_scalar_eq_step exp log1p 1 Dbl.ninf (by decide) (by decide) rfl]
    simp only [bernoulli_logit_lpmf_step, Operand.var, Edge.add, Seq.is_vector, Seq.getD,
      Seq.get?, Option.getD_some, add_at, m2, c2, c3, a1, a2, if_true, Bool.not_false,
      Bool.false_eq_true, if_false]
  · rw [bernoulli_logit_lpmf_scalar_eq_step exp log1p 0 Dbl.pinf (by decide) (by decide) rfl]
    simp only [bernoulli_logit_lpmf_step, Operand.var, Edge.add, Seq.is_vector, Seq.getD,
      Seq.get?, Option.getD_some, add_at, m3, c2, c3, a0, a2, if_true, Bool.not_false,
      Bool.false_eq_true, if_false]
  · rw [bernoulli_logit_lpmf_scalar_eq_step exp log1p 0 Dbl.ninf (by decide) (by decide) rfl]
    simp only [bernoulli_logit_lpmf_step, Operand.var, Edge.add, Seq.is_vector, Seq.getD,
      Seq.get?, Option.getD_some, add_at, m4, c1, n1, if_true, Bool.not_false,
      Bool.false_eq_true, if_false]

/-! ## gamma_cdf -/

/-- C10 (the code on an empty container): with an empty `y` and
`alpha = -1`, with an empty `alpha` and `y = -1`, and with an empty `y` and
`beta = 0`, `gamma_cdf` raises nothing and returns 1, whatever the special
functions compute: the `size_zero` return comes before the checks. -/
theorem gamma_cdf_empty_skips_checks :
    ∀ fns : GammaFunctions ℚ,
      gamma_cdf fns (Operand.const (Seq.vec [])) (Operand.const (Seq.scalar (Dbl.fin (-1))))
        (Operand.const (Seq.scalar (Dbl.fin 1))) = Except.ok ⟨1, [], [], []⟩ ∧
      gamma_cdf fns (Operand.const (Seq.scalar (Dbl.fin (-1)))) (Operand.const (Seq.vec []))
        (Operand.const (Seq.scalar (Dbl.fin 1))) = Except.ok ⟨1, [], [], []⟩ ∧
      gamma_cdf fns (Operand.const (Seq.vec [])) (Operand.const (Seq.scalar (Dbl.fin 1)))
        (Operand.const (Seq.scalar (Dbl.fin 0))) = Except.ok ⟨1, [], [], []⟩ := by
  intro fns
  exact ⟨rfl, rfl, rfl⟩

theorem check_elements_error_is_domain_error {α : Type} (p : α → Bool) (x : Seq α) (e : Error)
    (hc : check_elements p x = Except.error e) : e.is_domain_error = true := by
  obtain ⟨e2, h1, h2⟩ := check_elements_error p x (fun hall => by
    rw [(check_elements_ok_iff p x).mpr hall] at hc
    cases hc)
  rw [h1] at hc
  cases hc
  exact h2

/-- Apart from the empty-container return, `gamma_cdf` does raise
`std::domain_error` when some `alpha` or `beta` is not greater than 0 or some
`y` is not greater than or equal to 0. -/
theorem gamma_cdf_domain_error_of_nonempty {F : Type} [LinearOrderedField F]
    (fns : GammaFunctions F) (y alpha beta : Operand F)
    (hne : size_zero [y.val.length, alpha.val.length, beta.val.length] = false)
    (hbad : (∃ v ∈ alpha.val.toList, ¬ (0 : Dbl F) < v) ∨ (∃ v ∈ beta.val.toList, ¬ (0 : Dbl F) < v) ∨
      (∃ v ∈ y.val.toList, ¬ (0 : Dbl F) ≤ v)) :
    ∃ e, gamma_cdf fns y alpha beta = Except.error e ∧ e.is_domain_error = true := by
  unfold gamma_cdf
  simp only [hne, Bool.false_eq_true, if_false, bind, Except.bind]
  cases h1 : check_positive_finite alpha.val with
  | error e => exact ⟨e, rfl, check_elements_error_is_domain_error _ _ e h1⟩
  | ok u1 =>
    cases h2 : check_positive_finite beta.val with
    | error e => exact ⟨e, rfl, check_elements_error_is_domain_error _ _ e h2⟩
    | ok u2 =>
      cases h3 : check_not_nan y.val with
      | error e => exact ⟨e, rfl, check_elements_error_is_domain_error _ _ e h3⟩
      | ok u3 =>
        cases h4 : check_nonnegative y.val with
        | error e => exact ⟨e, rfl, check_elements_error_is_domain_error _ _ e h4⟩
        | ok u4 =>
          exfalso
          have a1 := (check_elements_ok_iff _ _).mp h1
          have a2 := (check_elements_ok_iff _ _).mp h2
          have a4 := (check_elements_ok_iff _ _).mp h4
          rcases hbad with ⟨v, hv, hn⟩ | ⟨v, hv, hn⟩ | ⟨v, hv, hn⟩
          · have := a1 v hv
            simp only [Bool.and_eq_true, decide_eq_true_eq] at this
            exact hn this.1
          · have := a2 v hv
            simp only [Bool.and_eq_true, decide_eq_true_eq] at this
            exact hn this.1
          · have := a4 v hv
            simp only [decide_eq_true_eq] at this
            exact hn this

/-! ## gamma_cdf at the boundary y = 0 -/

section GammaCdfBoundary
variable {F : Type} [LinearOrderedField F]

theorem Seq.exists_index_of_mem {α : Type} (s : Seq α) (v : α) (hv : v ∈ s.toList) :
    ∃ i, i < s.length ∧ s.get? i = some v := by
  cases s with
  | scalar x =>
    simp only [Seq.toList, List.mem_singleton] at hv
    subst hv
    exact ⟨0, Nat.zero_lt_one, rfl⟩
  | vec xs =>
    have hv2 : v ∈ xs := hv
    obtain ⟨i, hi, hget⟩ := List.getElem_of_mem hv2
    exact ⟨i, hi, by simp [Seq.get?, List.getElem?_eq_getElem hi, hget]⟩

theorem gamma_cdf_checks_ok (y alpha beta : Operand F)
    (halpha : ∀ v ∈ alpha.val.toList, (0 : Dbl F) < v ∧ v.isFinite = true)
    (hbeta : ∀ v ∈ beta.val.toList, (0 : Dbl F) < v ∧ v.isFinite = true)
    (hy : ∀ v ∈ y.val.toList, v.isNaN = false ∧ (0 : Dbl F) ≤ v)
    (hsizes : SameLength [y.val.shape, alpha.val.shape, beta.val.shape]) :
    check_positive_finite alpha.val = Except.ok () ∧
      check_positive_finite beta.val = Except.ok () ∧
      check_not_nan y.val = Except.ok () ∧ check_nonnegative y.val = Except.ok () ∧
      check_consistent_sizes [y.val.shape, alpha.val.shape, beta.val.shape] = Except.ok () := by
  refine ⟨?_, ?_, ?_, ?_, (check_consistent_sizes_ok_iff _).mpr hsizes⟩
  · exact (check_elements_ok_iff _ _).mpr (fun v hv => by simp [halpha v hv])
  · exact (check_elements_ok_iff _ _).mpr (fun v hv => by simp [hbeta v hv])
  · exact (check_elements_ok_iff _ _).mpr (fun v hv => by simp [(hy v hv).1])
  · exact (check_elements_ok_iff _ _).mpr (fun v hv => by simpa using (hy v hv).2)

/-- C11: for every valid non-empty input in which some element of `y` equals
0, `gamma_cdf` returns the value 0, and the partials it records for `y`,
`alpha` and `beta` are all exactly 0 (one per element of each differentiable
operand), whatever the other elements and the special functions are. -/
theorem gamma_cdf_zero_at_boundary (fns : GammaFunctions F) (y alpha beta : Operand F)
    (halpha : ∀ v ∈ alpha.val.toList, (0 : Dbl F) < v ∧ v.isFinite = true)
    (hbeta : ∀ v ∈ beta.val.toList, (0 : Dbl F) < v ∧ v.isFinite = true)
    (hy : ∀ v ∈ y.val.toList, v.isNaN = false ∧ (0 : Dbl F) ≤ v)
    (hsizes : SameLength [y.val.shape, alpha.val.shape, beta.val.shape])
    (hne : size_zero [y.val.length, alpha.val.length, beta.val.length] = false)
    (hzero : ∃ v ∈ y.val.toList, v = 0) :
    ∃ r, gamma_cdf fns y alpha beta = Except.ok r ∧ r.value = 0 ∧
      r.partials1 = (if y.is_constant then [] else List.replicate y.val.length 0) ∧
      r.partials2 = (if alpha.is_constant then [] else List.replicate alpha.val.length 0) ∧
      r.partials3 = (if beta.is_constant then [] else List.replicate beta.val.length 0) := by
  obtain ⟨h1, h2, h3, h4, h5⟩ := gamma_cdf_checks_ok y alpha beta halpha hbeta hy hsizes
  have hany : (List.range y.val.length).any (fun i => Dbl.eq (y.val.getD i Dbl.nan) 0) = true := by
    obtain ⟨v, hv, hv0⟩ := hzero
    obtain ⟨i, hi, hget⟩ := Seq.exists_index_of_mem y.val v hv
    rw [List.any_eq_true]
    refine ⟨i, List.mem_range.mpr hi, ?_⟩
    simp only [Seq.getD, hget, Option.getD_some, hv0]
    change decide ((Dbl.fin 0 : Dbl F) = Dbl.fin 0) = true
    simp
  refine ⟨⟨0, Edge.init y, Edge.init alpha, Edge.init beta⟩, ?_, rfl, rfl, rfl, rfl⟩
  simp [gamma_cdf, hne, h1, h2, h3, h4, h5, hany, bind, Except.bind, pure, Except.pure]

theorem gamma_cdf_zero_at_boundary_witness :
    ∃ r, gamma_cdf (⟨fun x => x, fun x _ => x, fun x => x, fun x => x, fun x _ => x,
          fun x _ _ _ => x⟩ : GammaFunctions ℚ)
        (Operand.var (Seq.vec [Dbl.fin 3, Dbl.fin 0, Dbl.pinf]))
        (Operand.var (Seq.scalar (Dbl.fin 2))) (Operand.const (Seq.vec [Dbl.fin 1, Dbl.fin 2, Dbl.fin 5])) =
          Except.ok r ∧ r.value = 0 ∧
      r.partials1 = [0, 0, 0] ∧ r.partials2 = [0] ∧ r.partials3 = [] :=
  gamma_cdf_zero_at_boundary _
    (Operand.var (Seq.vec [Dbl.fin 3, Dbl.fin 0, Dbl.pinf]))
    (Operand.var (Seq.scalar (Dbl.fin 2))) (Operand.const (Seq.vec [Dbl.fin 1, Dbl.fin 2, Dbl.fin 5]))
    (by decide) (by decide) (by decide) (by decide) (by decide) ⟨Dbl.fin 0, by decide, rfl⟩

end GammaCdfBoundary

/-! ## gumbel_lcdf -/

section GumbelThms
variable {F : Type} [LinearOrderedField F]

theorem Dbl.neg_add_distrib (a b : Dbl F) : -(a + b) = -a + -b := by
  cases a <;> cases b
  all_goals first | rfl | exact congrArg Dbl.fin (neg_add _ _)

theorem Dbl.neg_zero_eq : -(0 : Dbl F) = 0 := congrArg Dbl.fin neg_zero

theorem Dbl.neg_sum (f : Nat → Dbl F) (k : Nat) :
    -(∑ n in Finset.range k, f n) = ∑ n in Finset.range k, -f n := by
  induction k with
  | zero => simpa using (Dbl.neg_zero_eq : -(0 : Dbl F) = 0)
  | succ k ih => rw [Finset.sum_range_succ, Finset.sum_range_succ, Dbl.neg_add_distrib, ih]

theorem gumbel_lcdf_fold_value (exp : Dbl F → Dbl F) (y mu beta : Operand F) (init : Ret F)
    (N : Nat) :
    ((List.range N).foldl (gumbel_lcdf_step exp y mu beta) init).value =
      init.value + -(∑ n in Finset.range N,
        exp (-((y.val.getD n Dbl.nan - mu.val.getD n Dbl.nan) / beta.val.getD n Dbl.nan))) := by
  induction N with
  | zero => simp [Dbl.neg_zero_eq]
  | succ k ih =>
    rw [List.range_succ, List.foldl_append, List.foldl_cons, List.foldl_nil,
      Finset.sum_range_succ, Dbl.neg_add_distrib, ← add_assoc, ← ih]
    rfl

end GumbelThms

/-! ## LDLT_alloc -/

section LDLTThms
variable {F : Type} {L : Type}

theorem matrix_entry_map {α β : Type} (g : α → β) (A : List (List α)) (i j : Nat) :
    matrix_entry (A.map (fun row => row.map g)) i j = (matrix_entry A i j).map g := by
  unfold matrix_entry
  rw [List.get?_eq_getElem?, List.get?_eq_getElem?, List.getElem?_map]
  cases A[i]? with
  | none => rfl
  | some row =>
    simp only [Option.map_some', Option.some_bind, List.get?_eq_getElem?, List.getElem?_map]

theorem matrix_entry_of_lt {α : Type} (A : List (List α)) (N C : Nat) (hrows : A.length = N)
    (hcols : ∀ row ∈ A, row.length = C) (i j : Nat) (hi : i < N) (hj : j < C) :
    ∃ a, matrix_entry A i j = some a ∧ a ∈ A.flatten := by
  have hi2 : i < A.length := by omega
  have hrow : A[i] ∈ A := List.getElem_mem hi2
  have hj2 : j < A[i].length := by rw [hcols _ hrow]; exact hj
  refine ⟨A[i][j], ?_, List.mem_flatten.mpr ⟨A[i], hrow, List.getElem_mem hj2⟩⟩
  unfold matrix_entry
  rw [List.get?_eq_getElem?, List.getElem?_eq_getElem hi2, Option.some_bind,
    List.get?_eq_getElem?, List.getElem?_eq_getElem hj2]

theorem mem_flatten_map_map {α β : Type} (g : α → β) (A : List (List α)) (v : β)
    (hv : v ∈ (A.map (fun row => row.map g)).flatten) : ∃ a ∈ A.flatten, v = g a := by
  obtain ⟨l, hl, hvl⟩ := List.mem_flatten.mp hv
  obtain ⟨row, hrow, rfl⟩ := List.mem_map.mp hl
  obtain ⟨a, ha, rfl⟩ := List.mem_map.mp hvl
  exact ⟨a, List.mem_flatten.mpr ⟨row, hrow, ha⟩, rfl⟩

/-- C13: `compute(A)` on a matrix `A` of `N` rows and `C` columns of
differentiable values, run on any autodiff memory.  Afterwards `N_ = N`;
`variA_` is an `N` by `C` matrix whose entry `(i, j)` is the node of
`A(i, j)`, and every node it holds is the node of an entry of `A`; `ldlt_` is
what the Eigen factorization computes from the matrix whose entry `(i, j)` is
the plain value of `A(i, j)`, the same for every matrix with these values
whatever its nodes; and the memory is unchanged: the tape has no new node and
the cleanup list no new object.  The one-argument constructor registers the
object on the cleanup list and leaves the tape as it is, and a
default-constructed `LDLT_alloc` has `N_ = 0`. -/
theorem LDLT_alloc_compute_spec (eigen : EigenLDLT F L) (stack : ChainableStack F)
    (self : LDLT_alloc F L) (A : List (List (var F))) (N C : Nat)
    (hrows : A.length = N) (hcols : ∀ row ∈ A, row.length = C) :
    (LDLT_alloc.compute_in eigen stack self A).2.N_ = N ∧
    (LDLT_alloc.compute_in eigen stack self A).2.variA_.length = N ∧
    (∀ row ∈ (LDLT_alloc.compute_in eigen stack self A).2.variA_, row.length = C) ∧
    (∀ i j, i < N → j < C → ∃ a, matrix_entry A i j = some a ∧
      matrix_entry (LDLT_alloc.compute_in eigen stack self A).2.variA_ i j = some a.vi_ ∧
      matrix_entry (var.matrix_val A) i j = some a.vi_.val_) ∧
    (∀ v ∈ (LDLT_alloc.compute_in eigen stack self A).2.variA_.flatten,
      ∃ a ∈ A.flatten, v = a.vi_) ∧
    (LDLT_alloc.compute_in eigen stack self A).2.ldlt_ =
      eigen.compute self.ldlt_ (var.matrix_val A) ∧
    (∀ B : List (List (var F)), var.matrix_val B = var.matrix_val A →
      (LDLT_alloc.compute_in eigen stack self B).2.ldlt_ =
        (LDLT_alloc.compute_in eigen stack self A).2.ldlt_) ∧
    (LDLT_alloc.compute_in eigen stack self A).1 = stack ∧
    (∀ address, (LDLT_alloc.construct_in eigen stack address A).1.var_stack_ = stack.var_stack_ ∧
      (LDLT_alloc.construct_in eigen stack address A).1.var_alloc_stack_ =
        stack.var_alloc_stack_ ++ [address] ∧
      (LDLT_alloc.construct_in eigen stack address A).2 =
        (LDLT_alloc.compute_in eigen stack (LDLT_alloc.mk_default eigen) A).2) ∧
    (LDLT_alloc.mk_default eigen).N_ = 0 := by
  refine ⟨hrows, ?_, ?_, ?_, ?_, rfl, ?_, rfl, fun _ => ⟨rfl, rfl, rfl⟩, rfl⟩
  · simp [LDLT_alloc.compute_in, LDLT_alloc.compute, var.matrix_vi, hrows]
  · intro row hrow
    simp only [LDLT_alloc.compute_in, LDLT_alloc.compute, var.matrix_vi, List.mem_map] at hrow
    obtain ⟨r0, hr0, rfl⟩ := hrow
    rw [List.length_map]
    exact hcols r0 hr0
  · intro i j hi hj
    obtain ⟨a, ha, _⟩ := matrix_entry_of_lt A N C hrows hcols i j hi hj
    refine ⟨a, ha, ?_, ?_⟩
    · change matrix_entry (A.map (fun row => row.map (fun a => a.vi_))) i j = some a.vi_
      rw [matrix_entry_map, ha]
      rfl
    · change matrix_entry (A.map (fun row => row.map (fun a => a.vi_.val_))) i j = _
      rw [matrix_entry_map, ha]
      rfl
  · intro v hv
    exact mem_flatten_map_map (fun a : var F => a.vi_) A v hv
  · intro B hB
    simp only [LDLT_alloc.compute_in, LDLT_alloc.compute, hB]

theorem LDLT_alloc_compute_spec_witness :
    (LDLT_alloc.compute_in
        (⟨[], fun _ M => M, fun M => M.flatten⟩ : EigenLDLT ℚ (List (List (Dbl ℚ))))
        ⟨[⟨10, Dbl.fin 4, 0⟩, ⟨11, Dbl.fin 1, 0⟩, ⟨12, Dbl.fin 1, 0⟩, ⟨13, Dbl.fin 3, 0⟩,
          ⟨14, Dbl.fin 7, 0⟩], [99]⟩
        (LDLT_alloc.mk_default ⟨[], fun _ M => M, fun M => M.flatten⟩)
        [[⟨⟨10, Dbl.fin 4, 0⟩⟩, ⟨⟨11, Dbl.fin 1, 0⟩⟩],
         [⟨⟨12, Dbl.fin 1, 0⟩⟩, ⟨⟨13, Dbl.fin 3, 0⟩⟩]]) =
      (⟨[⟨10, Dbl.fin 4, 0⟩, ⟨11, Dbl.fin 1, 0⟩, ⟨12, Dbl.fin 1, 0⟩, ⟨13, Dbl.fin 3, 0⟩,
          ⟨14, Dbl.fin 7, 0⟩], [99]⟩,
        ⟨2, [[Dbl.fin 4, Dbl.fin 1], [Dbl.fin 1, Dbl.fin 3]],
          [[⟨10, Dbl.fin 4, 0⟩, ⟨11, Dbl.fin 1, 0⟩], [⟨12, Dbl.fin 1, 0⟩, ⟨13, Dbl.fin 3, 0⟩]]⟩) ∧
    (LDLT_alloc.compute_in
        (⟨[], fun _ M => M, fun M => M.flatten⟩ : EigenLDLT ℚ (List (List (Dbl ℚ))))
        ⟨[⟨10, Dbl.fin 4, 0⟩, ⟨11, Dbl.fin 1, 0⟩, ⟨12, Dbl.fin 1, 0⟩, ⟨13, Dbl.fin 3, 0⟩,
          ⟨14, Dbl.fin 7, 0⟩], [99]⟩
        (LDLT_alloc.mk_default ⟨[], fun _ M => M, fun M => M.flatten⟩)
        [[⟨⟨10, Dbl.fin 4, 0⟩⟩, ⟨⟨11, Dbl.fin 1, 0⟩⟩],
         [⟨⟨12, Dbl.fin 1, 0⟩⟩, ⟨⟨13, Dbl.fin 3, 0⟩⟩]]).2.N_ = 2 :=
  ⟨rfl,
    (LDLT_alloc_compute_spec
      (⟨[], fun _ M => M, fun M => M.flatten⟩ : EigenLDLT ℚ (List (List (Dbl ℚ))))
      ⟨[⟨10, Dbl.fin 4, 0⟩, ⟨11, Dbl.fin 1, 0⟩, ⟨12, Dbl.fin 1, 0⟩, ⟨13, Dbl.fin 3, 0⟩,
        ⟨14, Dbl.fin 7, 0⟩], [99]⟩
      (LDLT_alloc.mk_default ⟨[], fun _ M => M, fun M => M.flatten⟩)
      [[⟨⟨10, Dbl.fin 4, 0⟩⟩, ⟨⟨11, Dbl.fin 1, 0⟩⟩],
       [⟨⟨12, Dbl.fin 1, 0⟩⟩, ⟨⟨13, Dbl.fin 3, 0⟩⟩]] 2 2 (by decide) (by decide)).1⟩

end LDLTThms

section LDLTLogDet

/-- When every entry of the diagonal `D` is a positive finite number,
`log_abs_det` is the log of the absolute value of their product. -/
theorem LDLT_alloc_log_abs_det_of_pos {L : Type} (eigen : EigenLDLT ℝ L) (self : LDLT_alloc ℝ L)
    (d : List ℝ) (hD : eigen.vectorD self.ldlt_ = d.map Dbl.fin) (hpos : ∀ x ∈ d, 0 < x) :
    LDLT_alloc.log_abs_det eigen (Dbl.std_log Real.log) self = Dbl.fin (Real.log |d.prod|) := by
  unfold LDLT_alloc.log_abs_det
  rw [hD]
  have key : ∀ l : List ℝ, (∀ x ∈ l, 0 < x) →
      ((l.map Dbl.fin).map (Dbl.std_log Real.log)).sum = Dbl.fin (Real.log l.prod) ∧
        0 < l.prod := by
    intro l
    induction l with
    | nil => intro _; exact ⟨by simp [Dbl.zero_eq], by simp⟩
    | cons x t ih =>
      intro h
      have hx : 0 < x := h x (List.mem_cons_self _ _)
      obtain ⟨h1, h2⟩ := ih (fun y hy => h y (List.mem_cons_of_mem _ hy))
      refine ⟨?_, by rw [List.prod_cons]; exact mul_pos hx h2⟩
      rw [List.map_cons, List.map_cons, List.sum_cons, h1, List.prod_cons,
        Real.log_mul hx.ne' h2.ne']
      simp only [Dbl.std_log, hx, if_true, Dbl.fin_add]
  obtain ⟨h1, h2⟩ := key d hpos
  rw [h1, abs_of_pos h2]

/-- C14 (the code on a negative diagonal entry): for the 1 x 1 matrix `(-2)`,
whose factorization has `D = (-2)`, `log_abs_det` returns `log(-2)`, which is
NaN, and not `log(abs(-2))`. -/
theorem LDLT_alloc_log_abs_det_negative_D :
    LDLT_alloc.log_abs_det
        (⟨[], fun _ A => A.flatten, fun D => D⟩ : EigenLDLT ℝ (List (Dbl ℝ)))
        (Dbl.std_log Real.log)
        (LDLT_alloc.mk_of_matrix ⟨[], fun _ A => A.flatten, fun D => D⟩
          [[⟨⟨0, Dbl.fin (-2), Dbl.fin 0⟩⟩]]) = Dbl.nan ∧
    Dbl.nan ≠ Dbl.fin (Real.log |(-2 : ℝ)|) := by
  refine ⟨?_, by simp⟩
  have h1 : ¬ (0 : ℝ) < -2 := by norm_num
  have h2 : ¬ (-2 : ℝ) = 0 := by norm_num
  have hflat : [[Dbl.fin (-2 : ℝ)]].flatten = [Dbl.fin (-2)] := rfl
  simp only [LDLT_alloc.log_abs_det, LDLT_alloc.mk_of_matrix, LDLT_alloc.compute,
    var.matrix_val, List.map_cons, List.map_nil, hflat, List.sum_cons,
    List.sum_nil, Dbl.std_log, h1, h2, if_false]
  rfl

end LDLTLogDet

/-! ## Vectorised tgamma and trigamma -/

section Vectorize
variable {α β : Type}

theorem apply_scalar_unary_vector_spec (g : α → Except Error β) (P : α → β → Prop)
    (x : List α) (hvalid : ∀ a ∈ x, ∃ v, g a = Except.ok v ∧ P a v) :
    ∃ y, apply_scalar_unary_vector g x = Except.ok y ∧ y.length = x.length ∧
      ∀ i a, x.get? i = some a → ∃ v, y.get? i = some v ∧ g a = Except.ok v ∧ P a v := by
  induction x with
  | nil => exact ⟨[], rfl, rfl, fun i a h => by simp at h⟩
  | cons a t ih =>
    obtain ⟨v, hv, hP⟩ := hvalid a (List.mem_cons_self _ _)
    obtain ⟨vs, hvs, hlen, hel⟩ := ih (fun b hb => hvalid b (List.mem_cons_of_mem _ hb))
    refine ⟨v :: vs, by simp [apply_scalar_unary_vector, hv, hvs, pure, Except.pure],
      by simp [hlen], ?_⟩
    intro i b hb
    cases i with
    | zero =>
      simp only [List.get?_cons_zero, Option.some.injEq] at hb
      subst hb
      exact ⟨v, rfl, hv, hP⟩
    | succ i =>
      simp only [List.get?_cons_succ] at hb
      simpa using hel i b hb

theorem apply_scalar_unary_vector_elementwise (f : α → Except Error β) (x : List α)
    (hvalid : ∀ a ∈ x, ∃ v, f a = Except.ok v) :
    ∃ y, apply_scalar_unary_vector f x = Except.ok y ∧ Elementwise f x y := by
  obtain ⟨y, h1, h2, h3⟩ := apply_scalar_unary_vector_spec f (fun _ _ => True) x
    (fun a ha => (hvalid a ha).imp (fun v hv => ⟨hv, trivial⟩))
  exact ⟨y, h1, h2, fun i a hi => (h3 i a hi).imp (fun v hv => ⟨hv.1, hv.2.1⟩)⟩

theorem apply_scalar_unary_vector_nested (f : α → Except Error β) (x : List (List α))
    (hvalid : ∀ row ∈ x, ∀ a ∈ row, ∃ v, f a = Except.ok v) :
    ∃ y, apply_scalar_unary_vector (apply_scalar_unary_vector f) x = Except.ok y ∧
      ElementwiseNested f x y := by
  obtain ⟨y, h1, h2, h3⟩ := apply_scalar_unary_vector_spec (apply_scalar_unary_vector f)
    (fun row yrow => Elementwise f row yrow) x
    (fun row hrow => apply_scalar_unary_vector_elementwise f row (hvalid row hrow))
  exact ⟨y, h1, h2, fun i row hi => (h3 i row hi).imp (fun yrow hy => ⟨hy.1, hy.2.2⟩)⟩

/-- C15: for every container `x` of valid inputs (the scalar function throws
on none of them), the vectorised `tgamma(x)` and `trigamma(x)` return a
container of the size of `x` whose element `i` is the scalar function applied
to `x[i]`; for a vector of containers the outer size and every inner size are
kept and the same elementwise equality holds. -/
theorem vectorized_tgamma_trigamma_spec {α : Type} (tgamma trigamma : α → Except Error α) :
    (∀ x : List α, (∀ a ∈ x, ∃ v, tgamma a = Except.ok v) →
      ∃ y, tgamma_vector tgamma x = Except.ok y ∧ Elementwise tgamma x y) ∧
    (∀ x : List α, (∀ a ∈ x, ∃ v, trigamma a = Except.ok v) →
      ∃ y, trigamma_vector trigamma x = Except.ok y ∧ Elementwise trigamma x y) ∧
    (∀ x : List (List α), (∀ row ∈ x, ∀ a ∈ row, ∃ v, tgamma a = Except.ok v) →
      ∃ y, tgamma_vector_vector tgamma x = Except.ok y ∧ ElementwiseNested tgamma x y) ∧
    (∀ x : List (List α), (∀ row ∈ x, ∀ a ∈ row, ∃ v, trigamma a = Except.ok v) →
      ∃ y, trigamma_vector_vector trigamma x = Except.ok y ∧
        ElementwiseNested trigamma x y) :=
  ⟨fun x h => apply_scalar_unary_vector_elementwise tgamma x h,
   fun x h => apply_scalar_unary_vector_elementwise trigamma x h,
   fun x h => apply_scalar_unary_vector_nested tgamma x h,
   fun x h => apply_scalar_unary_vector_nested trigamma x h⟩

theorem vectorized_tgamma_trigamma_spec_witness :
    (∃ y, tgamma_vector
        (fun n : Int => if n ≤ 0 then Except.error Error.domain_error else Except.ok (n + 1))
        [1, 2, 3] = Except.ok y ∧
      Elementwise
        (fun n : Int => if n ≤ 0 then Except.error Error.domain_error else Except.ok (n + 1))
        [1, 2, 3] y) ∧
    (∃ y, trigamma_vector_vector (fun n : Int => Except.ok (2 * n)) [[1, 2], [], [5]] =
        Except.ok y ∧
      ElementwiseNested (fun n : Int => Except.ok (2 * n)) [[1, 2], [], [5]] y) :=
  ⟨(vectorized_tgamma_trigamma_spec
      (fun n : Int => if n ≤ 0 then Except.error Error.domain_error else Except.ok (n + 1))
      (fun n : Int => Except.ok (2 * n))).1 [1, 2, 3]
      (by
        intro a ha
        simp only [List.mem_cons, List.mem_singleton, List.not_mem_nil, or_false] at ha
        rcases ha with rfl | rfl | rfl <;> exact ⟨_, rfl⟩),
   (vectorized_tgamma_trigamma_spec
      (fun n : Int => if n ≤ 0 then Except.error Error.domain_error else Except.ok (n + 1))
      (fun n : Int => Except.ok (2 * n))).2.2.2 [[1, 2], [], [5]]
      (fun _ _ a _ => ⟨2 * a, rfl⟩)⟩

end Vectorize

/-! ## Accumulation into a partials buffer -/

section Accumulate
variable {F : Type} [LinearOrderedField F]

theorem add_at_length (buf : List (Dbl F)) (i : Nat) (v : Dbl F) :
    (add_at buf i v).length = buf.length := by
  induction buf generalizing i with
  | nil => rfl
  | cons p ps ih =>
    cases i with
    | zero => rfl
    | succ i => simp [add_at, ih]

theorem add_at_getElem? (buf : List (Dbl F)) (i j : Nat) (v : Dbl F) :
    (add_at buf i v)[j]? = (buf[j]?).map (fun p => if j = i then p + v else p) := by
  induction buf generalizing i j with
  | nil => simp [add_at]
  | cons p ps ih =>
    cases i with
    | zero =>
      cases j with
      | zero => simp [add_at]
      | succ j => simp [add_at]
    | succ i =>
      cases j with
      | zero => simp [add_at]
      | succ j => simp [add_at, ih]

/-- Folding `buffer[idx n] += term n` over the positions `n < k`, from a
zeroed buffer of `len` elements, leaves in element `j` the sum of the terms of
the positions that address `j`. -/
theorem foldl_add_at (idx : Nat → Nat) (term : Nat → Dbl F) (len k : Nat) :
    (List.range k).foldl (fun buf n => add_at buf (idx n) (term n)) (List.replicate len 0) =
      (List.range len).map (fun j =>
        ∑ n in (Finset.range k).filter (fun n => idx n = j), term n) := by
  induction k with
  | zero =>
    apply List.ext_getElem?
    intro j
    by_cases hj : j < len
    · simp [hj, List.getElem?_replicate]
    · simp [hj, List.getElem?_replicate]
  | succ k ih =>
    rw [List.range_succ, List.foldl_append, List.foldl_cons, List.foldl_nil, ih]
    apply List.ext_getElem?
    intro j
    rw [add_at_getElem?]
    by_cases hj : j < len
    · simp only [List.getElem?_map, List.getElem?_range hj, Option.map_some', Option.some.injEq]
      rw [Finset.range_succ, Finset.filter_insert]
      by_cases hjk : idx k = j
      · have hnot : k ∉ (Finset.range k).filter (fun n => idx n = j) := by simp
        rw [if_pos hjk, Finset.sum_insert hnot, if_pos hjk.symm, add_comm]
      · have hjk2 : ¬ j = idx k := fun h => hjk h.symm
        rw [if_neg hjk, if_neg hjk2]
    · have h1 : (List.range len)[j]? = none := by simp; omega
      simp [List.getElem?_map, h1]

end Accumulate

/-! ## More arithmetic of doubles -/

section DblMul
variable {F : Type} [LinearOrderedField F]

theorem Dbl.neg_signedInf (s : F) : -(Dbl.signedInf s) = Dbl.signedInf (-s) := by
  unfold Dbl.signedInf
  rcases lt_trichotomy s 0 with h | h | h
  · have h1 : ¬ 0 < s := not_lt.mpr h.le
    have h2 : (0 : F) < -s := by linarith
    rw [if_neg h1, if_pos h, if_pos h2]; rfl
  · subst h
    simp only [lt_self_iff_false, if_false, neg_zero]; rfl
  · have h1 : ¬ (0 : F) < -s := by linarith
    have h2 : -s < 0 := by linarith
    rw [if_pos h, if_neg h1, if_pos h2]; rfl

theorem Dbl.neg_mul_eq (a b : Dbl F) : -a * b = -(a * b) := by
  cases a <;> cases b
  all_goals first
    | rfl
    | exact congrArg Dbl.fin (neg_mul _ _)
    | exact (Dbl.neg_signedInf _).symm
    | (change Dbl.signedInf _ = -(Dbl.signedInf _); rw [Dbl.neg_signedInf, neg_neg])

theorem Dbl.mul_comm_eq (a b : Dbl F) : a * b = b * a := by
  cases a <;> cases b
  all_goals first | rfl | exact congrArg Dbl.fin (mul_comm _ _)

theorem Dbl.neg_div_eq (a b : Dbl F) : -a / b = -(a / b) := by
  cases a <;> cases b
  all_goals first
    | rfl
    | exact congrArg Dbl.fin neg_zero.symm
    | skip
  · rename_i b
    change (if b < 0 then Dbl.ninf else Dbl.pinf) = -(if b < 0 then Dbl.pinf else Dbl.ninf)
    split <;> rfl
  · rename_i b
    change (if b < 0 then Dbl.pinf else Dbl.ninf) = -(if b < 0 then Dbl.ninf else Dbl.pinf)
    split <;> rfl
  · rename_i a b
    change (if b = 0 then Dbl.signedInf (-a) else Dbl.fin (-a / b)) =
      -(if b = 0 then Dbl.signedInf a else Dbl.fin (a / b))
    split
    · exact (Dbl.neg_signedInf a).symm
    · exact congrArg Dbl.fin (neg_div _ _)

end DblMul

/-! ## gamma_cdf: value and partials -/

theorem foldl_components {F : Type} (step : Ret F → Nat → Ret F) (fv : Dbl F → Nat → Dbl F)
    (f1 f2 f3 : List (Dbl F) → Nat → List (Dbl F)) (k : Nat)
    (h : ∀ s n, n < k → step s n =
      ⟨fv s.value n, f1 s.partials1 n, f2 s.partials2 n, f3 s.partials3 n⟩)
    (init : Ret F) :
    (List.range k).foldl step init =
      ⟨(List.range k).foldl fv init.value, (List.range k).foldl f1 init.partials1,
        (List.range k).foldl f2 init.partials2, (List.range k).foldl f3 init.partials3⟩ := by
  induction k with
  | zero => rfl
  | succ k ih =>
    rw [List.range_succ, List.foldl_append, List.foldl_append, List.foldl_append,
      List.foldl_append, List.foldl_append, ih (fun s n hn => h s n (Nat.lt_succ_of_lt hn))]
    simp only [List.foldl_cons, List.foldl_nil]
    rw [h _ k (Nat.lt_succ_self k)]

section GammaCdfMain
variable {F : Type} [LinearOrderedField F]

theorem gamma_cdf_step_eq (fns : GammaFunctions F) (y alpha beta : Operand F) (s : Ret F)
    (n : Nat) (hfin : Dbl.eq (y.val.getD n Dbl.nan) Dbl.pinf = false) :
    gamma_cdf_step fns y alpha beta s n =
      ⟨s.value * gamma_cdf_Pn fns y alpha beta n,
        if y.is_constant then s.partials1 else add_at s.partials1 (y.index n)
          (gamma_cdf_dPn_dy fns y alpha beta n / gamma_cdf_Pn fns y alpha beta n),
        if alpha.is_constant then s.partials2 else add_at s.partials2 (alpha.index n)
          (gamma_cdf_dPn_dalpha fns y alpha beta n / gamma_cdf_Pn fns y alpha beta n),
        if beta.is_constant then s.partials3 else add_at s.partials3 (beta.index n)
          (gamma_cdf_dPn_dbeta fns y alpha beta n / gamma_cdf_Pn fns y alpha beta n)⟩ := by
  simp only [gamma_cdf_step, hfin, Bool.false_eq_true, if_false, gamma_cdf_Pn, gamma_cdf_dPn_dy,
    gamma_cdf_dPn_dalpha, gamma_cdf_dPn_dbeta, Edge.add, Operand.index, Dbl.neg_mul_eq,
    Dbl.neg_div_eq]
  cases y.is_constant <;> cases alpha.is_constant <;> cases beta.is_constant <;>
    simp only [Bool.not_false, Bool.not_true, Bool.false_eq_true, if_true, if_false]

theorem Seq.get_of_lt_length {α : Type} (s : Seq α) (i : Nat) (hi : i < s.length) :
    ∃ v ∈ s.toList, s.get? i = some v := by
  cases s with
  | scalar x => exact ⟨x, by simp [Seq.toList], rfl⟩
  | vec xs =>
    have hlt : i < xs.length := hi
    exact ⟨xs[i], List.getElem_mem hlt, by simp [Seq.get?, List.getElem?_eq_getElem hlt]⟩

theorem gamma_cdf_buffer (op : Operand F) (term : Nat → Dbl F) (P : Dbl F) (N : Nat)
    (hc : op.is_constant = false) :
    ((List.range N).foldl
        (fun buf n => if op.is_constant then buf else add_at buf (op.index n) (term n))
        (Edge.init op)).map (fun p => p * P) =
      (List.range op.val.length).map (fun k =>
        P * ∑ n in (Finset.range N).filter (fun n => op.index n = k), term n) := by
  simp only [hc, Bool.false_eq_true, if_false, Edge.init]
  rw [foldl_add_at, List.map_map]
  apply List.map_congr_left
  intro k _
  exact Dbl.mul_comm_eq _ _

end GammaCdfMain

/-! ## exp_mod_normal_lpdf -/

section ExpModNormalThms

theorem exp_mod_normal_lpdf_eq_fold {F : Type} [LinearOrderedField F] (rnd : F → Dbl F)
    (fns : ExpModNormalFunctions F) (y mu sigma lambda : Operand F)
    (hy : ∀ v ∈ y.val.toList, v.isNaN = false)
    (hmu : ∀ v ∈ mu.val.toList, v.isFinite = true)
    (hlambda : ∀ v ∈ lambda.val.toList, (0 : Dbl F) < v ∧ v.isFinite = true)
    (hsigma : ∀ v ∈ sigma.val.toList, (0 : Dbl F) < v ∧ v.isFinite = true)
    (hsizes : SameLength [y.val.shape, mu.val.shape, sigma.val.shape, lambda.val.shape])
    (hne : size_zero [y.val.length, mu.val.length, sigma.val.length, lambda.val.length] = false) :
    exp_mod_normal_lpdf rnd fns false y mu sigma lambda = Except.ok
      ((List.range (max_size [y.val.length, mu.val.length, sigma.val.length, lambda.val.length])).foldl
        (exp_mod_normal_lpdf_step rnd fns false y mu sigma lambda)
        ⟨0, Edge.init y, Edge.init mu, Edge.init sigma, Edge.init lambda⟩) := by
  have h1 : check_not_nan y.val = Except.ok () :=
    (check_elements_ok_iff _ _).mpr (fun v hv => by simp [hy v hv])
  have h2 : check_finite mu.val = Except.ok () := (check_elements_ok_iff _ _).mpr hmu
  have h3 : check_positive_finite lambda.val = Except.ok () :=
    (check_elements_ok_iff _ _).mpr (fun v hv => by simp [hlambda v hv])
  have h4 : check_positive_finite sigma.val = Except.ok () :=
    (check_elements_ok_iff _ _).mpr (fun v hv => by simp [hsigma v hv])
  have h5 := (check_consistent_sizes_ok_iff _).mpr hsizes
  simp [exp_mod_normal_lpdf, h1, h2, h3, h4, h5, hne, include_summand, bind, Except.bind, pure,
    Except.pure]

theorem exp_mod_normal_lpdf_scalar_closed_form (fns : ExpModNormalFunctions ℝ) (E : ℝ → ℝ)
    (r q L2 : ℝ) (hr : 0 < r) (hq : 0 < q)
    (hlog2 : fns.log (Dbl.fin 2) = Dbl.fin L2)
    (hsqrt2 : fns.sqrt (Dbl.fin 2) = Dbl.fin r)
    (hsqrtpi : fns.sqrt fns.pi = Dbl.fin q)
    (hlog : ∀ x : ℝ, 0 < x → fns.log (Dbl.fin x) = Dbl.fin (Real.log x))
    (hexp : ∀ x : ℝ, fns.exp (Dbl.fin x) = Dbl.fin (Real.exp x))
    (herfc : ∀ x : ℝ, fns.erfc (Dbl.fin x) = Dbl.fin (E x))
    (a b s l : ℝ) (hs : 0 < s) (hl : 0 < l)
    (hpos : 0 < E ((b + l * s * s - a) / (r * s))) :
    exp_mod_normal_lpdf Dbl.fin fns false (Operand.var (Seq.scalar (Dbl.fin a)))
        (Operand.var (Seq.scalar (Dbl.fin b))) (Operand.var (Seq.scalar (Dbl.fin s)))
        (Operand.var (Seq.scalar (Dbl.fin l))) =
      Except.ok
        ⟨Dbl.fin (0 - L2 + Real.log l
            + (l * (b + 1 / 2 * l * s * s - a) + Real.log (E ((b + l * s * s - a) / (r * s))))),
          [Dbl.fin (0 + (-l
            + -2 / q * Real.exp (-(b + l * s * s - a) / (r * s) * (b + l * s * s - a) / (s * r))
                / E ((b + l * s * s - a) / (s * r)) * -1 / (s * r)))],
          [Dbl.fin (0 + (l
            + -2 / q * Real.exp (-(b + l * s * s - a) / (r * s) * (b + l * s * s - a) / (s * r))
                / E ((b + l * s * s - a) / (s * r)) / (s * r)))],
          [Dbl.fin (0 + (s * l * l
            + -2 / q * Real.exp (-(b + l * s * s - a) / (r * s) * (b + l * s * s - a) / (s * r))
                / E ((b + l * s * s - a) / (s * r))
              * (-b / (s * s * r) + l / r + a / (s * s * r))))],
          [Dbl.fin (0 + (1 / l + l * s * s + b - a
            + -2 / q * Real.exp (-(b + l * s * s - a) / (r * s) * (b + l * s * s - a) / (s * r))
                / E ((b + l * s * s - a) / (s * r)) * s / r))]⟩ := by
  have hpos_s : (0 : Dbl ℝ) < Dbl.fin s := by
    change decide ((0 : ℝ) < s) = true
    simpa using hs
  have hpos_l : (0 : Dbl ℝ) < Dbl.fin l := by
    change decide ((0 : ℝ) < l) = true
    simpa using hl
  rw [exp_mod_normal_lpdf_eq_fold Dbl.fin fns _ _ _ _
    (by simp [Operand.var, Seq.toList, Dbl.isNaN])
    (by simp [Operand.var, Seq.toList, Dbl.isFinite])
    (by simpa [Operand.var, Seq.toList, Dbl.isFinite] using hpos_l)
    (by simpa [Operand.var, Seq.toList, Dbl.isFinite] using hpos_s)
    (by simp [SameLength, Operand.var, Seq.shape])
    (by simp [size_zero, Operand.var, Seq.length])]
  have hrange : List.range (max_size [1, 1, 1, 1]) = [0] := by decide
  have hrs : r * s ≠ 0 := (mul_pos hr hs).ne'
  have hsr : s * r ≠ 0 := (mul_pos hs hr).ne'
  have hssr : s * s * r ≠ 0 := (mul_pos (mul_pos hs hs) hr).ne'
  have hE2 : E ((b + l * s * s - a) / (s * r)) ≠ 0 := by
    rw [mul_comm s r]; exact hpos.ne'
  simp only [Operand.var, Seq.length, hrange, List.foldl_cons, List.foldl_nil,
    exp_mod_normal_lpdf_step, include_summand, Edge.init, Edge.radd_eq_add, Dbl.radd_exact,
    Dbl.rsub_exact, Dbl.rmul_exact, Dbl.rdiv_exact, Edge.add, Seq.is_vector, Seq.getD,
    Seq.get?, Option.getD_some, List.replicate_one, add_at, hlog2, hsqrt2, hsqrtpi,
    Dbl.one_eq, Dbl.zero_eq, Dbl.fin_sub, Dbl.fin_mul, Dbl.fin_add, Dbl.fin_neg,
    Dbl.fin_div _ _ hrs, Dbl.fin_div _ _ hsr, Dbl.fin_div _ _ hssr, Dbl.fin_div _ _ hr.ne',
    Dbl.fin_div _ _ hq.ne', Dbl.fin_div _ _ hl.ne', herfc, hexp, hlog _ hpos, hlog _ hl,
    Dbl.fin_div _ _ hE2,
    Bool.not_false, Bool.true_or, if_true, Bool.false_eq_true, if_false, List.all_nil,
    Bool.not_true, Bool.or_false]

theorem exp_mod_normal_lpdf_real_eq (fns : ExpModNormalFunctions ℝ) (E : ℝ → ℝ)
    (r q L2 : ℝ) (hr : 0 < r) (hq : 0 < q)
    (hlog2 : fns.log (Dbl.fin 2) = Dbl.fin L2)
    (hsqrt2 : fns.sqrt (Dbl.fin 2) = Dbl.fin r)
    (hsqrtpi : fns.sqrt fns.pi = Dbl.fin q)
    (hlog : ∀ x : ℝ, 0 < x → fns.log (Dbl.fin x) = Dbl.fin (Real.log x))
    (hexp : ∀ x : ℝ, fns.exp (Dbl.fin x) = Dbl.fin (Real.exp x))
    (herfc : ∀ x : ℝ, fns.erfc (Dbl.fin x) = Dbl.fin (E x))
    (a b s l : ℝ) (hs : 0 < s) (hl : 0 < l)
    (hpos : 0 < E ((b + l * s ^ 2 - a) / (r * s))) :
    returned_value4 (exp_mod_normal_lpdf Dbl.fin fns false (Operand.var (Seq.scalar (Dbl.fin a)))
        (Operand.var (Seq.scalar (Dbl.fin b))) (Operand.var (Seq.scalar (Dbl.fin s)))
        (Operand.var (Seq.scalar (Dbl.fin l)))) =
      -L2 + Real.log l + l * (b + l * s ^ 2 / 2 - a)
        + Real.log (E ((b + l * s ^ 2 - a) / (r * s))) := by
  have hss : l * s * s = l * s ^ 2 := by ring
  rw [exp_mod_normal_lpdf_scalar_closed_form fns E r q L2 hr hq hlog2 hsqrt2 hsqrtpi hlog hexp
    herfc a b s l hs hl (by rw [hss]; exact hpos)]
  simp only [returned_value4, Dbl.toField]
  rw [hss]
  ring

/-- The derivative of the log of a positive differentiable function composed
with an inner function, in the shape the partials of `exp_mod_normal_lpdf`
take. -/
theorem hasDerivAt_log_comp (E u : ℝ → ℝ) (E' u' x : ℝ)
    (hE : HasDerivAt E E' (u x)) (hu : HasDerivAt u u' x) (hpos : 0 < E (u x)) :
    HasDerivAt (fun t => Real.log (E (u t))) (E' * u' / E (u x)) x := by
  have h : HasDerivAt (fun t => E (u t)) (E' * u') x := hE.comp x hu
  exact h.log hpos.ne'

theorem eventually_pos_comp (E u : ℝ → ℝ) (E' u' x : ℝ)
    (hE : HasDerivAt E E' (u x)) (hu : HasDerivAt u u' x) (hpos : 0 < E (u x)) :
    ∀ᶠ t in nhds x, 0 < E (u t) := by
  have h : HasDerivAt (fun t => E (u t)) (E' * u') x := hE.comp x hu
  exact h.continuousAt.eventually (lt_mem_nhds hpos)

end ExpModNormalThms

/-! ## exp_mod_normal_lpdf: partials -/

section ExpModNormalDerivatives

/-- In exact arithmetic, with `erfc` a real function `E` of derivative
`-2 / sqrt pi * exp (-u^2)` that is positive at the point, the partials
recorded for four differentiable scalars are the derivatives of the returned
value. -/
theorem exp_mod_normal_lpdf_exact_partials (fns : ExpModNormalFunctions ℝ)
    (E : ℝ → ℝ)
    (hlog : ∀ x : ℝ, 0 < x → fns.log (Dbl.fin x) = Dbl.fin (Real.log x))
    (hexp : ∀ x : ℝ, fns.exp (Dbl.fin x) = Dbl.fin (Real.exp x))
    (hsqrt : ∀ x : ℝ, 0 ≤ x → fns.sqrt (Dbl.fin x) = Dbl.fin (Real.sqrt x))
    (hpi : fns.pi = Dbl.fin Real.pi)
    (herfc : ∀ x : ℝ, fns.erfc (Dbl.fin x) = Dbl.fin (E x))
    (hE : ∀ u : ℝ, HasDerivAt E (-2 / Real.sqrt Real.pi * Real.exp (-(u ^ 2))) u)
    (y mu sigma lambda : ℝ) (hsigma : 0 < sigma) (hlambda : 0 < lambda)
    (hpos : 0 < E ((mu + lambda * sigma ^ 2 - y) / (Real.sqrt 2 * sigma))) :
    ∃ r d1 d2 d3 d4,
      exp_mod_normal_lpdf Dbl.fin fns false (Operand.var (Seq.scalar (Dbl.fin y)))
        (Operand.var (Seq.scalar (Dbl.fin mu))) (Operand.var (Seq.scalar (Dbl.fin sigma)))
        (Operand.var (Seq.scalar (Dbl.fin lambda))) = Except.ok r ∧
      r.value = Dbl.fin (-Real.log 2 + Real.log lambda
        + lambda * (mu + lambda * sigma ^ 2 / 2 - y)
        + Real.log (E ((mu + lambda * sigma ^ 2 - y) / (Real.sqrt 2 * sigma)))) ∧
      r.partials1 = [Dbl.fin d1] ∧ r.partials2 = [Dbl.fin d2] ∧
      r.partials3 = [Dbl.fin d3] ∧ r.partials4 = [Dbl.fin d4] ∧
      HasDerivAt (fun t => returned_value4 (exp_mod_normal_lpdf Dbl.fin fns false
          (Operand.var (Seq.scalar (Dbl.fin t))) (Operand.var (Seq.scalar (Dbl.fin mu)))
          (Operand.var (Seq.scalar (Dbl.fin sigma)))
          (Operand.var (Seq.scalar (Dbl.fin lambda))))) d1 y ∧
      HasDerivAt (fun t => returned_value4 (exp_mod_normal_lpdf Dbl.fin fns false
          (Operand.var (Seq.scalar (Dbl.fin y))) (Operand.var (Seq.scalar (Dbl.fin t)))
          (Operand.var (Seq.scalar (Dbl.fin sigma)))
          (Operand.var (Seq.scalar (Dbl.fin lambda))))) d2 mu ∧
      HasDerivAt (fun t => returned_value4 (exp_mod_normal_lpdf Dbl.fin fns false
          (Operand.var (Seq.scalar (Dbl.fin y))) (Operand.var (Seq.scalar (Dbl.fin mu)))
          (Operand.var (Seq.scalar (Dbl.fin t)))
          (Operand.var (Seq.scalar (Dbl.fin lambda))))) d3 sigma ∧
      HasDerivAt (fun t => returned_value4 (exp_mod_normal_lpdf Dbl.fin fns false
          (Operand.var (Seq.scalar (Dbl.fin y))) (Operand.var (Seq.scalar (Dbl.fin mu)))
          (Operand.var (Seq.scalar (Dbl.fin sigma)))
          (Operand.var (Seq.scalar (Dbl.fin t))))) d4 lambda ∧
      d1 + d2 = 0 := by
  have hr : 0 < Real.sqrt 2 := Real.sqrt_pos.mpr (by norm_num)
  have hq : 0 < Real.sqrt Real.pi := Real.sqrt_pos.mpr Real.pi_pos
  have hlog2 : fns.log (Dbl.fin 2) = Dbl.fin (Real.log 2) := hlog 2 (by norm_num)
  have hsqrt2 : fns.sqrt (Dbl.fin 2) = Dbl.fin (Real.sqrt 2) := hsqrt 2 (by norm_num)
  have hsqrtpi : fns.sqrt fns.pi = Dbl.fin (Real.sqrt Real.pi) := by
    rw [hpi]; exact hsqrt _ Real.pi_pos.le
  have hss : lambda * sigma * sigma = lambda * sigma ^ 2 := by ring
  have hsr : sigma * Real.sqrt 2 = Real.sqrt 2 * sigma := mul_comm _ _
  have hX : -(mu + lambda * sigma ^ 2 - y) / (Real.sqrt 2 * sigma)
      * (mu + lambda * sigma ^ 2 - y) / (Real.sqrt 2 * sigma)
      = -(((mu + lambda * sigma ^ 2 - y) / (Real.sqrt 2 * sigma)) ^ 2) := by
    field_simp
    ring
  have hEne := hpos.ne'
  have hreal := exp_mod_normal_lpdf_real_eq fns E _ _ _ hr hq hlog2 hsqrt2 hsqrtpi hlog hexp herfc
  refine ⟨_, _, _, _, _,
    exp_mod_normal_lpdf_scalar_closed_form fns E _ _ _ hr hq hlog2 hsqrt2 hsqrtpi hlog hexp
      herfc y mu sigma lambda hsigma hlambda (by rw [hss]; exact hpos),
    ?_, rfl, rfl, rfl, rfl, ?_, ?_, ?_, ?_, ?_⟩
  · simp only [hss]
    congr 1
    ring
  · have hu : HasDerivAt (fun t : ℝ => (mu + lambda * sigma ^ 2 - t) / (Real.sqrt 2 * sigma))
        (-1 / (Real.sqrt 2 * sigma)) y :=
      ((hasDerivAt_id y).const_sub _).div_const _
    have hev : (fun t => returned_value4 (exp_mod_normal_lpdf Dbl.fin fns false
          (Operand.var (Seq.scalar (Dbl.fin t))) (Operand.var (Seq.scalar (Dbl.fin mu)))
          (Operand.var (Seq.scalar (Dbl.fin sigma)))
          (Operand.var (Seq.scalar (Dbl.fin lambda))))) =ᶠ[nhds y]
        fun t => -Real.log 2 + Real.log lambda + lambda * (mu + lambda * sigma ^ 2 / 2 - t)
          + Real.log (E ((mu + lambda * sigma ^ 2 - t) / (Real.sqrt 2 * sigma))) := by
      filter_upwards [eventually_pos_comp E _ _ _ y (hE _) hu hpos] with t ht
      exact hreal t mu sigma lambda hsigma hlambda ht
    refine HasDerivAt.congr_of_eventuallyEq ?_ hev
    have h1 := hasDerivAt_log_comp E _ _ _ y (hE _) hu hpos
    have h2 := (((hasDerivAt_id y).const_sub (mu + lambda * sigma ^ 2 / 2)).const_mul
      lambda).const_add (-Real.log 2 + Real.log lambda)
    have h3 := h2.add h1
    simp only [hss, hsr, hX]
    convert h3 using 1
    field_simp
    ring
  · have hu : HasDerivAt (fun t : ℝ => (t + lambda * sigma ^ 2 - y) / (Real.sqrt 2 * sigma))
        (1 / (Real.sqrt 2 * sigma)) mu :=
      (((hasDerivAt_id mu).add_const _).sub_const _).div_const _
    have hev : (fun t => returned_value4 (exp_mod_normal_lpdf Dbl.fin fns false
          (Operand.var (Seq.scalar (Dbl.fin y))) (Operand.var (Seq.scalar (Dbl.fin t)))
          (Operand.var (Seq.scalar (Dbl.fin sigma)))
          (Operand.var (Seq.scalar (Dbl.fin lambda))))) =ᶠ[nhds mu]
        fun t => -Real.log 2 + Real.log lambda + lambda * (t + lambda * sigma ^ 2 / 2 - y)
          + Real.log (E ((t + lambda * sigma ^ 2 - y) / (Real.sqrt 2 * sigma))) := by
      filter_upwards [eventually_pos_comp E _ _ _ mu (hE _) hu hpos] with t ht
      exact hreal y t sigma lambda hsigma hlambda ht
    refine HasDerivAt.congr_of_eventuallyEq ?_ hev
    have h1 := hasDerivAt_log_comp E _ _ _ mu (hE _) hu hpos
    have h2 := ((((hasDerivAt_id mu).add_const (lambda * sigma ^ 2 / 2)).sub_const y).const_mul
      lambda).const_add (-Real.log 2 + Real.log lambda)
    have h3 := h2.add h1
    simp only [hss, hsr, hX]
    convert h3 using 1
    field_simp
    ring
  · have hu : HasDerivAt (fun t : ℝ => (mu + lambda * t ^ 2 - y) / (Real.sqrt 2 * t))
        (-mu / (sigma * sigma * Real.sqrt 2) + lambda / Real.sqrt 2
          + y / (sigma * sigma * Real.sqrt 2)) sigma := by
      have hnum : HasDerivAt (fun t : ℝ => mu + lambda * t ^ 2 - y) (lambda * (2 * sigma)) sigma := by
        have := (((hasDerivAt_pow 2 sigma).const_mul lambda).const_add mu).sub_const y
        convert this using 1
        simp
      have hden : HasDerivAt (fun t : ℝ => Real.sqrt 2 * t) (Real.sqrt 2) sigma := by
        have := (hasDerivAt_id sigma).const_mul (Real.sqrt 2)
        convert this using 1
        simp
      have := hnum.div hden (mul_pos hr hsigma).ne'
      convert this using 1
      field_simp
      ring
    have hev : (fun t => returned_value4 (exp_mod_normal_lpdf Dbl.fin fns false
          (Operand.var (Seq.scalar (Dbl.fin y))) (Operand.var (Seq.scalar (Dbl.fin mu)))
          (Operand.var (Seq.scalar (Dbl.fin t)))
          (Operand.var (Seq.scalar (Dbl.fin lambda))))) =ᶠ[nhds sigma]
        fun t => -Real.log 2 + Real.log lambda + lambda * (mu + lambda * t ^ 2 / 2 - y)
          + Real.log (E ((mu + lambda * t ^ 2 - y) / (Real.sqrt 2 * t))) := by
      filter_upwards [eventually_pos_comp E _ _ _ sigma (hE _) hu hpos, lt_mem_nhds hsigma]
        with t ht hst
      exact hreal y mu t lambda hst hlambda ht
    refine HasDerivAt.congr_of_eventuallyEq ?_ hev
    have h1 := hasDerivAt_log_comp E _ _ _ sigma (hE _) hu hpos
    have h2 : HasDerivAt (fun t : ℝ => -Real.log 2 + Real.log lambda
        + lambda * (mu + lambda * t ^ 2 / 2 - y)) (sigma * lambda * lambda) sigma := by
      have := ((((((hasDerivAt_pow 2 sigma).const_mul lambda).div_const 2).const_add mu).sub_const
        y).const_mul lambda).const_add (-Real.log 2 + Real.log lambda)
      convert this using 1
      simp
      ring
    have h3 := h2.add h1
    simp only [hss, hsr, hX]
    convert h3 using 1
    field_simp
    ring
  · have hu : HasDerivAt (fun t : ℝ => (mu + t * sigma ^ 2 - y) / (Real.sqrt 2 * sigma))
        (sigma / Real.sqrt 2) lambda := by
      have := ((((hasDerivAt_id lambda).mul_const (sigma ^ 2)).const_add mu).sub_const
        y).div_const (Real.sqrt 2 * sigma)
      convert this using 1
      field_simp
      ring
    have hev : (fun t => returned_value4 (exp_mod_normal_lpdf Dbl.fin fns false
          (Operand.var (Seq.scalar (Dbl.fin y))) (Operand.var (Seq.scalar (Dbl.fin mu)))
          (Operand.var (Seq.scalar (Dbl.fin sigma)))
          (Operand.var (Seq.scalar (Dbl.fin t))))) =ᶠ[nhds lambda]
        fun t => -Real.log 2 + Real.log t + t * (mu + t * sigma ^ 2 / 2 - y)
          + Real.log (E ((mu + t * sigma ^ 2 - y) / (Real.sqrt 2 * sigma))) := by
      filter_upwards [eventually_pos_comp E _ _ _ lambda (hE _) hu hpos, lt_mem_nhds hlambda]
        with t ht hlt
      exact hreal y mu sigma t hsigma hlt ht
    refine HasDerivAt.congr_of_eventuallyEq ?_ hev
    have h1 := hasDerivAt_log_comp E _ _ _ lambda (hE _) hu hpos
    have h2 : HasDerivAt (fun t : ℝ => -Real.log 2 + Real.log t
        + t * (mu + t * sigma ^ 2 / 2 - y))
        (1 / lambda + lambda * sigma * sigma + mu - y) lambda := by
      have hin : HasDerivAt (fun t : ℝ => mu + t * sigma ^ 2 / 2 - y) (sigma ^ 2 / 2) lambda := by
        have := ((((hasDerivAt_id lambda).mul_const (sigma ^ 2)).div_const 2).const_add
          mu).sub_const y
        convert this using 1
        simp
      have := ((Real.hasDerivAt_log hlambda.ne').const_add (-Real.log 2)).add
        ((hasDerivAt_id lambda).mul hin)
      convert this using 1
      simp only [id]
      field_simp
      ring
    have h3 := h2.add h1
    simp only [hss, hsr, hX]
    convert h3 using 1
    field_simp
    ring
  · ring

end ExpModNormalDerivatives

/-! ## exp_mod_normal_lpdf in double arithmetic -/

namespace Dbl

theorem round_not_finite {F : Type} (rnd : F → Dbl F) (d : Dbl F) (h : d.isFinite = false) :
    (Dbl.round rnd d).isFinite = false := by
  cases d with
  | fin x => simp [isFinite] at h
  | nan => rfl
  | ninf => rfl
  | pinf => rfl

theorem ne_fin_of_not_finite {F : Type} (d : Dbl F) (h : d.isFinite = false) (x : F) :
    d ≠ Dbl.fin x := by
  rintro rfl
  simp [isFinite] at h

section NotFinite
variable {F : Type} [LinearOrderedField F]

theorem radd_not_finite_right (rnd : F → Dbl F) (a b : Dbl F) (h : b.isFinite = false) :
    (Dbl.radd rnd a b).isFinite = false := by
  apply round_not_finite
  cases b with
  | fin x => simp [isFinite] at h
  | nan => cases a <;> rfl
  | ninf => cases a <;> rfl
  | pinf => cases a <;> rfl

theorem radd_not_finite_left (rnd : F → Dbl F) (a b : Dbl F) (h : a.isFinite = false) :
    (Dbl.radd rnd a b).isFinite = false := by
  apply round_not_finite
  cases a with
  | fin x => simp [isFinite] at h
  | nan => cases b <;> rfl
  | ninf => cases b <;> rfl
  | pinf => cases b <;> rfl

theorem rsub_not_finite_left (rnd : F → Dbl F) (a b : Dbl F) (h : a.isFinite = false) :
    (Dbl.rsub rnd a b).isFinite = false := by
  apply round_not_finite
  cases a with
  | fin x => simp [isFinite] at h
  | nan => cases b <;> rfl
  | ninf => cases b <;> rfl
  | pinf => cases b <;> rfl

end NotFinite
end Dbl

section ExpModNormalRounded
variable {F : Type} [LinearOrderedField F]

/-- What `exp_mod_normal_lpdf` returns for four differentiable scalars, in the
operations of the loop body. -/
theorem exp_mod_normal_lpdf_scalar_rounded (rnd : F → Dbl F) (fns : ExpModNormalFunctions F)
    (a b s l : F) (hs : 0 < s) (hl : 0 < l)
    (sqrt_two diff deriv_logerfc : Dbl F)
    (hsqrt_two : sqrt_two = fns.sqrt (Dbl.fin 2))
    (hdiff : diff = Dbl.rsub rnd
      (Dbl.radd rnd (Dbl.fin b) (Dbl.rmul rnd (Dbl.rmul rnd (Dbl.fin l) (Dbl.fin s)) (Dbl.fin s)))
      (Dbl.fin a))
    (hderiv : deriv_logerfc = Dbl.rdiv rnd
      (Dbl.rmul rnd (Dbl.rdiv rnd (Dbl.fin (-2)) (fns.sqrt fns.pi))
        (fns.exp
          (Dbl.rdiv rnd
            (Dbl.rmul rnd (Dbl.rdiv rnd (-diff) (Dbl.rmul rnd sqrt_two (Dbl.fin s))) diff)
            (Dbl.rmul rnd (Dbl.fin s) sqrt_two))))
      (fns.erfc (Dbl.rdiv rnd diff (Dbl.rmul rnd (Dbl.fin s) sqrt_two)))) :
    exp_mod_normal_lpdf rnd fns false (Operand.var (Seq.scalar (Dbl.fin a)))
        (Operand.var (Seq.scalar (Dbl.fin b))) (Operand.var (Seq.scalar (Dbl.fin s)))
        (Operand.var (Seq.scalar (Dbl.fin l))) =
      Except.ok
        ⟨Dbl.radd rnd (Dbl.radd rnd (Dbl.rsub rnd 0 (fns.log (Dbl.fin 2))) (fns.log (Dbl.fin l)))
            (Dbl.radd rnd
              (Dbl.rmul rnd (Dbl.fin l)
                (Dbl.rsub rnd
                  (Dbl.radd rnd (Dbl.fin b)
                    (Dbl.rmul rnd
                      (Dbl.rmul rnd (Dbl.rmul rnd (Dbl.fin (1 / 2)) (Dbl.fin l)) (Dbl.fin s))
                      (Dbl.fin s)))
                  (Dbl.fin a)))
              (fns.log (fns.erfc (Dbl.rdiv rnd diff (Dbl.rmul rnd sqrt_two (Dbl.fin s)))))),
          [Dbl.radd rnd 0 (Dbl.radd rnd (-(Dbl.fin l))
            (Dbl.rdiv rnd (Dbl.rmul rnd deriv_logerfc (Dbl.fin (-1)))
              (Dbl.rmul rnd (Dbl.fin s) sqrt_two)))],
          [Dbl.radd rnd 0 (Dbl.radd rnd (Dbl.fin l)
            (Dbl.rdiv rnd deriv_logerfc (Dbl.rmul rnd (Dbl.fin s) sqrt_two)))],
          [Dbl.radd rnd 0
            (Dbl.radd rnd (Dbl.rmul rnd (Dbl.rmul rnd (Dbl.fin s) (Dbl.fin l)) (Dbl.fin l))
              (Dbl.rmul rnd deriv_logerfc
                (Dbl.radd rnd
                  (Dbl.radd rnd
                    (Dbl.rdiv rnd (-(Dbl.fin b))
                      (Dbl.rmul rnd (Dbl.rmul rnd (Dbl.fin s) (Dbl.fin s)) sqrt_two))
                    (Dbl.rdiv rnd (Dbl.fin l) sqrt_two))
                  (Dbl.rdiv rnd (Dbl.fin a)
                    (Dbl.rmul rnd (Dbl.rmul rnd (Dbl.fin s) (Dbl.fin s)) sqrt_two)))))],
          [Dbl.radd rnd 0
            (Dbl.radd rnd
              (Dbl.rsub rnd
                (Dbl.radd rnd
                  (Dbl.radd rnd (Dbl.rdiv rnd 1 (Dbl.fin l))
                    (Dbl.rmul rnd (Dbl.rmul rnd (Dbl.fin l) (Dbl.fin s)) (Dbl.fin s)))
                  (Dbl.fin b))
                (Dbl.fin a))
              (Dbl.rdiv rnd (Dbl.rmul rnd deriv_logerfc (Dbl.fin s)) sqrt_two))]⟩ := by
  subst hsqrt_two hdiff hderiv
  have hpos_s : (0 : Dbl F) < Dbl.fin s := by
    change decide ((0 : F) < s) = true
    simpa using hs
  have hpos_l : (0 : Dbl F) < Dbl.fin l := by
    change decide ((0 : F) < l) = true
    simpa using hl
  rw [exp_mod_normal_lpdf_eq_fold rnd fns _ _ _ _
    (by simp [Operand.var, Seq.toList, Dbl.isNaN])
    (by simp [Operand.var, Seq.toList, Dbl.isFinite])
    (by simpa [Operand.var, Seq.toList, Dbl.isFinite] using hpos_l)
    (by simpa [Operand.var, Seq.toList, Dbl.isFinite] using hpos_s)
    (by simp [SameLength, Operand.var, Seq.shape])
    (by simp [size_zero, Operand.var, Seq.length])]
  have hrange : List.range (max_size [1, 1, 1, 1]) = [0] := by decide
  simp only [Operand.var, Seq.length, hrange, List.foldl_cons, List.foldl_nil,
    exp_mod_normal_lpdf_step, include_summand, Edge.init, Edge.radd, Seq.is_vector, Seq.getD,
    Seq.get?, Option.getD_some, List.replicate_one, radd_at,
    Bool.not_false, Bool.true_or, if_true, Bool.false_eq_true, if_false, List.all_nil,
    Bool.not_true, Bool.or_false]

end ExpModNormalRounded

section ExpModNormalMain

end ExpModNormalMain

theorem rmul_pinf_two_pow_600 {F : Type} [LinearOrderedField F] (rnd : F → Dbl F) :
    Dbl.rmul rnd Dbl.pinf (Dbl.fin ((2 : F) ^ 600)) = Dbl.pinf := by
  have hpos : (0 : F) < 2 ^ 600 := by positivity
  unfold Dbl.rmul
  change Dbl.round rnd (Dbl.signedInf ((2 : F) ^ 600)) = Dbl.pinf
  simp only [Dbl.signedInf, if_pos hpos, Dbl.round]

section ExpModNormalOverflow
variable {F : Type} [LinearOrderedField F] [FloorRing F]

/-- In binary64 arithmetic `2^600 * 2^600` overflows to `+inf`. -/
theorem rmul_two_pow_600_overflow :
    Dbl.rmul round_double (Dbl.fin ((2 : F) ^ 600)) (Dbl.fin (2 ^ 600)) = Dbl.pinf := by
  have hle : (2 : F) ^ 1024 - 2 ^ 970 ≤ 2 ^ 600 * 2 ^ 600 := by
    rw [← pow_add]
    have h1 : (2 : F) ^ 1024 ≤ 2 ^ (600 + 600) := pow_le_pow_right₀ (by norm_num) (by norm_num)
    have h2 : (0 : F) < 2 ^ 970 := by positivity
    linarith
  unfold Dbl.rmul
  rw [Dbl.fin_mul]
  exact round_double_overflow _ hle

/-- With `y = mu = 0` and `sigma = lambda = 2^600`, the products
`sigma * lambda` and `lambda * sigma` overflow, and the partials recorded for
`sigma` and `lambda` are not finite, whatever the library functions return. -/
theorem exp_mod_normal_lpdf_overflow (fns : ExpModNormalFunctions F) :
    ∃ r d3 d4, exp_mod_normal_lpdf round_double fns false
        (Operand.var (Seq.scalar (Dbl.fin 0))) (Operand.var (Seq.scalar (Dbl.fin 0)))
        (Operand.var (Seq.scalar (Dbl.fin (2 ^ 600))))
        (Operand.var (Seq.scalar (Dbl.fin (2 ^ 600)))) = Except.ok r ∧
      r.partials3 = [d3] ∧ r.partials4 = [d4] ∧
      d3.isFinite = false ∧ d4.isFinite = false := by
  have hpos : (0 : F) < 2 ^ 600 := by positivity
  refine ⟨_, _, _, exp_mod_normal_lpdf_scalar_rounded round_double fns 0 0 (2 ^ 600) (2 ^ 600)
    hpos hpos _ _ _ rfl rfl rfl, rfl, rfl, ?_, ?_⟩
  · apply Dbl.radd_not_finite_right
    apply Dbl.radd_not_finite_left
    rw [rmul_two_pow_600_overflow, rmul_pinf_two_pow_600]
    rfl
  · apply Dbl.radd_not_finite_right
    apply Dbl.radd_not_finite_left
    apply Dbl.rsub_not_finite_left
    apply Dbl.radd_not_finite_left
    apply Dbl.radd_not_finite_right
    rw [rmul_two_pow_600_overflow, rmul_pinf_two_pow_600]
    rfl

end ExpModNormalOverflow

/-! ## exp_mod_normal_lpdf in binary64 arithmetic -/

section RoundDoubleBounds
variable {F : Type} [LinearOrderedField F] [FloorRing F]

theorem le_round_half_even (t : F) (k : Int) (h : (k : F) ≤ t) : k ≤ round_half_even t := by
  have hf : k ≤ Int.floor t := Int.le_floor.mpr h
  unfold round_half_even
  simp only
  split_ifs <;> omega

theorem round_half_even_le (t : F) (k : Int) (h : t ≤ (k : F)) : round_half_even t ≤ k := by
  have hf : Int.floor t ≤ k := by
    have : ((Int.floor t : Int) : F) ≤ (k : F) := le_trans (Int.floor_le t) h
    exact_mod_cast this
  unfold round_half_even
  simp only
  split_ifs with h1 h2 h3
  · exact hf
  · have hlt : ((Int.floor t : Int) : F) < (k : F) := by
      have : (0 : F) < 1 / 2 := by norm_num
      linarith
    have : Int.floor t < k := by exact_mod_cast hlt
    omega
  · exact hf
  · have hhalf : t - (Int.floor t : F) = 1 / 2 := le_antisymm (not_lt.mp h2) (not_lt.mp h1)
    have hlt : ((Int.floor t : Int) : F) < (k : F) := by
      have : (0 : F) < 1 / 2 := by norm_num
      linarith
    have : Int.floor t < k := by exact_mod_cast hlt
    omega

/-- A result between 0 and `2^-1075`, half the smallest positive double,
rounds to 0. -/
theorem round_double_tiny (x : F) (h0 : 0 ≤ x) (h1 : x ≤ (2 : F) ^ (-1075 : Int)) :
    round_double x = Dbl.fin 0 := by
  rcases eq_or_lt_of_le h0 with hx | hx
  · rw [← hx]; exact round_double_zero
  have h2 : (2 : F) ≠ 0 := by norm_num
  have hsmall : x < (2 : F) ^ (-1022 : Int) :=
    lt_of_le_of_lt h1 (zpow_lt_zpow_right₀ (by norm_num) (by norm_num))
  have hone : (2 : F) ^ (-1022 : Int) ≤ 1 := by
    have : (2 : F) ^ (-1022 : Int) ≤ 2 ^ (0 : Int) := zpow_le_zpow_right₀ (by norm_num) (by norm_num)
    simpa using this
  have hnot : ¬ ((2 : F) ^ 1024 - 2 ^ 970 ≤ |x|) := by
    rw [abs_of_pos hx, not_le]
    have h3 : (1 : F) ≤ 2 ^ 970 := one_le_pow₀ (by norm_num)
    have h4 : (2 : F) ^ 970 * 2 ≤ 2 ^ 1024 := by
      rw [← pow_succ]
      exact pow_le_pow_right₀ (by norm_num) (by norm_num)
    linarith
  have hlog : Int.log 2 |x| < -1022 := by
    rw [abs_of_pos hx, ← Int.lt_zpow_iff_log_lt (by norm_num) hx]
    exact_mod_cast hsmall
  have he : max (Int.log 2 |x|) (-1022) = -1022 := max_eq_right hlog.le
  unfold round_double
  rw [if_neg hnot]
  simp only [he]
  have hulp : (0 : F) < 2 ^ ((-1022 : Int) - 52) := zpow_pos (by norm_num) _
  have ht0 : 0 ≤ x / 2 ^ ((-1022 : Int) - 52) := div_nonneg h0 hulp.le
  have ht1 : x / 2 ^ ((-1022 : Int) - 52) ≤ 1 / 2 := by
    rw [div_le_iff₀ hulp]
    have : (1 / 2 : F) * 2 ^ ((-1022 : Int) - 52) = 2 ^ (-1075 : Int) := by
      have h12 : (1 / 2 : F) = 2 ^ (-1 : Int) := by norm_num
      rw [h12, ← zpow_add₀ h2]
      norm_num
    rw [this]
    exact h1
  have hrhe : round_half_even (x / 2 ^ ((-1022 : Int) - 52)) = 0 := by
    have hfl : Int.floor (x / 2 ^ ((-1022 : Int) - 52)) = 0 := by
      rw [Int.floor_eq_iff]
      constructor
      · simpa using ht0
      · have : (1 / 2 : F) < 1 := by norm_num
        simp only [Int.cast_zero, zero_add]
        linarith
    unfold round_half_even
    simp only [hfl, Int.cast_zero, sub_zero]
    split_ifs with a1 a2 a3
    · rfl
    · exact absurd ht1 (not_le.mpr a2)
    · rfl
    · exact absurd (by decide : (0 : Int) % 2 = 0) a3
  rw [hrhe]
  simp

end RoundDoubleBounds

section RoundDoubleBinade
variable {F : Type} [LinearOrderedField F] [FloorRing F]

/-- Rounding keeps a result between two powers of two in the range of the
normal doubles: both powers are doubles. -/
theorem round_double_between_pow_two (x : F) (a b : Int) (ha : -1022 ≤ a) (hb : b ≤ 1023)
    (h1 : (2 : F) ^ a ≤ x) (h2 : x ≤ (2 : F) ^ b) :
    ∃ y, round_double x = Dbl.fin y ∧ (2 : F) ^ a ≤ y ∧ y ≤ (2 : F) ^ b := by
  have h2ne : (2 : F) ≠ 0 := by norm_num
  have h12 : (1 : F) < 2 := by norm_num
  have hx : 0 < x := lt_of_lt_of_le (zpow_pos (by norm_num) a) h1
  have hnot : ¬ ((2 : F) ^ 1024 - 2 ^ 970 ≤ |x|) := by
    rw [abs_of_pos hx, not_le]
    have h3 : (2 : F) ^ b ≤ 2 ^ (1023 : Int) := zpow_le_zpow_right₀ h12.le hb
    have h4 : (2 : F) ^ (1023 : Int) = 2 ^ 1023 := by
      rw [show (1023 : Int) = ((1023 : Nat) : Int) from rfl, zpow_natCast]
    have h5 : (2 : F) ^ 1024 = 2 ^ 1023 * 2 := pow_succ 2 1023
    have h6 : (2 : F) ^ 970 < 2 ^ 1023 := pow_lt_pow_right₀ h12 (by norm_num)
    linarith
  have hla : a ≤ Int.log 2 x := by
    rw [← Int.zpow_le_iff_le_log (by norm_num) hx]
    exact_mod_cast h1
  have hlx : (2 : F) ^ Int.log 2 x ≤ x := by
    have := Int.zpow_log_le_self (b := 2) (by norm_num) hx
    exact_mod_cast this
  have hlb : Int.log 2 x ≤ b := (zpow_le_zpow_iff_right₀ h12).mp (le_trans hlx h2)
  have he : max (Int.log 2 |x|) (-1022) = Int.log 2 x := by
    rw [abs_of_pos hx]
    exact max_eq_left (le_trans ha hla)
  unfold round_double
  rw [if_neg hnot]
  simp only [he]
  have hulp : (0 : F) < 2 ^ (Int.log 2 x - 52) := zpow_pos (by norm_num) _
  have hlow : (2 : F) ^ 52 * 2 ^ (Int.log 2 x - 52) = 2 ^ Int.log 2 x := by
    rw [← zpow_natCast, ← zpow_add₀ h2ne]
    congr 1
    push_cast
    ring
  obtain ⟨k, hk⟩ := Int.eq_ofNat_of_zero_le (show (0 : Int) ≤ b - Int.log 2 x + 52 by omega)
  have hup : (2 : F) ^ k * 2 ^ (Int.log 2 x - 52) = 2 ^ b := by
    rw [← zpow_natCast, ← zpow_add₀ h2ne]
    congr 1
    omega
  have hcast : ∀ n : Nat, (((2 : Int) ^ n : Int) : F) = (2 : F) ^ n := by
    intro n
    rw [Int.cast_pow]
    norm_num
  have hm1 : (((2 : Int) ^ 52 : Int) : F) ≤ x / 2 ^ (Int.log 2 x - 52) := by
    rw [le_div_iff₀ hulp, hcast, hlow]
    exact hlx
  have hm2 : x / 2 ^ (Int.log 2 x - 52) ≤ (((2 : Int) ^ k : Int) : F) := by
    rw [div_le_iff₀ hulp, hcast, hup]
    exact h2
  have hr1 := le_round_half_even _ _ hm1
  have hr2 := round_half_even_le _ _ hm2
  refine ⟨_, rfl, ?_, ?_⟩
  · have hc : (2 : F) ^ 52 ≤ (round_half_even (x / 2 ^ (Int.log 2 x - 52)) : F) := by
      rw [← hcast]
      exact Int.cast_le.mpr hr1
    calc (2 : F) ^ a ≤ 2 ^ Int.log 2 x := zpow_le_zpow_right₀ h12.le hla
      _ = (2 : F) ^ 52 * 2 ^ (Int.log 2 x - 52) := hlow.symm
      _ ≤ _ := mul_le_mul_of_nonneg_right hc hulp.le
  · have hc : (round_half_even (x / 2 ^ (Int.log 2 x - 52)) : F) ≤ (2 : F) ^ k := by
      rw [← hcast]
      exact Int.cast_le.mpr hr2
    calc _ ≤ (2 : F) ^ k * 2 ^ (Int.log 2 x - 52) := mul_le_mul_of_nonneg_right hc hulp.le
      _ = 2 ^ b := hup

end RoundDoubleBinade

section ErfcTail

open MeasureTheory Set in
/-- The complementary error function, written with the integral of the
Gaussian from 0, lies between 0 and `2 * exp (-u)` for `u >= 1`. -/
theorem erfc_integral_bounds (u : ℝ) (hu : 1 ≤ u) :
    0 ≤ 1 - 2 / Real.sqrt Real.pi * ∫ t in (0 : ℝ)..u, Real.exp (-(t ^ 2)) ∧
    1 - 2 / Real.sqrt Real.pi * ∫ t in (0 : ℝ)..u, Real.exp (-(t ^ 2)) ≤ 2 * Real.exp (-u) := by
  have hu0 : (0 : ℝ) ≤ u := by linarith
  have hint : Integrable (fun t : ℝ => Real.exp (-(t ^ 2))) := by
    have := integrable_exp_neg_mul_sq (b := 1) (by norm_num)
    simpa using this
  have htot : ∫ t in Ioi (0 : ℝ), Real.exp (-(t ^ 2)) = Real.sqrt Real.pi / 2 := by
    have := integral_gaussian_Ioi 1
    simpa using this
  have hsplit : ∫ t in Ioi (0 : ℝ), Real.exp (-(t ^ 2))
      = (∫ t in (0 : ℝ)..u, Real.exp (-(t ^ 2))) + ∫ t in Ioi u, Real.exp (-(t ^ 2)) := by
    rw [intervalIntegral.integral_of_le hu0, ← setIntegral_union (Ioc_disjoint_Ioi le_rfl)
      measurableSet_Ioi hint.integrableOn hint.integrableOn, Ioc_union_Ioi_eq_Ioi hu0]
  have htail0 : 0 ≤ ∫ t in Ioi u, Real.exp (-(t ^ 2)) :=
    setIntegral_nonneg measurableSet_Ioi (fun t _ => (Real.exp_pos _).le)
  have hexpint : IntegrableOn (fun t : ℝ => Real.exp (-t)) (Ioi u) := by
    have := exp_neg_integrableOn_Ioi u (b := 1) (by norm_num)
    simpa using this
  have htail1 : ∫ t in Ioi u, Real.exp (-(t ^ 2)) ≤ Real.exp (-u) := by
    rw [← integral_exp_neg_Ioi u]
    refine setIntegral_mono_on hint.integrableOn hexpint measurableSet_Ioi ?_
    intro t ht
    have ht1 : 1 ≤ t := le_trans hu (le_of_lt ht)
    apply Real.exp_le_exp.mpr
    nlinarith
  have hsqrt_pos : 0 < Real.sqrt Real.pi := Real.sqrt_pos.mpr Real.pi_pos
  have hsqrt1 : 1 ≤ Real.sqrt Real.pi := by
    rw [Real.one_le_sqrt]
    linarith [Real.pi_gt_three]
  have hE : 1 - 2 / Real.sqrt Real.pi * ∫ t in (0 : ℝ)..u, Real.exp (-(t ^ 2))
      = 2 / Real.sqrt Real.pi * ∫ t in Ioi u, Real.exp (-(t ^ 2)) := by
    have h1 : (∫ t in (0 : ℝ)..u, Real.exp (-(t ^ 2)))
        = Real.sqrt Real.pi / 2 - ∫ t in Ioi u, Real.exp (-(t ^ 2)) := by
      linarith [htot, hsplit]
    rw [h1]
    field_simp
    ring
  rw [hE]
  have hcoef0 : 0 ≤ 2 / Real.sqrt Real.pi := by positivity
  have hcoef2 : 2 / Real.sqrt Real.pi ≤ 2 := by
    rw [div_le_iff₀ hsqrt_pos]
    linarith
  constructor
  · exact mul_nonneg hcoef0 htail0
  · calc 2 / Real.sqrt Real.pi * ∫ t in Ioi u, Real.exp (-(t ^ 2))
        ≤ 2 / Real.sqrt Real.pi * Real.exp (-u) := mul_le_mul_of_nonneg_left htail1 hcoef0
      _ ≤ 2 * Real.exp (-u) := mul_le_mul_of_nonneg_right hcoef2 (Real.exp_pos _).le

/-- For `u >= 2048` the complementary error function is at most `2^-1075`,
half the smallest positive double. -/
theorem erfc_integral_underflow (u : ℝ) (hu : 2048 ≤ u) :
    0 ≤ 1 - 2 / Real.sqrt Real.pi * ∫ t in (0 : ℝ)..u, Real.exp (-(t ^ 2)) ∧
    1 - 2 / Real.sqrt Real.pi * ∫ t in (0 : ℝ)..u, Real.exp (-(t ^ 2))
      ≤ (2 : ℝ) ^ (-1075 : Int) := by
  obtain ⟨h0, h1⟩ := erfc_integral_bounds u (by linarith)
  refine ⟨h0, le_trans h1 ?_⟩
  have hexp1 : Real.exp (-1) ≤ 1 / 2 := by
    rw [Real.exp_neg, inv_eq_one_div]
    apply one_div_le_one_div_of_le (by norm_num)
    linarith [Real.add_one_le_exp (1 : ℝ)]
  have hexpu : Real.exp (-u) ≤ Real.exp (-2048) := Real.exp_le_exp.mpr (by linarith)
  have hpow : Real.exp (-2048) = Real.exp (-1) ^ 2048 := by
    rw [← Real.exp_nat_mul]
    norm_num
  have hhalf : Real.exp (-1) ^ 2048 ≤ (1 / 2 : ℝ) ^ 2048 :=
    pow_le_pow_left₀ (Real.exp_pos _).le hexp1 2048
  have h2 : (2 : ℝ) * (1 / 2) ^ 2048 ≤ (2 : ℝ) ^ (-1075 : Int) := by
    have e1 : (2 : ℝ) * (1 / 2) ^ 2048 = (2 : ℝ) ^ (-2047 : Int) := by
      rw [one_div, inv_pow, ← zpow_natCast, ← zpow_neg]
      have h2ne : (2 : ℝ) ≠ 0 := by norm_num
      nth_rewrite 1 [← zpow_one (2 : ℝ)]
      rw [← zpow_add₀ h2ne]
      norm_num
    rw [e1]
    exact zpow_le_zpow_right₀ (by norm_num) (by norm_num)
  calc 2 * Real.exp (-u) ≤ 2 * Real.exp (-2048) := by linarith
    _ = 2 * Real.exp (-1) ^ 2048 := by rw [hpow]
    _ ≤ 2 * (1 / 2) ^ 2048 := by linarith
    _ ≤ _ := h2

end ErfcTail

namespace Dbl
section NotFiniteMore
variable {F : Type} [LinearOrderedField F]

theorem rmul_not_finite_left (rnd : F → Dbl F) (a b : Dbl F) (h : a.isFinite = false) :
    (Dbl.rmul rnd a b).isFinite = false := by
  apply round_not_finite
  cases a with
  | fin x => simp [isFinite] at h
  | nan => cases b <;> rfl
  | ninf =>
    cases b with
    | fin y =>
      change (signedInf (-y)).isFinite = false
      unfold signedInf
      split_ifs <;> rfl
    | nan => rfl
    | ninf => rfl
    | pinf => rfl
  | pinf =>
    cases b with
    | fin y =>
      change (signedInf y).isFinite = false
      unfold signedInf
      split_ifs <;> rfl
    | nan => rfl
    | ninf => rfl
    | pinf => rfl

theorem rdiv_not_finite_left (rnd : F → Dbl F) (a b : Dbl F) (h : a.isFinite = false) :
    (Dbl.rdiv rnd a b).isFinite = false := by
  apply round_not_finite
  cases a with
  | fin x => simp [isFinite] at h
  | nan => cases b <;> rfl
  | ninf =>
    cases b with
    | fin y =>
      change (if y < 0 then pinf else ninf : Dbl F).isFinite = false
      split_ifs <;> rfl
    | nan => rfl
    | ninf => rfl
    | pinf => rfl
  | pinf =>
    cases b with
    | fin y =>
      change (if y < 0 then ninf else pinf : Dbl F).isFinite = false
      split_ifs <;> rfl
    | nan => rfl
    | ninf => rfl
    | pinf => rfl

/-- A quotient by zero is an infinity or NaN. -/
theorem rdiv_zero_not_finite (rnd : F → Dbl F) (a : Dbl F) :
    (Dbl.rdiv rnd a (Dbl.fin 0)).isFinite = false := by
  apply round_not_finite
  cases a with
  | fin x =>
    change (if (0 : F) = 0 then signedInf x else fin (x / 0)).isFinite = false
    rw [if_pos rfl]
    unfold signedInf
    split_ifs <;> rfl
  | nan => rfl
  | ninf =>
    change (if (0 : F) < 0 then pinf else ninf : Dbl F).isFinite = false
    split_ifs <;> rfl
  | pinf =>
    change (if (0 : F) < 0 then ninf else pinf : Dbl F).isFinite = false
    split_ifs <;> rfl

end NotFiniteMore
end Dbl

section RoundDoubleExact
variable {F : Type} [LinearOrderedField F] [FloorRing F]

/-- A power of two in the range of the normal doubles is a double. -/
theorem round_double_zpow (k : Int) (h1 : -1022 ≤ k) (h2 : k ≤ 1023) :
    round_double ((2 : F) ^ k) = Dbl.fin (2 ^ k) := by
  obtain ⟨y, hy, hl, hu⟩ := round_double_between_pow_two ((2 : F) ^ k) k k h1 h2 le_rfl le_rfl
  rw [hy, le_antisymm hu hl]

end RoundDoubleExact

section ExpModNormalUnderflow

theorem rmul_fin_eq {F : Type} [LinearOrderedField F] (rnd : F → Dbl F) (a b : F) :
    Dbl.rmul rnd (Dbl.fin a) (Dbl.fin b) = rnd (a * b) := rfl

theorem radd_fin_eq {F : Type} [LinearOrderedField F] (rnd : F → Dbl F) (a b : F) :
    Dbl.radd rnd (Dbl.fin a) (Dbl.fin b) = rnd (a + b) := rfl

theorem rsub_fin_eq {F : Type} [LinearOrderedField F] (rnd : F → Dbl F) (a b : F) :
    Dbl.rsub rnd (Dbl.fin a) (Dbl.fin b) = rnd (a - b) := by
  unfold Dbl.rsub
  rw [Dbl.fin_sub]
  rfl

theorem rdiv_fin_eq {F : Type} [LinearOrderedField F] (rnd : F → Dbl F) (a b : F) (hb : b ≠ 0) :
    Dbl.rdiv rnd (Dbl.fin a) (Dbl.fin b) = rnd (a / b) := by
  unfold Dbl.rdiv
  rw [Dbl.fin_div _ _ hb]
  rfl

/-- In binary64 arithmetic, with `mu = y = 0` and `sigma = lambda = 64`:
`diff = mu + lambda * sigma * sigma - y` is `2^18`. -/
theorem exp_mod_normal_diff_at_64 :
    Dbl.rsub round_double
      (Dbl.radd round_double (Dbl.fin (0 : ℝ))
        (Dbl.rmul round_double (Dbl.rmul round_double (Dbl.fin 64) (Dbl.fin 64)) (Dbl.fin 64)))
      (Dbl.fin 0) = Dbl.fin ((2 : ℝ) ^ (18 : Int)) := by
  have e1 : (64 * 64 : ℝ) = (2 : ℝ) ^ (12 : Int) := by norm_num
  have e2 : ((2 : ℝ) ^ (12 : Int) * 64 : ℝ) = (2 : ℝ) ^ (18 : Int) := by norm_num
  rw [rmul_fin_eq, e1, round_double_zpow 12 (by norm_num) (by norm_num), rmul_fin_eq, e2,
    round_double_zpow 18 (by norm_num) (by norm_num), radd_fin_eq, zero_add,
    round_double_zpow 18 (by norm_num) (by norm_num), rsub_fin_eq, sub_zero,
    round_double_zpow 18 (by norm_num) (by norm_num)]

/-- The double `sqrt(2.0)` of the rounded real square root lies between 1 and
2. -/
theorem rounded_sqrt_two :
    ∃ s : ℝ, Dbl.round round_double (Dbl.std_sqrt Real.sqrt (Dbl.fin 2)) = Dbl.fin s ∧
      1 ≤ s ∧ s ≤ 2 := by
  have h0 : (0 : ℝ) ≤ 2 := by norm_num
  have h1 : (2 : ℝ) ^ (0 : Int) ≤ Real.sqrt 2 := by
    rw [zpow_zero, Real.one_le_sqrt]
    norm_num
  have h2 : Real.sqrt 2 ≤ (2 : ℝ) ^ (1 : Int) := by
    rw [zpow_one, Real.sqrt_le_left h0]
    norm_num
  obtain ⟨s, hs, hl, hu⟩ := round_double_between_pow_two (Real.sqrt 2) 0 1 (by norm_num)
    (by norm_num) h1 h2
  refine ⟨s, ?_, by simpa using hl, by simpa using hu⟩
  simp only [Dbl.std_sqrt, h0, if_true, Dbl.round]
  exact hs

/-- The argument of `erfc` at this input is a double of at least 2048, in
either order of the product `sqrt(2.0) * sigma`. -/
theorem exp_mod_normal_erfc_argument_at_64 (s : ℝ) (h1 : 1 ≤ s) (h2 : s ≤ 2) :
    (∃ v : ℝ, Dbl.rdiv round_double (Dbl.fin ((2 : ℝ) ^ (18 : Int)))
        (Dbl.rmul round_double (Dbl.fin s) (Dbl.fin 64)) = Dbl.fin v ∧ 2048 ≤ v) ∧
    (∃ v : ℝ, Dbl.rdiv round_double (Dbl.fin ((2 : ℝ) ^ (18 : Int)))
        (Dbl.rmul round_double (Dbl.fin 64) (Dbl.fin s)) = Dbl.fin v ∧ 2048 ≤ v) := by
  have key : ∀ p : ℝ, (2 : ℝ) ^ (6 : Int) ≤ p → p ≤ (2 : ℝ) ^ (7 : Int) →
      ∃ v : ℝ, Dbl.rdiv round_double (Dbl.fin ((2 : ℝ) ^ (18 : Int)))
        (round_double p) = Dbl.fin v ∧ 2048 ≤ v := by
    intro p hp1 hp2
    obtain ⟨w, hw, hwl, hwu⟩ := round_double_between_pow_two p 6 7 (by norm_num) (by norm_num)
      hp1 hp2
    have hwpos : 0 < w := lt_of_lt_of_le (by positivity) hwl
    have hq1 : (2 : ℝ) ^ (11 : Int) ≤ 2 ^ (18 : Int) / w := by
      rw [le_div_iff₀ hwpos]
      calc (2 : ℝ) ^ (11 : Int) * w ≤ 2 ^ (11 : Int) * 2 ^ (7 : Int) :=
            mul_le_mul_of_nonneg_left hwu (by positivity)
        _ = 2 ^ (18 : Int) := by norm_num
    have hq2 : (2 : ℝ) ^ (18 : Int) / w ≤ 2 ^ (12 : Int) := by
      rw [div_le_iff₀ hwpos]
      calc (2 : ℝ) ^ (18 : Int) = 2 ^ (12 : Int) * 2 ^ (6 : Int) := by norm_num
        _ ≤ 2 ^ (12 : Int) * w := mul_le_mul_of_nonneg_left hwl (by positivity)
    obtain ⟨v, hv, hvl, _⟩ := round_double_between_pow_two _ 11 12 (by norm_num) (by norm_num)
      hq1 hq2
    refine ⟨v, ?_, ?_⟩
    · rw [hw, rdiv_fin_eq _ _ _ hwpos.ne']
      exact hv
    · have : (2 : ℝ) ^ (11 : Int) = 2048 := by norm_num
      linarith
  constructor
  · rw [rmul_fin_eq]
    refine key _ ?_ ?_
    · have : (2 : ℝ) ^ (6 : Int) = 64 := by norm_num
      nlinarith
    · have : (2 : ℝ) ^ (7 : Int) = 128 := by norm_num
      nlinarith
  · rw [rmul_fin_eq]
    refine key _ ?_ ?_
    · have : (2 : ℝ) ^ (6 : Int) = 64 := by norm_num
      nlinarith
    · have : (2 : ℝ) ^ (7 : Int) = 128 := by norm_num
      nlinarith

/-- The rounded complementary error function is 0 at every double of at least
2048. -/
theorem rounded_erfc_underflow (v : ℝ) (hv : 2048 ≤ v) :
    Dbl.round round_double (Dbl.std_erfc
      (fun u => 1 - 2 / Real.sqrt Real.pi * ∫ t in (0 : ℝ)..u, Real.exp (-(t ^ 2)))
      (Dbl.fin v)) = Dbl.fin 0 := by
  obtain ⟨h0, h1⟩ := erfc_integral_underflow v hv
  simp only [Dbl.std_erfc, Dbl.round]
  exact round_double_tiny _ h0 h1

end ExpModNormalUnderflow

section ExpModNormalUnderflowMain

/-- With `y = mu = 0` and `sigma = lambda = 64` in binary64 arithmetic, when
`sqrt(2.0)` is a double between 1 and 2, `erfc` is 0 at every double of at
least 2048 and `log(0) = -inf`: `erfc` underflows to 0, `deriv_logerfc` is a
quotient by zero, and neither the value nor any of the four partials is
finite. -/
theorem exp_mod_normal_lpdf_not_finite_at_64 (fns : ExpModNormalFunctions ℝ) (s : ℝ)
    (hs1 : 1 ≤ s) (hs2 : s ≤ 2) (hsqrt : fns.sqrt (Dbl.fin 2) = Dbl.fin s)
    (herfc : ∀ v : ℝ, 2048 ≤ v → fns.erfc (Dbl.fin v) = Dbl.fin 0)
    (hlog0 : fns.log (Dbl.fin 0) = Dbl.ninf) :
    ∃ r d1 d2 d3 d4, exp_mod_normal_lpdf round_double fns false
        (Operand.var (Seq.scalar (Dbl.fin 0))) (Operand.var (Seq.scalar (Dbl.fin 0)))
        (Operand.var (Seq.scalar (Dbl.fin 64)))
        (Operand.var (Seq.scalar (Dbl.fin 64))) = Except.ok r ∧
      r.value.isFinite = false ∧
      r.partials1 = [d1] ∧ r.partials2 = [d2] ∧ r.partials3 = [d3] ∧ r.partials4 = [d4] ∧
      d1.isFinite = false ∧ d2.isFinite = false ∧ d3.isFinite = false ∧
      d4.isFinite = false := by
  obtain ⟨⟨v1, hv1, hv1'⟩, ⟨v2, hv2, hv2'⟩⟩ := exp_mod_normal_erfc_argument_at_64 s hs1 hs2
  have hE1 : fns.erfc (Dbl.rdiv round_double
      (Dbl.rsub round_double
        (Dbl.radd round_double (Dbl.fin (0 : ℝ))
          (Dbl.rmul round_double (Dbl.rmul round_double (Dbl.fin 64) (Dbl.fin 64)) (Dbl.fin 64)))
        (Dbl.fin 0))
      (Dbl.rmul round_double (fns.sqrt (Dbl.fin 2)) (Dbl.fin 64))) = Dbl.fin 0 := by
    rw [hsqrt, exp_mod_normal_diff_at_64, hv1]
    exact herfc v1 hv1'
  have hE2 : fns.erfc (Dbl.rdiv round_double
      (Dbl.rsub round_double
        (Dbl.radd round_double (Dbl.fin (0 : ℝ))
          (Dbl.rmul round_double (Dbl.rmul round_double (Dbl.fin 64) (Dbl.fin 64)) (Dbl.fin 64)))
        (Dbl.fin 0))
      (Dbl.rmul round_double (Dbl.fin 64) (fns.sqrt (Dbl.fin 2)))) = Dbl.fin 0 := by
    rw [hsqrt, exp_mod_normal_diff_at_64, hv2]
    exact herfc v2 hv2'
  refine ⟨_, _, _, _, _, exp_mod_normal_lpdf_scalar_rounded round_double fns 0 0 64 64
    (by norm_num) (by norm_num) _ _ _ rfl rfl rfl, ?_, rfl, rfl, rfl, rfl, ?_, ?_, ?_, ?_⟩
  · apply Dbl.radd_not_finite_right
    apply Dbl.radd_not_finite_right
    rw [hE1, hlog0]
    rfl
  · apply Dbl.radd_not_finite_right
    apply Dbl.radd_not_finite_right
    apply Dbl.rdiv_not_finite_left
    apply Dbl.rmul_not_finite_left
    rw [hE2]
    exact Dbl.rdiv_zero_not_finite _ _
  · apply Dbl.radd_not_finite_right
    apply Dbl.radd_not_finite_right
    apply Dbl.rdiv_not_finite_left
    rw [hE2]
    exact Dbl.rdiv_zero_not_finite _ _
  · apply Dbl.radd_not_finite_right
    apply Dbl.radd_not_finite_right
    apply Dbl.rmul_not_finite_left
    rw [hE2]
    exact Dbl.rdiv_zero_not_finite _ _
  · apply Dbl.radd_not_finite_right
    apply Dbl.radd_not_finite_right
    apply Dbl.rdiv_not_finite_left
    apply Dbl.rmul_not_finite_left
    rw [hE2]
    exact Dbl.rdiv_zero_not_finite _ _

end ExpModNormalUnderflowMain

end Stan
